import Mathlib

/-!
# cluster-api-provider-baremetal: user-data merger, host claim engine, remediation

A shallow embedding of

* `baremetal/userdata_merger.go` (`mergeList`, `mergeMap`, `mergeCloudInitMaps`,
  `fetchUserDataFromSecret`, `mergeCloudInitWrapper`, `mergeCloudInit`), and
* `pkg/cloud/baremetal/actuators/machine/actuator.go` (`getHost`, `chooseHost`,
  `consumerRefMatches`, `Delete`, `setHostSpec`, `nodeAddresses`),
* `baremetal/machine.go` and `controllers/baremetalmachine_controller.go` (`NewMachine`,
  `ProviderID`, `reconcileNormal`),
* `api/v1alpha2/baremetalmachine_types.go` (`IsValid`),
* `pkg/baremetal/remediator/remediator.go` (`Reboot` and its helpers) with
  `pkg/utils/conditions/conditions.go`,
* `pkg/controller/machineset/machineset_controller.go` (`Reconcile`), and
* `pkg/controllers/nodereboot/nodereboot_controller.go` (`Reconcile`, `isRebootInProgress`)
  with `pkg/utils/machines/machines.go`,

followed by the properties proved about them.

Go maps are association lists with pairwise distinct keys; the order of the list is the
order in which a `range` loop visits the entries, so a statement quantified over all lists
covers every iteration order.  A run-time panic is an outcome of its own (`Result.panicked`),
distinct from a returned error.
-/

set_option autoImplicit false

namespace Baremetal

/-! ## Decoded YAML values -/

/-- A decoded YAML scalar held as a value, as `yaml.v2` stores it in an `interface{}`.
Floats are kept by their bit pattern; the merger never compares two values, only the keys
of mappings, which are of the type `MapKey`. -/
inductive Scalar where
  | str (s : String)
  | int (i : Int)
  | bool (b : Bool)
  | float (bits : Nat)
  deriving DecidableEq, Repr

/-- A key of a decoded mapping, as `yaml.v2` stores it in the `interface{}` key of a
`map[interface{}]interface{}`: `nil` (the key `~`), a string, an integer, a boolean or a
float, the float by its bit pattern, read modulo `2^64`. -/
inductive MapKey where
  | null
  | str (s : String)
  | int (i : Int)
  | bool (b : Bool)
  | float (bits : Nat)
  deriving DecidableEq, Repr

/-- Whether the bit pattern of a `float64` is a NaN: the exponent is all ones and the
mantissa is not zero. -/
def float64IsNaN (bits : Nat) : Bool :=
  decide ((bits / 2 ^ 52) % 2 ^ 11 = 2047) && !decide (bits % 2 ^ 52 = 0)

/-- The comparison `==` of two `float64` given by their bit patterns: a NaN equals nothing,
the two zeros are equal, and any other two floats are equal when their bits are. -/
def float64Eq (a b : Nat) : Bool :=
  !float64IsNaN a && !float64IsNaN b &&
    (decide (a % 2 ^ 64 = b % 2 ^ 64) || (decide (a % 2 ^ 63 = 0) && decide (b % 2 ^ 63 = 0)))

/-- The comparison `==` of two keys held in an `interface{}`, which the map uses to find a
key: the dynamic types are the same and the values are equal. -/
def MapKey.eq : MapKey → MapKey → Bool
  | .null, .null => true
  | .str a, .str b => decide (a = b)
  | .int a, .int b => decide (a = b)
  | .bool a, .bool b => decide (a = b)
  | .float a, .float b => float64Eq a b
  | _, _ => false

/-- A decoded YAML value held in an `interface{}`: `nil`, a scalar, `[]interface{}` or
`map[interface{}]interface{}`. -/
inductive Value where
  | null
  | scalar (s : Scalar)
  | seq (items : List Value)
  | map (entries : List (MapKey × Value))

/-- The values of `reflect.Kind` that a decoded YAML value can have. -/
inductive Kind where
  | String
  | Int
  | Bool
  | Float64
  | Slice
  | Map
  deriving DecidableEq, Repr

/-- The expression `reflect.TypeOf(v).Kind()`; `none` stands for the nil-pointer panic that
`reflect.TypeOf(nil).Kind()` raises. -/
def Value.kind : Value → Option Kind
  | .null => none
  | .scalar (.str _) => some .String
  | .scalar (.int _) => some .Int
  | .scalar (.bool _) => some .Bool
  | .scalar (.float _) => some .Float64
  | .seq _ => some .Slice
  | .map _ => some .Map

/-- The three kinds of the merge rules (plus null): the view of a value the prose uses. -/
inductive Shape where
  | null
  | scalar
  | sequence
  | mapping
  deriving DecidableEq, Repr

/-- The shape of a value. -/
def Value.shape : Value → Shape
  | .null => .null
  | .scalar _ => .scalar
  | .seq _ => .sequence
  | .map _ => .mapping

/-- A cloud-init document: `map[string]interface{}`. -/
abbrev Doc := List (String × Value)

/-- The map read `m[k]` with its `ok` flag. -/
def mapGet {κ : Type} [DecidableEq κ] : List (κ × Value) → κ → Option Value
  | [], _ => none
  | (k', v) :: rest, k => if k' = k then some v else mapGet rest k

/-- The map write `m[k] = v`: overwrite the entry of `k`, or add one. -/
def mapSet {κ : Type} [DecidableEq κ] : List (κ × Value) → κ → Value → List (κ × Value)
  | [], k, v => [(k, v)]
  | (k', v') :: rest, k, v => if k' = k then (k', v) :: rest else (k', v') :: mapSet rest k v

/-- The keys of a map, in iteration order. -/
def keys {κ : Type} (m : List (κ × Value)) : List κ := m.map Prod.fst

/-- The read `m[k]` of a `map[interface{}]interface{}` with its `ok` flag: the entry whose
key equals `k` by `==`. -/
def keyGet : List (MapKey × Value) → MapKey → Option Value
  | [], _ => none
  | (k', v) :: rest, k => if k'.eq k then some v else keyGet rest k

/-- The write `m[k] = v` of a `map[interface{}]interface{}`: the value of the entry whose key
equals `k` by `==` is replaced, or an entry is added. -/
def keySet : List (MapKey × Value) → MapKey → Value → List (MapKey × Value)
  | [], k, v => [(k, v)]
  | (k', v') :: rest, k, v => if k'.eq k then (k', v) :: rest else (k', v') :: keySet rest k v

/-- Whether no two of the keys are equal by `==`, as in every Go map; several NaN keys are
distinct keys. -/
def keysDistinct : List MapKey → Bool
  | [] => true
  | k :: rest => (rest.all fun k' => !k.eq k') && keysDistinct rest

/-! ## Errors and outcomes -/

/-- An error of the API client (`client.Get`, `client.List`, `client.Update`);
`notFound` is what `errors.IsNotFound` tests. -/
structure APIError where
  notFound : Bool
  message : String
  deriving DecidableEq, Repr

/-- The errors the user-data merger returns. -/
inductive MergeError where
  /-- The error `Duplicated key %s` of `mergeMap`. -/
  | duplicatedKey (key : MapKey)
  /-- The error `Types not matching for %s`. -/
  | typesNotMatching (key : String)
  /-- The error `Unexpected type for %s`. -/
  | unexpectedType (key : String)
  /-- The error `Error merging for %s: %s`. -/
  | errorMerging (key : String) (inner : MergeError)
  /-- The error `Error unmarshaling YAML: %s`. -/
  | unmarshaling (msg : String)
  /-- The error `No userData field in userData Secret %s`. -/
  | noUserDataField (secretName : String)
  /-- The error of `yaml.Marshal`, returned as is. -/
  | marshaling (msg : String)
  /-- An error of the API client, returned as is. -/
  | api (e : APIError)
  deriving DecidableEq, Repr

/-- What a call of the merger does: return a value, return an error, or panic. -/
inductive Result (α : Type) where
  | ok (v : α)
  | error (e : MergeError)
  | panicked

/-! ## `userdata_merger.go` -/

/-- The function `mergeList`: both arguments are type-asserted to `[]interface{}` (a failed
assertion panics) and the second is appended to the first. -/
def mergeList (list1 list2 : Value) : Result Value :=
  match list2, list1 with
  | .seq appendList, .seq outputList => .ok (.seq (outputList ++ appendList))
  | _, _ => .panicked

/-- The loop of `mergeMap` over the second map: a key already in `outputMap` is an error,
any other entry is added to it. -/
def mergeMapLoop : List (MapKey × Value) → List (MapKey × Value) → Result Value
  | outputMap, [] => .ok (.map outputMap)
  | outputMap, (nested_k, nested_v) :: rest =>
    match keyGet outputMap nested_k with
    | some _ => .error (.duplicatedKey nested_k)
    | none => mergeMapLoop (keySet outputMap nested_k nested_v) rest

/-- The function `mergeMap`: both arguments are type-asserted to
`map[interface{}]interface{}` and the second is merged into the first. -/
def mergeMap (map1 map2 : Value) : Result Value :=
  match map2, map1 with
  | .map mergeMap, .map outputMap => mergeMapLoop outputMap mergeMap
  | _, _ => .panicked

/-- The body of the first loop of `mergeCloudInitMaps` once `valueMap2` was found: compare
the kinds, then merge according to the kind. -/
def mergeValues (keyMap1 : String) (valueMap1 valueMap2 : Value) : Result Value :=
  match valueMap1.kind, valueMap2.kind with
  | none, _ => .panicked
  | some _, none => .panicked
  | some k1, some k2 =>
    if k1 ≠ k2 then .error (.typesNotMatching keyMap1)
    else
      match k1 with
      | .Slice =>
        match mergeList valueMap1 valueMap2 with
        | .ok v => .ok v
        | .error e => .error (.errorMerging keyMap1 e)
        | .panicked => .panicked
      | .Map =>
        match mergeMap valueMap1 valueMap2 with
        | .ok v => .ok v
        | .error e => .error (.errorMerging keyMap1 e)
        | .panicked => .panicked
      | _ => .error (.unexpectedType keyMap1)

/-- The first loop of `mergeCloudInitMaps`, over the entries of `yaml1Struct` not yet
visited, with the output built so far. -/
def mergeLoop1 (yaml2Struct : Doc) : Doc → Doc → Result Doc
  | [], yamlStructOutput => .ok yamlStructOutput
  | (keyMap1, valueMap1) :: rest, yamlStructOutput =>
    match mapGet yaml2Struct keyMap1 with
    | none => mergeLoop1 yaml2Struct rest (mapSet yamlStructOutput keyMap1 valueMap1)
    | some valueMap2 =>
      match mergeValues keyMap1 valueMap1 valueMap2 with
      | .ok v =>
        mergeLoop1 yaml2Struct rest (mapSet (mapSet yamlStructOutput keyMap1 valueMap1) keyMap1 v)
      | .error e => .error e
      | .panicked => .panicked

/-- The second loop of `mergeCloudInitMaps`: the keys of `yaml2Struct` that `yaml1Struct`
lacks are added to the output. -/
def mergeLoop2 (yaml1Struct : Doc) : Doc → Doc → Doc
  | [], yamlStructOutput => yamlStructOutput
  | (keyMap2, valueMap2) :: rest, yamlStructOutput =>
    match mapGet yaml1Struct keyMap2 with
    | some _ => mergeLoop2 yaml1Struct rest yamlStructOutput
    | none => mergeLoop2 yaml1Struct rest (mapSet yamlStructOutput keyMap2 valueMap2)

/-- The function `mergeCloudInitMaps`. -/
def mergeCloudInitMaps (yaml1Struct yaml2Struct : Doc) : Result Doc :=
  match mergeLoop1 yaml2Struct yaml1Struct [] with
  | .ok yamlStructOutput => .ok (mergeLoop2 yaml1Struct yaml2Struct yamlStructOutput)
  | .error e => .error e
  | .panicked => .panicked

/-- A `corev1.SecretReference`. -/
structure SecretReference where
  Name : String
  Namespace : String
  deriving DecidableEq, Repr

/-- A `corev1.Secret`, reduced to its `Data` field; byte strings are kept as strings. -/
structure Secret where
  Data : List (String × String)
  deriving DecidableEq, Repr

/-- The lookup `m[k]` of a `map[string]string` or `map[string][]byte`. -/
def lookupStr : List (String × String) → String → Option String
  | [], _ => none
  | (k', v) :: rest, k => if k' = k then some v else lookupStr rest k

/-- What a `MachineManager` reaches when it merges user data: the namespace of its
`BareMetalMachine`, the `Get` of its client on secrets (namespace first, then name) and the
YAML decoder `yaml.Unmarshal` of `gopkg.in/yaml.v2`. -/
structure MachineManager where
  BareMetalMachineNamespace : String
  getSecret : String → String → Except APIError Secret
  yamlUnmarshal : String → Except String Doc

/-- The function `unmarshal`. -/
def unmarshal (mgr : MachineManager) (yamlDoc : String) : Result Doc :=
  match mgr.yamlUnmarshal yamlDoc with
  | .error msg => .error (.unmarshaling msg)
  | .ok yamlStruct => .ok yamlStruct

/-- The method `fetchUserDataFromSecret`: default the namespace to the machine's, fetch the
secret, require its `userData` field and parse it. -/
def fetchUserDataFromSecret (mgr : MachineManager) (inputUserDataSecret : SecretReference) :
    Result Doc :=
  let ns :=
    if inputUserDataSecret.Namespace = "" then mgr.BareMetalMachineNamespace
    else inputUserDataSecret.Namespace
  match mgr.getSecret ns inputUserDataSecret.Name with
  | .error e => .error (.api e)
  | .ok tmpInputSecret =>
    match lookupStr tmpInputSecret.Data "userData" with
    | none => .error (.noUserDataField inputUserDataSecret.Name)
    | some userData => unmarshal mgr userData

/-- The method `mergeCloudInitWrapper`; the flag `prepend` is spelled `prepend_`. -/
def mergeCloudInitWrapper (mgr : MachineManager) (inputUserDataSecret : Option SecretReference)
    (userDataStruct : Doc) (prepend_ : Bool) : Result Doc :=
  match inputUserDataSecret with
  | some ref =>
    match fetchUserDataFromSecret mgr ref with
    | .ok addStruct =>
      if prepend_ then mergeCloudInitMaps addStruct userDataStruct
      else mergeCloudInitMaps userDataStruct addStruct
    | .error e => .error e
    | .panicked => .panicked
  | none => .ok userDataStruct

/-! ## Hosts and machines -/

/-- A `corev1.ObjectReference`, reduced to the fields the actuator reads and writes. -/
structure ObjectReference where
  Kind : String
  Name : String
  Namespace : String
  APIVersion : String
  deriving DecidableEq, Repr

/-- The image of a host (`bmh.Image`). -/
structure Image where
  URL : String
  Checksum : String
  deriving DecidableEq, Repr

/-- Modelled from the spec: the provisioning states of a host (§3, "observed"), which the
host API package of the bare metal operator declares and the sources here only name.
`StateNone` is the empty string, the state of a host that never reported one. -/
inductive ProvisioningState where
  | StateNone
  | StateRegistrationError
  | StateRegistering
  | StateMatchProfile
  | StateReady
  | StateValidationError
  | StateProvisioning
  | StateProvisioningError
  | StateProvisioned
  | StateExternallyProvisioned
  | StateDeprovisioning
  | StateInspecting
  | StatePowerManagementError
  deriving DecidableEq, Repr

/-- A network interface of the hardware details. -/
structure NIC where
  IP : String
  deriving DecidableEq, Repr

/-- The hardware details of a host status. -/
structure HardwareDetails where
  NIC : List NIC
  Hostname : String
  deriving DecidableEq, Repr

/-- The desired state of a host (`bmh.BareMetalHostSpec`). -/
structure BareMetalHostSpec where
  ConsumerRef : Option ObjectReference := none
  Image : Option Image := none
  UserData : Option SecretReference := none
  Online : Bool := false
  deriving DecidableEq, Repr

/-- The observed state of a host (`bmh.BareMetalHostStatus`); `State` is
`Status.Provisioning.State`. -/
structure BareMetalHostStatus where
  State : ProvisioningState := .StateNone
  PoweredOn : Bool := false
  ErrorMessage : String := ""
  HardwareDetails : Option HardwareDetails := none
  deriving DecidableEq, Repr

/-- A host (`bmh.BareMetalHost`). -/
structure BareMetalHost where
  Name : String
  Namespace : String
  Labels : List (String × String) := []
  Annotations : List (String × String) := []
  Spec : BareMetalHostSpec := {}
  Status : BareMetalHostStatus := {}
  deriving DecidableEq, Repr

/-- A machine (`capi.Machine`), reduced to its type and object metadata and to the node
reference of its status (`Status.NodeRef`). -/
structure Machine where
  Kind : String
  APIVersion : String
  Name : String
  Namespace : String
  Annotations : List (String × String) := []
  NodeRef : Option ObjectReference := none
  deriving DecidableEq, Repr

/-- A requirement of a host selector (`HostSelectorRequirement`). -/
structure HostSelectorRequirement where
  Key : String
  Operator : String
  Values : List String
  deriving DecidableEq, Repr

/-- The host selector of a provider spec. -/
structure HostSelector where
  MatchLabels : List (String × String) := []
  MatchExpressions : List HostSelectorRequirement := []
  deriving DecidableEq, Repr

/-- The provider spec of a machine (`capbm.BareMetalMachineProviderSpec`). -/
structure BareMetalMachineProviderSpec where
  Image : Image
  UserData : Option SecretReference := none
  HostSelector : HostSelector := {}
  deriving DecidableEq, Repr

/-! ## The API client -/

/-- The store behind `client.Client`, reduced to hosts: its content, and for each verb the
transport error the next call of that verb returns, if any. -/
structure Client where
  hosts : List BareMetalHost
  getErr : Option APIError := none
  listErr : Option APIError := none
  updateErr : Option APIError := none

/-- Whether a host is stored under the key `namespace/name`. -/
def hasKey (hostNamespace hostName : String) (h : BareMetalHost) : Bool :=
  decide (h.Namespace = hostNamespace) && decide (h.Name = hostName)

/-- The call `client.Get(ctx, key, &host)`. -/
def Client.Get (c : Client) (hostNamespace hostName : String) : Except APIError BareMetalHost :=
  match c.getErr with
  | some e => .error e
  | none =>
    match c.hosts.find? (hasKey hostNamespace hostName) with
    | some h => .ok h
    | none => .error { notFound := true, message := "not found" }

/-- The call `client.List(ctx, opts, &hosts)` with `opts.Namespace` set. -/
def Client.List (c : Client) (ns : String) : Except APIError (List BareMetalHost) :=
  match c.listErr with
  | some e => .error e
  | none => .ok (c.hosts.filter fun h => decide (h.Namespace = ns))

/-- The call `client.Update(ctx, host)`: the stored object of the same key is replaced. -/
def Client.Update (c : Client) (host : BareMetalHost) : Client × Option APIError :=
  match c.updateErr with
  | some e => (c, some e)
  | none =>
    if c.hosts.any (hasKey host.Namespace host.Name) then
      ({ c with hosts := c.hosts.map fun h =>
          if hasKey host.Namespace host.Name h then host else h }, none)
    else (c, some { notFound := true, message := "not found" })

/-! ## `actuator.go` -/

/-- The constant `HostAnnotation`. -/
def HostAnnotation : String := "metal3.io/BareMetalHost"

/-- The constant `requeueAfter`, in seconds. -/
def requeueAfter : Nat := 30

/-- The errors the actuator returns. -/
inductive ActuatorError where
  /-- The error `RequeueAfterError` with its delay in seconds. -/
  | RequeueAfterError (RequeueAfter : Nat)
  /-- An error of the API client, returned as is. -/
  | api (e : APIError)
  /-- The error of `cache.SplitMetaNamespaceKey`. -/
  | unexpectedKeyFormat (key : String)
  /-- The error of `labels.NewRequirement`. -/
  | requirement (msg : String)
  deriving DecidableEq, Repr

/-- The pieces of a string between slashes (`strings.Split(key, "/")`). -/
def splitSlash : List Char → List (List Char)
  | [] => [[]]
  | c :: cs =>
    if c = '/' then [] :: splitSlash cs
    else
      match splitSlash cs with
      | [] => [[c]]
      | p :: ps => (c :: p) :: ps

/-- The function `cache.SplitMetaNamespaceKey`: one piece is a name, two are a namespace
and a name, anything else is an error. -/
def SplitMetaNamespaceKey (key : String) : Except ActuatorError (String × String) :=
  match splitSlash key.data with
  | [name] => .ok ("", String.mk name)
  | [ns, name] => .ok (String.mk ns, String.mk name)
  | _ => .error (.unexpectedKeyFormat key)

/-- The method `getHost`: the host the annotation of the machine names, `none` when the
annotation or the host is missing. -/
def getHost (c : Client) (machine : Machine) : Except ActuatorError (Option BareMetalHost) :=
  match lookupStr machine.Annotations HostAnnotation with
  | none => .ok none
  | some hostKey =>
    match SplitMetaNamespaceKey hostKey with
    | .error err => .error err
    | .ok (hostNamespace, hostName) =>
      match c.Get hostNamespace hostName with
      | .ok host => .ok (some host)
      | .error err => if err.notFound then .ok none else .error (.api err)

/-- The function `consumerRefMatches`. -/
def consumerRefMatches (consumer : ObjectReference) (machine : Machine) : Bool :=
  if consumer.Name ≠ machine.Name then false
  else if consumer.Namespace ≠ machine.Namespace then false
  else if consumer.Kind ≠ machine.Kind then false
  else if consumer.APIVersion ≠ machine.APIVersion then false
  else true

/-- A requirement of a label selector (`labels.Requirement`). -/
structure Requirement where
  key : String
  operator : String
  strValues : List String
  deriving DecidableEq, Repr

/-- The library functions `chooseHost` calls: `Available` of the host type, the constructor
`labels.NewRequirement` and the test `Matches` of a selector made of requirements,
`strings.ToLower`, and `rand.Intn` after the reseeding. -/
structure Lib where
  Available : BareMetalHost → Bool
  NewRequirement : String → String → List String → Except String Requirement
  Matches : List Requirement → List (String × String) → Bool
  ToLower : String → String
  Intn : Nat → Nat

/-- The operator `selection.Equals`. -/
def selectionEquals : String := "="

/-- The first loop of `chooseHost`: one requirement per entry of `MatchLabels`. -/
def matchLabelsReqs (lib : Lib) :
    List (String × String) → List Requirement → Except ActuatorError (List Requirement)
  | [], reqs => .ok reqs
  | (labelKey, labelVal) :: rest, reqs =>
    match lib.NewRequirement labelKey selectionEquals [labelVal] with
    | .error err => .error (.requirement err)
    | .ok r => matchLabelsReqs lib rest (reqs ++ [r])

/-- The second loop of `chooseHost`: one requirement per entry of `MatchExpressions`, its
operator in lower case. -/
def matchExpressionsReqs (lib : Lib) :
    List HostSelectorRequirement → List Requirement → Except ActuatorError (List Requirement)
  | [], reqs => .ok reqs
  | req :: rest, reqs =>
    match lib.NewRequirement req.Key (lib.ToLower req.Operator) req.Values with
    | .error err => .error (.requirement err)
    | .ok r => matchExpressionsReqs lib rest (reqs ++ [r])

/-- The requirements `chooseHost` adds to its label selector. -/
def selectorReqs (lib : Lib) (sel : HostSelector) : Except ActuatorError (List Requirement) :=
  match matchLabelsReqs lib sel.MatchLabels [] with
  | .error err => .error err
  | .ok reqs => matchExpressionsReqs lib sel.MatchExpressions reqs

/-- The loop of `chooseHost` over the listed hosts: it stops at the first host that is not
available and whose consumer reference matches the machine (left), and otherwise collects
the available hosts the selector matches (right). -/
def scanHosts (lib : Lib) (reqs : List Requirement) (machine : Machine) :
    List BareMetalHost → List BareMetalHost → BareMetalHost ⊕ List BareMetalHost
  | [], availableHosts => .inr availableHosts
  | host :: rest, availableHosts =>
    if lib.Available host then
      if lib.Matches reqs host.Labels then
        scanHosts lib reqs machine rest (availableHosts ++ [host])
      else scanHosts lib reqs machine rest availableHosts
    else
      match host.Spec.ConsumerRef with
      | some consumer =>
        if consumerRefMatches consumer machine then .inl host
        else scanHosts lib reqs machine rest availableHosts
      | none => scanHosts lib reqs machine rest availableHosts

/-- What `chooseHost` does: return an error, return no host, return a host, or panic on an
index outside `availableHosts`. -/
inductive ChooseResult where
  | error (err : ActuatorError)
  | noHost
  | host (h : BareMetalHost)
  | indexOutOfRange
  deriving DecidableEq, Repr

/-- The method `chooseHost`. -/
def chooseHost (lib : Lib) (c : Client) (machine : Machine)
    (config : BareMetalMachineProviderSpec) : ChooseResult :=
  match c.List machine.Namespace with
  | .error err => .error (.api err)
  | .ok hosts =>
    match selectorReqs lib config.HostSelector with
    | .error err => .error err
    | .ok reqs =>
      match scanHosts lib reqs machine hosts [] with
      | .inl host => .host host
      | .inr availableHosts =>
        if availableHosts.length = 0 then .noHost
        else
          match availableHosts.get? (lib.Intn availableHosts.length) with
          | some chosenHost => .host chosenHost
          | none => .indexOutOfRange

/-- The `switch` of `Delete` on the provisioning state: whether to wait for the host to be
deprovisioned. -/
def waiting (host : BareMetalHost) : Bool :=
  match host.Status.State with
  | .StateRegistrationError | .StateRegistering | .StateMatchProfile | .StateInspecting
  | .StateReady | .StateValidationError => false
  | .StateExternallyProvisioned => host.Status.PoweredOn
  | _ => true

/-- The method `Delete`: the client after the call and the error returned (`none` is
`nil`). -/
def Delete (c : Client) (machine : Machine) : Client × Option ActuatorError :=
  match getHost c machine with
  | .error err => (c, some err)
  | .ok none => (c, none)
  | .ok (some host) =>
    match host.Spec.ConsumerRef with
    | none => (c, none)
    | some consumer =>
      if !consumerRefMatches consumer machine then (c, none)
      else if host.Spec.Image.isSome || host.Spec.Online || host.Spec.UserData.isSome then
        let host := { host with Spec := { host.Spec with Image := none, Online := false,
                                                         UserData := none } }
        match c.Update host with
        | (c, some err) =>
          if !err.notFound then (c, some (.api err)) else (c, some (.RequeueAfterError 0))
        | (c, none) => (c, some (.RequeueAfterError 0))
      else if waiting host then (c, some (.RequeueAfterError requeueAfter))
      else
        let host := { host with Spec := { host.Spec with ConsumerRef := none } }
        match c.Update host with
        | (c, some err) => if !err.notFound then (c, some (.api err)) else (c, none)
        | (c, none) => (c, none)

/-! ## Well-formed documents and conflicts -/

/-- Whether the mappings a document holds have pairwise distinct keys, as every Go map
has. -/
def innerKeysDistinct : Doc → Bool
  | [] => true
  | (_, .map m) :: rest => keysDistinct (keys m) && innerKeysDistinct rest
  | _ :: rest => innerKeysDistinct rest

/-- Whether no value of a document is null. -/
def noNulls : Doc → Bool
  | [] => true
  | (_, .null) :: _ => false
  | _ :: rest => noNulls rest

/-- Two mappings share a key: a key of the first equals a key of the second by `==`. -/
def SharesKey (m1 m2 : List (MapKey × Value)) : Prop :=
  ∃ k1 k2, k1 ∈ keys m1 ∧ k2 ∈ keys m2 ∧ k1.eq k2 = true

/-- The conflicts of the merge rules between the two values of one key: the kinds differ,
or both are scalars, or both are mappings that share a key. -/
def Conflict (v1 v2 : Value) : Prop :=
  v1.shape ≠ v2.shape ∨ (v1.shape = .scalar ∧ v2.shape = .scalar) ∨
    ∃ m1 m2, v1 = .map m1 ∧ v2 = .map m2 ∧ SharesKey m1 m2

/-! ## Sample documents -/

/-- The first document of `TestMergeCloudInitMaps`. -/
def sampleMap1 : Doc :=
  [("abc", .scalar (.str "abc")), ("def", .seq [.scalar (.str "def")]),
   ("ghi", .map [(.str "jkl", .scalar (.str "jkl"))])]

/-- The second document of `TestMergeCloudInitMaps`. -/
def sampleMap2 : Doc :=
  [("bcd", .scalar (.str "bcd")), ("def", .seq [.scalar (.str "efg")]),
   ("ghi", .map [(.str "klm", .scalar (.str "klm"))])]

/-- A document with one scalar, the "conflict" case of `TestMergeCloudInitMaps` with equal
values on both sides. -/
def sampleScalar : Doc := [("abc", .scalar (.str "abc"))]

/-- A manager whose client holds no secret and whose decoder accepts nothing. -/
def sampleManager : MachineManager where
  BareMetalMachineNamespace := "myns"
  getSecret := fun _ _ => .error { notFound := true, message := "not found" }
  yamlUnmarshal := fun _ => .error "no document"

/-! ## Bound hosts, and a sample world -/

/-- Whether the consumer reference of a host is set and matches the machine. -/
def boundTo (machine : Machine) (host : BareMetalHost) : Bool :=
  match host.Spec.ConsumerRef with
  | some consumer => consumerRefMatches consumer machine
  | none => false

/-- The states in which `Delete` takes the host as not provisioned. -/
def notProvisionedStates : List ProvisioningState :=
  [.StateRegistering, .StateRegistrationError, .StateMatchProfile, .StateInspecting,
   .StateReady, .StateValidationError]

/-- Modelled from the spec: the availability predicate of a host (§3), which the host API
package of the bare metal operator implements and the sources here only call: the state is
ready, there is no consumer reference and no error message. -/
def specAvailable (host : BareMetalHost) : Bool :=
  decide (host.Status.State = .StateReady) && host.Spec.ConsumerRef.isNone &&
    decide (host.Status.ErrorMessage = "")

/-- A small stand-in for `labels.NewRequirement`: the operators `=`, `in` and `exists` with
the number of values each takes. -/
def sampleNewRequirement (key op : String) (vals : List String) : Except String Requirement :=
  if op = "=" then
    if vals.length = 1 then .ok { key := key, operator := op, strValues := vals }
    else .error "exact-match compatibility requires one single value"
  else if op = "in" then
    if vals.length = 0 then .error "values set can't be empty"
    else .ok { key := key, operator := op, strValues := vals }
  else if op = "exists" then
    if vals.length = 0 then .ok { key := key, operator := op, strValues := vals }
    else .error "values set must be empty for exists"
  else .error "operator is not recognized"

/-- A small stand-in for `Requirement.Matches` on the operators of `sampleNewRequirement`. -/
def sampleMatchesOne (r : Requirement) (ls : List (String × String)) : Bool :=
  match lookupStr ls r.key with
  | none => false
  | some v => if r.operator = "exists" then true else r.strValues.contains v

/-- A sample of the library functions: the availability predicate of the spec, the
stand-ins above, ASCII lower case, and a random source that always answers `0`. -/
def sampleLib : Lib where
  Available := specAvailable
  NewRequirement := sampleNewRequirement
  Matches := fun reqs ls => reqs.all fun r => sampleMatchesOne r ls
  ToLower := fun s => String.mk (s.data.map Char.toLower)
  Intn := fun _ => 0

/-- The machine of `TestDelete`. -/
def sampleMachine : Machine where
  Kind := "Machine"
  APIVersion := "cluster.k8s.io/v1alpha1"
  Name := "mymachine"
  Namespace := "myns"
  Annotations := [( HostAnnotation, "myns/myhost")]

/-- The consumer reference that names `sampleMachine`. -/
def sampleConsumer : ObjectReference where
  Kind := "Machine"
  Name := "mymachine"
  Namespace := "myns"
  APIVersion := "cluster.k8s.io/v1alpha1"

/-- The host of the case "deprovisioning not required, no host status" of `TestDelete`:
bound to the machine, nothing to deprovision, no status. -/
def hostNoStatus : BareMetalHost where
  Name := "myhost"
  Namespace := "myns"
  Spec := { ConsumerRef := some sampleConsumer }

/-- The host of the case "deprovisioning required" of `TestDelete`. -/
def hostProvisioned : BareMetalHost where
  Name := "myhost"
  Namespace := "myns"
  Spec := { ConsumerRef := some sampleConsumer, Image := some { URL := "myimage", Checksum := "" } }
  Status := { State := .StateProvisioned }

/-- The host of the case "consumer ref should be removed" of `TestDelete`. -/
def hostReady : BareMetalHost where
  Name := "myhost"
  Namespace := "myns"
  Spec := { ConsumerRef := some sampleConsumer }
  Status := { State := .StateReady }

/-- The host of the case "deprovisioning in progress" of `TestDelete`. -/
def hostDeprovisioning : BareMetalHost where
  Name := "myhost"
  Namespace := "myns"
  Spec := { ConsumerRef := some sampleConsumer }
  Status := { State := .StateDeprovisioning }

/-- The host of the case "consumer ref does not match" of `TestDelete`. -/
def hostOfSomeoneElse : BareMetalHost where
  Name := "myhost"
  Namespace := "myns"
  Spec := { ConsumerRef := some { sampleConsumer with Name := "someoneelsesmachine" },
            Image := some { URL := "someoneelsesimage", Checksum := "" } }
  Status := { State := .StateProvisioned }

/-- A free, ready host with a label. -/
def hostFree : BareMetalHost where
  Name := "host2"
  Namespace := "myns"
  Labels := [("key1", "value1")]
  Status := { State := .StateReady }

/-- A free, ready host of another namespace. -/
def hostElsewhere : BareMetalHost where
  Name := "host4"
  Namespace := "someotherns"
  Status := { State := .StateReady }

/-- A provider spec that selects the hosts labelled `key1=value1`. -/
def sampleConfig : BareMetalMachineProviderSpec where
  Image := { URL := "http://172.22.0.1/images/rhcos.qcow2",
             Checksum := "http://172.22.0.1/images/rhcos.qcow2.md5sum" }
  HostSelector := { MatchLabels := [("key1", "value1")] }

/-- The host as `Delete` writes it when something is left to deprovision: image and user
data cleared, online false, the rest as it was. -/
def deprovisioned (host : BareMetalHost) : BareMetalHost :=
  { host with Spec := { host.Spec with Image := none, Online := false, UserData := none } }

/-- The host as `Delete` writes it when it releases it: the consumer reference cleared, the
rest as it was. -/
def released (host : BareMetalHost) : BareMetalHost :=
  { host with Spec := { host.Spec with ConsumerRef := none } }

/-- The outcome of `Delete` after its write of the host `new`, where `onSuccess` is what it
returns when the write is accepted or the host is gone. -/
def afterUpdate (c : Client) (new : BareMetalHost) (onSuccess : Option ActuatorError) :
    Client × Option ActuatorError :=
  match c.Update new with
  | (c, some err) => if !err.notFound then (c, some (.api err)) else (c, onSuccess)
  | (c, none) => (c, onSuccess)

/-! ## `baremetalmachine_types.go` -/

/-- The user data of a machine spec (`UserDataInput`); its field `Type` is spelled
`Type_`. -/
structure UserDataInput where
  Type_ : String := ""
  UserDataAppend : Option SecretReference := none
  UserDataPrepend : Option SecretReference := none
  deriving DecidableEq, Repr

/-- The desired state of a `BareMetalMachine` (`BareMetalMachineSpec`). -/
structure BareMetalMachineSpec where
  ProviderID : Option String := none
  Image : Image
  UserData : Option UserDataInput := none
  HostSelector : HostSelector := {}
  deriving DecidableEq, Repr

/-- The fields `IsValid` reports as missing, in the order it appends them. -/
def missingFields (s : BareMetalMachineSpec) : List String :=
  (if s.Image.URL = "" then ["Image.URL"] else []) ++
  (if s.Image.Checksum = "" then ["Image.Checksum"] else []) ++
  (match s.UserData with
   | none => []
   | some userData =>
     (if userData.Type_ = "" then ["UserData.Type"] else []) ++
     (match userData.UserDataAppend with
      | none => []
      | some ref => if ref.Name = "" then ["UserData.UserDataAppend.Name"] else []) ++
     (match userData.UserDataPrepend with
      | none => []
      | some ref => if ref.Name = "" then ["UserData.UserDataPrepend.Name"] else []))

/-- The method `IsValid`: `none` is `nil`, and an error is kept as the list of missing
fields its message prints. -/
def BareMetalMachineSpec.IsValid (s : BareMetalMachineSpec) : Option (List String) :=
  if (missingFields s).length > 0 then some (missingFields s) else none

/-! ## `actuator.go`: writing the host -/

/-- The host as `setHostSpec` leaves it in memory before it updates it: image and user data
from the config when the host has no image, the consumer reference of the machine, online. -/
def hostSpecFor (host : BareMetalHost) (machine : Machine)
    (config : BareMetalMachineProviderSpec) : BareMetalHost :=
  let spec :=
    match host.Spec.Image with
    | none =>
      { host.Spec with
        Image := some { URL := config.Image.URL, Checksum := config.Image.Checksum }
        UserData :=
          match config.UserData with
          | some userData =>
            if userData.Namespace = "" then some { userData with Namespace := machine.Namespace }
            else some userData
          | none => none }
    | some _ => host.Spec
  { host with
    Spec := { spec with
      ConsumerRef := some { Kind := "Machine", Name := machine.Name,
                            Namespace := machine.Namespace, APIVersion := machine.APIVersion }
      Online := true } }

/-- The method `setHostSpec`: the client after the update and the error of the update. -/
def setHostSpec (c : Client) (host : BareMetalHost) (machine : Machine)
    (config : BareMetalMachineProviderSpec) : Client × Option APIError :=
  c.Update (hostSpecFor host machine config)

/-! ## Sample specs and hosts for validation and for writing the host -/

/-- The image of the cases of `TestSpecIsValid`. -/
def sampleImage : Image where
  URL := "http://172.22.0.1/images/rhcos-ootpa-latest.qcow2"
  Checksum := "http://172.22.0.1/images/rhcos-ootpa-latest.qcow2.md5sum"

/-- A spec with both image fields, user data without a type and named references. -/
def specWithoutType : BareMetalMachineSpec where
  Image := sampleImage
  UserData := some { Type_ := "", UserDataAppend := some { Name := "extra", Namespace := "" } }

/-- A spec with both image fields and user data whose type is not `cloud-init`. -/
def specWithOtherType : BareMetalMachineSpec where
  Image := sampleImage
  UserData := some { Type_ := "ignition" }

/-- A spec with both image fields and user data of type `cloud-init`. -/
def specCloudInit : BareMetalMachineSpec where
  Image := sampleImage
  UserData := some { Type_ := "cloud-init", UserDataPrepend := some { Name := "first", Namespace := "" } }

/-- The spec of the case "HostSelector Single MatchLabel provided" of `TestSpecIsValid`. -/
def specNoUserData : BareMetalMachineSpec where
  Image := sampleImage
  HostSelector := { MatchLabels := [("key", "value")] }

/-- A spec whose image lacks its checksum and whose append reference lacks its name. -/
def specMissing : BareMetalMachineSpec where
  Image := { URL := "http://172.22.0.1/images/rhcos-ootpa-latest.qcow2", Checksum := "" }
  UserData := some { Type_ := "cloud-init", UserDataAppend := some { Name := "", Namespace := "" } }

/-- The config of `TestSetHostSpec` with user data that names no namespace. -/
def configWithUserData : BareMetalMachineProviderSpec where
  Image := sampleImage
  UserData := some { Name := "worker-user-data", Namespace := "" }

/-! ## The cluster of the remediation controllers -/

/-- A condition of a node (`corev1.NodeCondition`), reduced to type and status; its field
`Type` is spelled `Type_`. -/
structure NodeCondition where
  Type_ : String
  Status : String
  deriving DecidableEq, Repr

/-- A node (`corev1.Node`), reduced to its metadata and the conditions of its status. -/
structure Node where
  Name : String
  Namespace : String := ""
  Annotations : List (String × String) := []
  Conditions : List NodeCondition := []
  deriving DecidableEq, Repr

/-- Modelled from the spec: the states of a remediation record (§3, `state`), which the
package `machineremediation/v1alpha1` declares and the sources here only name;
`RemediationStateUnset` is the empty string of a record whose status was never written. -/
inductive RemediationState where
  | RemediationStateUnset
  | RemediationStateStarted
  | RemediationStatePowerOff
  | RemediationStatePowerOn
  | RemediationStateSucceeded
  | RemediationStateFailed
  deriving DecidableEq, Repr

/-- Modelled from the spec: the types of a remediation record (§3, `type`), declared by the
package `machineremediation/v1alpha1`. -/
inductive RemediationType where
  | RemediationTypeReboot
  | RemediationTypeRecreate
  deriving DecidableEq, Repr

/-- Modelled from the spec: a remediation record (§3, `MachineRemediation`), declared by the
package `machineremediation/v1alpha1`: metadata, `Spec.MachineName`, `Spec.Type` (spelled
`Type_`) and the status fields; times are nanoseconds, and an unset time is a nil
pointer. -/
structure MachineRemediation where
  Name : String
  Namespace : String
  GenerateName : String := ""
  MachineName : String
  Type_ : RemediationType := .RemediationTypeReboot
  State : RemediationState := .RemediationStateUnset
  StartTime : Option Int := none
  EndTime : Option Int := none
  Reason : String := ""
  deriving DecidableEq, Repr

/-- A machine set (`machinev1alpha1.MachineSet`), reduced to its metadata, `Spec.Replicas`
and the raw value of the provider spec of its template (`none` when the value is nil). -/
structure MachineSet where
  Name : String
  Namespace : String
  Annotations : List (String × String) := []
  Replicas : Option Int := none
  ProviderSpec : Option String := none
  deriving DecidableEq, Repr

/-- The calls of the API client that the remediation controllers and the auto-scaler
make. -/
inductive Verb where
  | getMachine
  | getHost
  | listHosts
  | updateHost
  | getNode
  | deleteNode
  | updateNode
  | updateRemediationStatus
  | deleteRemediation
  | listRemediations
  | createRemediation
  | getMachineSet
  | updateMachineSet
  deriving DecidableEq, Repr

/-- The store behind the client of the remediation controllers and of the auto-scaler: the
objects of each kind, the events recorded so far (their reasons), for each call the
transport error it returns, if any, and the name the server makes from a `GenerateName`. -/
structure Cluster where
  machines : List Machine := []
  hosts : List BareMetalHost := []
  nodes : List Node := []
  remediations : List MachineRemediation := []
  machineSets : List MachineSet := []
  events : List String := []
  fails : Verb → Option APIError := fun _ => none
  generatedName : String → String := fun p => p

/-- The error of a read that finds nothing. -/
def notFoundError : APIError := { notFound := true, message := "not found" }

/-- The read of the object a test selects among the stored ones. -/
def getBy {α : Type} (p : α → Bool) (l : List α) : Except APIError α :=
  match l.find? p with
  | some a => .ok a
  | none => .error notFoundError

/-- The stored objects with those a test selects replaced by `new`. -/
def replaceBy {α : Type} (p : α → Bool) (new : α) (l : List α) : List α :=
  l.map fun x => if p x then new else x

/-- Whether a machine is stored under the key `namespace/name`. -/
def machineKey (ns name : String) (m : Machine) : Bool :=
  decide (m.Namespace = ns) && decide (m.Name = name)

/-- Whether a node is stored under the key `namespace/name`. -/
def nodeKey (ns name : String) (n : Node) : Bool :=
  decide (n.Namespace = ns) && decide (n.Name = name)

/-- Whether a remediation record is stored under the key `namespace/name`. -/
def remediationKey (ns name : String) (mr : MachineRemediation) : Bool :=
  decide (mr.Namespace = ns) && decide (mr.Name = name)

/-- Whether a machine set is stored under the key `namespace/name`. -/
def machineSetKey (ns name : String) (ms : MachineSet) : Bool :=
  decide (ms.Namespace = ns) && decide (ms.Name = name)

/-- The call `client.Get` on a machine. -/
def Cluster.GetMachine (c : Cluster) (ns name : String) : Except APIError Machine :=
  match c.fails .getMachine with
  | some e => .error e
  | none => getBy (machineKey ns name) c.machines

/-- The call `client.Get` on a host. -/
def Cluster.GetHost (c : Cluster) (ns name : String) : Except APIError BareMetalHost :=
  match c.fails .getHost with
  | some e => .error e
  | none => getBy (hasKey ns name) c.hosts

/-- The call `client.List` on hosts with `opts.Namespace` set. -/
def Cluster.ListHosts (c : Cluster) (ns : String) : Except APIError (List BareMetalHost) :=
  match c.fails .listHosts with
  | some e => .error e
  | none => .ok (c.hosts.filter fun h => decide (h.Namespace = ns))

/-- The call `client.Update` on a host. -/
def Cluster.UpdateHost (c : Cluster) (host : BareMetalHost) : Cluster × Option APIError :=
  match c.fails .updateHost with
  | some e => (c, some e)
  | none =>
    if c.hosts.any (hasKey host.Namespace host.Name) then
      ({ c with hosts := replaceBy (hasKey host.Namespace host.Name) host c.hosts }, none)
    else (c, some notFoundError)

/-- The call `client.Get` on a node. -/
def Cluster.GetNode (c : Cluster) (ns name : String) : Except APIError Node :=
  match c.fails .getNode with
  | some e => .error e
  | none => getBy (nodeKey ns name) c.nodes

/-- The call `client.Delete` on a node. -/
def Cluster.DeleteNode (c : Cluster) (node : Node) : Cluster × Option APIError :=
  match c.fails .deleteNode with
  | some e => (c, some e)
  | none =>
    if c.nodes.any (nodeKey node.Namespace node.Name) then
      ({ c with nodes := c.nodes.filter fun n => !nodeKey node.Namespace node.Name n }, none)
    else (c, some notFoundError)

/-- The call `client.Update` on a node. -/
def Cluster.UpdateNode (c : Cluster) (node : Node) : Cluster × Option APIError :=
  match c.fails .updateNode with
  | some e => (c, some e)
  | none =>
    if c.nodes.any (nodeKey node.Namespace node.Name) then
      ({ c with nodes := replaceBy (nodeKey node.Namespace node.Name) node c.nodes }, none)
    else (c, some notFoundError)

/-- The call `client.Status().Update` on a remediation record: the stored record of the same
key is replaced by the record given. -/
def Cluster.UpdateRemediationStatus (c : Cluster) (mr : MachineRemediation) :
    Cluster × Option APIError :=
  match c.fails .updateRemediationStatus with
  | some e => (c, some e)
  | none =>
    if c.remediations.any (remediationKey mr.Namespace mr.Name) then
      ({ c with
          remediations := replaceBy (remediationKey mr.Namespace mr.Name) mr c.remediations },
        none)
    else (c, some notFoundError)

/-- The call `client.Delete` on a remediation record. -/
def Cluster.DeleteRemediation (c : Cluster) (mr : MachineRemediation) :
    Cluster × Option APIError :=
  match c.fails .deleteRemediation with
  | some e => (c, some e)
  | none =>
    if c.remediations.any (remediationKey mr.Namespace mr.Name) then
      ({ c with
          remediations :=
            c.remediations.filter fun r => !remediationKey mr.Namespace mr.Name r },
        none)
    else (c, some notFoundError)

/-- The call `client.List` on remediation records, without a namespace. -/
def Cluster.ListRemediations (c : Cluster) : Except APIError (List MachineRemediation) :=
  match c.fails .listRemediations with
  | some e => .error e
  | none => .ok c.remediations

/-- The call `client.Create` on a remediation record: the server names it after its
`GenerateName` and stores it. -/
def Cluster.CreateRemediation (c : Cluster) (mr : MachineRemediation) :
    Cluster × Option APIError :=
  match c.fails .createRemediation with
  | some e => (c, some e)
  | none =>
    ({ c with
        remediations := c.remediations ++ [{ mr with Name := c.generatedName mr.GenerateName }] },
      none)

/-- The call `client.Get` on a machine set. -/
def Cluster.GetMachineSet (c : Cluster) (ns name : String) : Except APIError MachineSet :=
  match c.fails .getMachineSet with
  | some e => .error e
  | none => getBy (machineSetKey ns name) c.machineSets

/-- The call `client.Update` on a machine set. -/
def Cluster.UpdateMachineSet (c : Cluster) (ms : MachineSet) : Cluster × Option APIError :=
  match c.fails .updateMachineSet with
  | some e => (c, some e)
  | none =>
    if c.machineSets.any (machineSetKey ms.Namespace ms.Name) then
      ({ c with machineSets := replaceBy (machineSetKey ms.Namespace ms.Name) ms c.machineSets },
        none)
    else (c, some notFoundError)

/-- The call `recorder.Eventf`: the reason of the event is recorded. -/
def Cluster.Eventf (c : Cluster) (reason : String) : Cluster :=
  { c with events := c.events ++ [reason] }

/-- The write `m[k] = v` of a `map[string]string`. -/
def strSet : List (String × String) → String → String → List (String × String)
  | [], k, v => [(k, v)]
  | (k', v') :: rest, k, v => if k' = k then (k', v) :: rest else (k', v') :: strSet rest k v

/-- The call `delete(m, k)` on a `map[string]string`. -/
def strDelete (m : List (String × String)) (k : String) : List (String × String) :=
  m.filter fun p => !decide (p.1 = k)

/-! ## `consts.go`, `conditions.go` and `remediator.go` -/

/-- The constant `AnnotationBareMetalHost`. -/
def AnnotationBareMetalHost : String := "metal3.io/BareMetalHost"

/-- The constant `AnnotationMachine`. -/
def AnnotationMachine : String := "machine.openshift.io/machine"

/-- The constant `AnnotationNodeMachineReboot`. -/
def AnnotationNodeMachineReboot : String :=
  "healthchecking.openshift.io/machine-remediation-reboot"

/-- The constant `AnnotationRebootInProgress`. -/
def AnnotationRebootInProgress : String := "machineremediation.kubevirt.io/rebootInProgress"

/-- The constant `corev1.NodeReady`. -/
def NodeReady : String := "Ready"

/-- The constant `corev1.ConditionTrue`. -/
def ConditionTrue : String := "True"

/-- The function `NodeHasCondition`. -/
def NodeHasCondition (node : Node) (conditionType contidionStatus : String) : Bool :=
  node.Conditions.any fun cond =>
    decide (cond.Type_ = conditionType) && decide (cond.Status = contidionStatus)

/-- The constant `rebootDefaultTimeoutMinutes`. -/
def rebootDefaultTimeoutMinutes : Int := 5

/-- The constant `time.Minute`, in nanoseconds. -/
def timeMinute : Int := 60000000000

/-- The errors the remediation controllers and the auto-scaler return. -/
inductive ReconcileError where
  /-- An error of the API client, returned as is. -/
  | api (e : APIError)
  /-- The error `machine does not have bare metal host annotation`. -/
  | hostAnnotationMissing
  /-- The error `No machine annotation for node %s`. -/
  | machineAnnotationMissing (nodeName : String)
  /-- The error of `cache.SplitMetaNamespaceKey`. -/
  | unexpectedKeyFormat (key : String)
  /-- The error `ProviderSpec missing`. -/
  | providerSpecMissing
  /-- The error of `yaml.UnmarshalStrict`. -/
  | unmarshal (msg : String)
  /-- An error of the construction of the label selector, returned as is. -/
  | selector (err : ActuatorError)
  deriving DecidableEq, Repr

/-- What a call of `Reboot` does: return (`none` is `nil`) or panic. -/
inductive RebootResult where
  | returned (err : Option ReconcileError)
  | panicked
  deriving DecidableEq, Repr

/-- The function `getBareMetalHostByMachine`; the error of the key split is dropped, as the
code overwrites it, and the host is looked up under the empty key then. -/
def getBareMetalHostByMachine (c : Cluster) (machine : Machine) :
    Except ReconcileError BareMetalHost :=
  match lookupStr machine.Annotations AnnotationBareMetalHost with
  | none => .error .hostAnnotationMissing
  | some bmhKey =>
    let key :=
      match SplitMetaNamespaceKey bmhKey with
      | .ok key => key
      | .error _ => ("", "")
    match c.GetHost key.1 key.2 with
    | .error err => .error (.api err)
    | .ok bmh => .ok bmh

/-- The function `getNodeByMachine` of the remediator. -/
def getNodeByMachine (c : Cluster) (machine : Machine) : Except APIError Node :=
  match machine.NodeRef with
  | none => .error { notFound := true, message := "ObjectReference not found" }
  | some nodeRef => c.GetNode nodeRef.Namespace nodeRef.Name

/-- The function `deleteMachineNode`. -/
def deleteMachineNode (c : Cluster) (machine : Machine) : Cluster × Option APIError :=
  match getNodeByMachine c machine with
  | .error err => if err.notFound then (c, none) else (c, some err)
  | .ok node => c.DeleteNode node

/-- The function `isRebootInProgress` of the remediator. -/
def isRebootInProgress (bmh : BareMetalHost) : Bool :=
  match lookupStr bmh.Annotations AnnotationRebootInProgress with
  | none => false
  | some rebootInProgress => if rebootInProgress ≠ "true" then false else true

/-- The function `removeNodeRebootAnnotation`. -/
def removeNodeRebootAnnotation (c : Cluster) (node : Node) : Cluster × Option APIError :=
  match lookupStr node.Annotations AnnotationNodeMachineReboot with
  | none => (c, none)
  | some _ =>
    c.UpdateNode
      { node with Annotations := strDelete node.Annotations AnnotationNodeMachineReboot }

/-- The copy `mrCopy` of the record with the status fields `Reboot` assigns: state, reason
and end time (the end time of the record itself where `Reboot` assigns none). -/
def withStatus (machineRemediation : MachineRemediation) (state : RemediationState)
    (reason : String) (endTime : Option Int) : MachineRemediation :=
  { machineRemediation with State := state, Reason := reason, EndTime := endTime }

/-- The copy `bmhCopy` of the host as the case `RemediationStateStarted` updates it: the
annotation `rebootInProgress` set to `true` unless the reboot is in progress, and
`Spec.Online` false. -/
def poweredOffCopy (bmh : BareMetalHost) : BareMetalHost :=
  { bmh with
    Annotations :=
      if !isRebootInProgress bmh then strSet bmh.Annotations AnnotationRebootInProgress "true"
      else bmh.Annotations
    Spec := { bmh.Spec with Online := false } }

/-- The copy `bmhCopy` of the host as the case `RemediationStatePowerOff` updates it:
`Spec.Online` true and the annotation `rebootInProgress` deleted. -/
def poweredOnCopy (bmh : BareMetalHost) : BareMetalHost :=
  { bmh with
    Annotations := strDelete bmh.Annotations AnnotationRebootInProgress
    Spec := { bmh.Spec with Online := true } }

/-- The statement `return bmr.client.Status().Update(context.TODO(), mrCopy)`. -/
def returnStatusUpdate (c : Cluster) (mrCopy : MachineRemediation) : Cluster × RebootResult :=
  match c.UpdateRemediationStatus mrCopy with
  | (c, some err) => (c, .returned (some (.api err)))
  | (c, none) => (c, .returned none)

/-- The test `StartTime.Time.Add(rebootDefaultTimeoutMinutes * time.Minute).Before(now)`. -/
def timedOut (startTime now : Int) : Bool :=
  decide (startTime + rebootDefaultTimeoutMinutes * timeMinute < now)

/-- The timeout branch of the cases `RemediationStatePowerOff` and `RemediationStatePowerOn`
of `Reboot`. -/
def rebootTimedOut (c : Cluster) (machineRemediation : MachineRemediation) (now : Int) :
    Cluster × RebootResult :=
  returnStatusUpdate (c.Eventf "MachineRemediationRebootTimedOut")
    (withStatus machineRemediation .RemediationStateFailed "Reboot failed on timeout"
      (some now))

/-- The case `RemediationStateStarted` of the `switch` of `Reboot`. -/
def rebootStarted (c : Cluster) (machineRemediation : MachineRemediation)
    (bmh : BareMetalHost) (now : Int) : Cluster × RebootResult :=
  if !bmh.Spec.Online && !isRebootInProgress bmh then
    returnStatusUpdate (c.Eventf "MachineRemediationSkippedOffline")
      (withStatus machineRemediation .RemediationStateSucceeded
        "Skip the reboot, the machine was powered off already" (some now))
  else
    match c.UpdateHost (poweredOffCopy bmh) with
    | (c, some err) => (c, .returned (some (.api err)))
    | (c, none) =>
      returnStatusUpdate (c.Eventf "MachineRemediationRebootStarted")
        (withStatus machineRemediation .RemediationStatePowerOff "Starts the reboot process"
          machineRemediation.EndTime)

/-- The case `RemediationStatePowerOff` of the `switch` of `Reboot`; a nil `StartTime` is
dereferenced, which panics. -/
def rebootPowerOff (c : Cluster) (machineRemediation : MachineRemediation) (machine : Machine)
    (bmh : BareMetalHost) (now : Int) : Cluster × RebootResult :=
  match machineRemediation.StartTime with
  | none => (c, .panicked)
  | some startTime =>
    if timedOut startTime now then rebootTimedOut c machineRemediation now
    else if bmh.Status.PoweredOn then (c, .returned none)
    else
      match deleteMachineNode c machine with
      | (c, some err) => (c, .returned (some (.api err)))
      | (c, none) =>
        match c.UpdateHost (poweredOnCopy bmh) with
        | (c, some err) => (c, .returned (some (.api err)))
        | (c, none) =>
          returnStatusUpdate (c.Eventf "MachineRemediationRebootPoweringOn")
            (withStatus machineRemediation .RemediationStatePowerOn "Reboot in progress"
              machineRemediation.EndTime)

/-- The case `RemediationStatePowerOn` of the `switch` of `Reboot`. -/
def rebootPowerOn (c : Cluster) (machineRemediation : MachineRemediation) (machine : Machine)
    (now : Int) : Cluster × RebootResult :=
  match machineRemediation.StartTime with
  | none => (c, .panicked)
  | some startTime =>
    if timedOut startTime now then rebootTimedOut c machineRemediation now
    else
      match getNodeByMachine c machine with
      | .error err =>
        if err.notFound then (c, .returned none) else (c, .returned (some (.api err)))
      | .ok node =>
        if NodeHasCondition node NodeReady ConditionTrue then
          returnStatusUpdate (c.Eventf "MachineRemediationRebootSucceeded")
            (withStatus machineRemediation .RemediationStateSucceeded "Reboot succeeded"
              (some now))
        else (c, .returned none)

/-- The case `RemediationStateFailed` of the `switch` of `Reboot`. -/
def rebootFailed (c : Cluster) (machine : Machine) : Cluster × RebootResult :=
  match getNodeByMachine c machine with
  | .error err =>
    if err.notFound then (c, .returned none) else (c, .returned (some (.api err)))
  | .ok node =>
    match removeNodeRebootAnnotation c node with
    | (c, some err) => (c, .returned (some (.api err)))
    | (c, none) => (c, .returned none)

/-- The method `Reboot` at the time `now`: the cluster after the call and what the call
did. -/
def Reboot (c : Cluster) (machineRemediation : MachineRemediation) (now : Int) :
    Cluster × RebootResult :=
  match c.GetMachine machineRemediation.Namespace machineRemediation.MachineName with
  | .error err => (c, .returned (some (.api err)))
  | .ok machine =>
    match getBareMetalHostByMachine c machine with
    | .error err => (c, .returned (some err))
    | .ok bmh =>
      match machineRemediation.State with
      | .RemediationStateStarted => rebootStarted c machineRemediation bmh now
      | .RemediationStatePowerOff => rebootPowerOff c machineRemediation machine bmh now
      | .RemediationStatePowerOn => rebootPowerOn c machineRemediation machine now
      | .RemediationStateSucceeded =>
        match c.DeleteRemediation machineRemediation with
        | (c, some err) => (c, .returned (some (.api err)))
        | (c, none) => (c, .returned none)
      | .RemediationStateFailed => rebootFailed c machine
      | .RemediationStateUnset => (c, .returned none)

/-! ## `machineset_controller.go` -/

/-- The constant `AutoScaleAnnotation`. -/
def AutoScaleAnnotation : String := "metal3.io/autoscale-to-hosts"

/-- The function `configFromProviderSpec` of the actuator, over the decoder
`yaml.UnmarshalStrict`. -/
def configFromProviderSpec (decode : String → Except String BareMetalMachineProviderSpec)
    (providerSpec : Option String) : Except ReconcileError BareMetalMachineProviderSpec :=
  match providerSpec with
  | none => .error .providerSpecMissing
  | some raw =>
    match decode raw with
    | .error msg => .error (.unmarshal msg)
    | .ok config => .ok config

/-- Modelled from the spec: the function `SelectorFromProviderSpec` of the actuator package,
which the auto-scaler calls and the sources lack: it parses the provider spec of the
template and builds the label selector as `chooseHost` does (§4.2.3, step 1). -/
def SelectorFromProviderSpec (lib : Lib)
    (decode : String → Except String BareMetalMachineProviderSpec)
    (providerSpec : Option String) : Except ReconcileError (List Requirement) :=
  match configFromProviderSpec decode providerSpec with
  | .error err => .error err
  | .ok config =>
    match selectorReqs lib config.HostSelector with
    | .ok reqs => .ok reqs
    | .error err => .error (.selector err)

/-- The conversion of an integer to `int32`, which wraps around. -/
def toInt32 (n : Int) : Int :=
  (n + 2147483648) % 4294967296 - 2147483648

/-- The loop of `Reconcile` that counts the hosts the selector matches, in an `int32`. -/
def countMatching (lib : Lib) (selector : List Requirement) :
    List BareMetalHost → Int → Int
  | [], count => count
  | host :: rest, count =>
    if lib.Matches selector host.Labels then
      countMatching lib selector rest (toInt32 (count + 1))
    else countMatching lib selector rest count

/-- The copy `new` of the machine set with its replicas set to the count. -/
def withReplicas (machineSet : MachineSet) (count : Int) : MachineSet :=
  { machineSet with Replicas := some count }

/-- The hosts of the namespace `ns` whose labels the selector matches. -/
def matchingHosts (lib : Lib) (selector : List Requirement) (c : Cluster) (ns : String) :
    List BareMetalHost :=
  (c.hosts.filter fun h => decide (h.Namespace = ns)).filter
    fun h => lib.Matches selector h.Labels

/-- The method `Reconcile` of `ReconcileMachineSet` on the request `ns/name`: the cluster
after the call and the error returned; the result is always the empty `reconcile.Result`. -/
def machineset.Reconcile (lib : Lib)
    (decode : String → Except String BareMetalMachineProviderSpec)
    (c : Cluster) (ns name : String) : Cluster × Option ReconcileError :=
  match c.GetMachineSet ns name with
  | .error err => if err.notFound then (c, none) else (c, some (.api err))
  | .ok machineSet =>
    match lookupStr machineSet.Annotations AutoScaleAnnotation with
    | none => (c, none)
    | some _ =>
      match SelectorFromProviderSpec lib decode machineSet.ProviderSpec with
      | .error err => (c, some err)
      | .ok selector =>
        match c.ListHosts machineSet.Namespace with
        | .error err => (c, some (.api err))
        | .ok hosts =>
          let count := countMatching lib selector hosts 0
          if machineSet.Replicas.isNone || decide (machineSet.Replicas ≠ some count) then
            match c.UpdateMachineSet (withReplicas machineSet count) with
            | (c, some err) => (c, some (.api err))
            | (c, none) => (c, none)
          else (c, none)

/-! ## `machines.go` and `nodereboot_controller.go` -/

/-- The function `GetMachineByNode`. -/
def GetMachineByNode (c : Cluster) (node : Node) : Except ReconcileError Machine :=
  match lookupStr node.Annotations AnnotationMachine with
  | none => .error (.machineAnnotationMissing node.Name)
  | some key =>
    match SplitMetaNamespaceKey key with
    | .error _ => .error (.unexpectedKeyFormat key)
    | .ok (ns, machineName) =>
      match c.GetMachine ns machineName with
      | .error err => .error (.api err)
      | .ok machine => .ok machine

/-- The loop of `isRebootInProgress` of the node-reboot controller: whether a record of the
machine name has no end time. -/
def nodereboot.rebootInProgressAmong (machineName : String) : List MachineRemediation → Bool
  | [] => false
  | mr :: rest =>
    if mr.MachineName = machineName then
      if mr.EndTime.isNone then true else nodereboot.rebootInProgressAmong machineName rest
    else nodereboot.rebootInProgressAmong machineName rest

/-- The function `isRebootInProgress` of the node-reboot controller. -/
def nodereboot.isRebootInProgress (c : Cluster) (machineName : String) :
    Except APIError Bool :=
  match c.ListRemediations with
  | .error err => .error err
  | .ok items => .ok (nodereboot.rebootInProgressAmong machineName items)

/-- The method `Reconcile` of `ReconcileNodeReboot` on the request `ns/name`: the cluster
after the call and the error returned; the result is always the empty `reconcile.Result`. -/
def nodereboot.Reconcile (c : Cluster) (ns name : String) : Cluster × Option ReconcileError :=
  match c.GetNode ns name with
  | .error err => if err.notFound then (c, none) else (c, some (.api err))
  | .ok node =>
    match lookupStr node.Annotations AnnotationNodeMachineReboot with
    | none => (c, none)
    | some _ =>
      match GetMachineByNode c node with
      | .error err => (c, some err)
      | .ok machine =>
        match nodereboot.isRebootInProgress c machine.Name with
        | .error err => (c, some (.api err))
        | .ok true => (c, none)
        | .ok false =>
          let mr : MachineRemediation :=
            { Name := "", GenerateName := "remediation-", Namespace := machine.Namespace,
              MachineName := machine.Name, Type_ := .RemediationTypeReboot }
          match c.CreateRemediation mr with
          | (c, some err) => (c, some (.api err))
          | (c, none) => (c, none)

/-! ## Ticks and runs of the remediation -/

/-- The edges of the remediation graph. -/
def remediationEdges : List (RemediationState × RemediationState) :=
  [(.RemediationStateStarted, .RemediationStatePowerOff),
   (.RemediationStateStarted, .RemediationStateSucceeded),
   (.RemediationStatePowerOff, .RemediationStatePowerOn),
   (.RemediationStatePowerOff, .RemediationStateFailed),
   (.RemediationStatePowerOn, .RemediationStateSucceeded),
   (.RemediationStatePowerOn, .RemediationStateFailed)]

/-- Whether a state is terminal: Succeeded or Failed. -/
def RemediationState.terminal (s : RemediationState) : Bool :=
  decide (s = .RemediationStateSucceeded) || decide (s = .RemediationStateFailed)

/-- The record stored under the key `ns/name`. -/
def Cluster.record (c : Cluster) (ns name : String) : Option MachineRemediation :=
  c.remediations.find? (remediationKey ns name)

/-- The host stored under the key `ns/name`. -/
def Cluster.host (c : Cluster) (ns name : String) : Option BareMetalHost :=
  c.hosts.find? (hasKey ns name)

/-- What one tick may do to the stored record `mr`: leave it, move it along an edge to
PowerOff or PowerOn with a new reason, or move it along an edge to Succeeded or Failed with a
new reason and the end time `now`. -/
def TickMoves (now : Int) (mr rec : MachineRemediation) : Prop :=
  rec = mr ∨
  (∃ state reason, rec = withStatus mr state reason mr.EndTime ∧
    state.terminal = false ∧ (mr.State, state) ∈ remediationEdges) ∨
  (∃ state reason, rec = withStatus mr state reason (some now) ∧
    state.terminal = true ∧ (mr.State, state) ∈ remediationEdges)

/-- A run of ticks on the record `ns/name`: from one cluster of the sequence to the next the
record is what a tick of `Reboot`, at some time and on some cluster that stores the same
record, leaves of it (the other objects may change in between); a record that is gone stays
gone. -/
def IsRun (ns name : String) (run : Nat → Cluster) : Prop :=
  ∀ n,
    match (run n).record ns name with
    | none => (run (n + 1)).record ns name = none
    | some mr =>
      ∃ (c : Cluster) (now : Int), c.record ns name = some mr ∧
        (run (n + 1)).record ns name = (Reboot c mr now).1.record ns name

/-- The state of the record `ns/name` in a cluster, `none` when the record is gone. -/
def Cluster.stateOf (c : Cluster) (ns name : String) : Option RemediationState :=
  (c.record ns name).map fun mr => mr.State

/-- A rank of the states, and of the absence of the record, that every tick keeps or
raises. -/
def stateRank : Option RemediationState → Nat
  | some .RemediationStateUnset => 0
  | some .RemediationStateStarted => 1
  | some .RemediationStatePowerOff => 2
  | some .RemediationStatePowerOn => 3
  | some .RemediationStateSucceeded => 4
  | some .RemediationStateFailed => 5
  | none => 6

/-! ## Sample objects of the remediation tests -/

/-- The namespace `NamespaceOpenshiftMachineAPI`. -/
def NamespaceOpenshiftMachineAPI : String := "openshift-machine-api"

/-- The node `nodeOnline` of `TestRemediationReboot`: ready, with the reboot annotation. -/
def nodeOnline : Node where
  Name := "nodeOnline"
  Annotations := [(AnnotationMachine, "openshift-machine-api/machineOnline"),
                  (AnnotationNodeMachineReboot, "")]
  Conditions := [{ Type_ := "Ready", Status := "True" }]

/-- The node `nodeNotReady` of `TestRemediationReboot`. -/
def nodeNotReady : Node where
  Name := "nodeNotReady"
  Annotations := [(AnnotationMachine, "openshift-machine-api/machineOnline"),
                  (AnnotationNodeMachineReboot, "")]
  Conditions := [{ Type_ := "Ready", Status := "Unknown" }]

/-- The host `bareMetalHostOnlineWithoutRebootAnnotation` of `TestRemediationReboot`. -/
def bareMetalHostOnline : BareMetalHost where
  Name := "bareMetalHostOnline"
  Namespace := NamespaceOpenshiftMachineAPI
  Spec := { Online := true }
  Status := { PoweredOn := true }

/-- The host `bareMetalHostOffline` of `TestRemediationReboot`. -/
def bareMetalHostOffline : BareMetalHost where
  Name := "bareMetalHostOnline"
  Namespace := NamespaceOpenshiftMachineAPI
  Spec := { Online := false }
  Status := { PoweredOn := false }

/-- The host `bareMetalHostOfflineWithRebootAnnotation` of `TestRemediationReboot`. -/
def bareMetalHostRebooting : BareMetalHost where
  Name := "bareMetalHostOnline"
  Namespace := NamespaceOpenshiftMachineAPI
  Annotations := [(AnnotationRebootInProgress, "true")]
  Spec := { Online := false }
  Status := { PoweredOn := false }

/-- The machine `machineOnline` of `TestRemediationReboot`, on the node `nodeName`. -/
def machineOnNode (nodeName : String) : Machine where
  Kind := "Machine"
  APIVersion := ""
  Name := "machineOnline"
  Namespace := NamespaceOpenshiftMachineAPI
  Annotations := [(AnnotationBareMetalHost, "openshift-machine-api/bareMetalHostOnline")]
  NodeRef := some { Kind := "", Name := nodeName, Namespace := "", APIVersion := "" }

/-- A remediation record of `machineOnline` in the given state, started at time `0`. -/
def remediationIn (state : RemediationState) : MachineRemediation where
  Name := "machineRemediation"
  Namespace := NamespaceOpenshiftMachineAPI
  MachineName := "machineOnline"
  State := state
  StartTime := some 0

/-- A cluster with the machine `machineOnline` on `nodeOnline`, both nodes, one host and one
record. -/
def sampleCluster (host : BareMetalHost) (mr : MachineRemediation) : Cluster where
  machines := [machineOnNode "nodeOnline"]
  hosts := [host]
  nodes := [nodeOnline, nodeNotReady]
  remediations := [mr]

/-- The cluster `sampleCluster` with the machine on the node `nodeNotReady`. -/
def sampleClusterNotReady (host : BareMetalHost) (mr : MachineRemediation) : Cluster where
  machines := [machineOnNode "nodeNotReady"]
  hosts := [host]
  nodes := [nodeOnline, nodeNotReady]
  remediations := [mr]

/-- The run in which every tick is a call of `Reboot`, at the time `now`, on the record the
cluster stores under `ns/name`, and nothing else touches the cluster. -/
def ticks (ns name : String) (now : Int) (c : Cluster) : Nat → Cluster
  | 0 => c
  | n + 1 =>
    match (ticks ns name now c n).record ns name with
    | none => ticks ns name now c n
    | some mr => (Reboot (ticks ns name now c n) mr now).1

/-! ## Sample objects of the auto-scaler and of the node-reboot controller -/

/-- A machine set of the namespace `myns` with the autoscale annotation and no replicas. -/
def sampleMachineSet : MachineSet where
  Name := "machineset1"
  Namespace := "myns"
  Annotations := [( AutoScaleAnnotation, "yesplease")]
  ProviderSpec := some "hostSelector"

/-- A cluster with the sample machine set, two hosts of its namespace, of which one carries
the label the sample config selects, and a host of another namespace. -/
def scaleCluster : Cluster where
  machineSets := [sampleMachineSet]
  hosts := [hostFree, hostElsewhere, hostReady]

/-- A decoder that reads every provider spec as the sample config. -/
def sampleDecode : String → Except String BareMetalMachineProviderSpec :=
  fun _ => .ok sampleConfig

/-- A cluster of the node-reboot controller: the node `nodeOnline` with the reboot
annotation, its machine, and the remediation records given. -/
def rebootCluster (remediations : List MachineRemediation) : Cluster where
  machines := [machineOnNode "nodeOnline"]
  nodes := [nodeOnline]
  remediations := remediations

/-- A record of the machine `machineOnline` in state Failed whose end time was never
written. -/
def failedWithoutEndTime : MachineRemediation where
  Name := "machineRemediation"
  Namespace := NamespaceOpenshiftMachineAPI
  MachineName := "machineOnline"
  State := .RemediationStateFailed
  StartTime := some 0
  EndTime := none

/-! ## `actuator.go`: the addresses of a node -/

/-- A `corev1.NodeAddressType`. -/
inductive NodeAddressType where
  | NodeHostName
  | NodeExternalIP
  | NodeInternalIP
  | NodeExternalDNS
  | NodeInternalDNS
  deriving DecidableEq, Repr

/-- A `corev1.NodeAddress`; the field `Type` is spelled `Type_`. -/
structure NodeAddress where
  Type_ : NodeAddressType
  Address : String
  deriving DecidableEq, Repr

/-- The loop of `nodeAddresses` over the network interfaces: one address is appended per
interface. -/
def nicAddresses : List NIC → List NodeAddress → List NodeAddress
  | [], addrs => addrs
  | nic :: rest, addrs =>
    nicAddresses rest (addrs ++ [{ Type_ := .NodeInternalIP, Address := nic.IP }])

/-- The method `nodeAddresses`: the addresses and the error it returns; a nil host is
`none`. -/
def nodeAddresses (host : Option BareMetalHost) : List NodeAddress × Option ActuatorError :=
  let addrs : List NodeAddress := []
  match host with
  | none => (addrs, none)
  | some host =>
    match host.Status.HardwareDetails with
    | none => (addrs, none)
    | some details =>
      let addrs := nicAddresses details.NIC addrs
      let addrs :=
        if details.Hostname ≠ "" then
          (addrs ++ [{ Type_ := .NodeHostName, Address := details.Hostname }]) ++
            [{ Type_ := .NodeInternalDNS, Address := details.Hostname }]
        else addrs
      (addrs, none)

/-! ## Sample objects for the consumer reference and the addresses -/

/-- The machine of `TestSetHostSpec`, which has a name and a namespace and no type
metadata. -/
def machineWithoutKind : Machine where
  Kind := ""
  APIVersion := ""
  Name := "machine1"
  Namespace := "myns"

/-- A host with the two interfaces and the hostname of the test of `nodeAddresses`. -/
def hostTwoNICs : BareMetalHost where
  Name := "myhost"
  Namespace := "myns"
  Status := { HardwareDetails := some { NIC := [{ IP := "192.168.1.1" }, { IP := "172.0.20.2" }],
                                        Hostname := "mygreathost" } }

/-! ## What the remediation may change on a host -/

/-- The host `new` is the host `old` but for `Spec.Online` and the annotation
`rebootInProgress`. -/
def OnlyPowerChanged (old new : BareMetalHost) : Prop :=
  new.Name = old.Name ∧ new.Namespace = old.Namespace ∧ new.Labels = old.Labels ∧
  new.Status = old.Status ∧ new.Spec.Image = old.Spec.Image ∧
  new.Spec.UserData = old.Spec.UserData ∧ new.Spec.ConsumerRef = old.Spec.ConsumerRef ∧
  ∀ k, k ≠ AnnotationRebootInProgress →
    lookupStr new.Annotations k = lookupStr old.Annotations k

/-! ## `userdata_merger.go`: the three-way merge -/

/-- The method `mergeCloudInit`: parse the bootstrap data, merge the overlay to append, then
the overlay to prepend, encode the result and put the comment line in front.  The encoder
`yaml.Marshal` is a parameter, and byte strings are kept as strings. -/
def mergeCloudInit (mgr : MachineManager) (yamlMarshal : Doc → Except String String)
    (bootstrapProviderUserData : String) (inputUserData : UserDataInput) : Result String :=
  match unmarshal mgr bootstrapProviderUserData with
  | .error e => .error e
  | .panicked => .panicked
  | .ok bootstrapProviderStruct =>
    match mergeCloudInitWrapper mgr inputUserData.UserDataAppend bootstrapProviderStruct
        false with
    | .error e => .error e
    | .panicked => .panicked
    | .ok bootstrapProviderStruct =>
      match mergeCloudInitWrapper mgr inputUserData.UserDataPrepend bootstrapProviderStruct
          true with
      | .error e => .error e
      | .panicked => .panicked
      | .ok bootstrapProviderStruct =>
        match yamlMarshal bootstrapProviderStruct with
        | .error msg => .error (.marshaling msg)
        | .ok bootstrapProviderUserData => .ok ("#cloud-config\n" ++ bootstrapProviderUserData)

/-! ## Sample documents with nested values and with nulls -/

/-- A document whose key `users` holds a mapping with a sequence under `groups`. -/
def nestedBase : Doc :=
  [("users", .map [(.str "groups", .seq [.scalar (.str "wheel")])])]

/-- Another document of the same form, with another element in the nested sequence. -/
def nestedOverlay : Doc :=
  [("users", .map [(.str "groups", .seq [.scalar (.str "docker")])])]

/-- A document whose key `users` holds a mapping with the key `shell`. -/
def nestedDisjoint : Doc :=
  [("users", .map [(.str "shell", .scalar (.str "/bin/sh"))])]

/-- The document that the YAML text `runcmd:` decodes to: a key without a value. -/
def nullBase : Doc := [("runcmd", .null)]

/-- A document with one command under `runcmd`. -/
def runcmdOverlay : Doc := [("runcmd", .seq [.scalar (.str "ls")])]

/-- A base document, a prepend overlay and an append overlay with the key `packages`. -/
def packagesBase : Doc := [("packages", .seq [.scalar (.str "b")])]

/-- The prepend overlay of the sample three-way merge. -/
def packagesPrepend : Doc := [("packages", .seq [.scalar (.str "p")])]

/-- The append overlay of the sample three-way merge. -/
def packagesAppend : Doc := [("packages", .seq [.scalar (.str "a")])]

/-- A manager whose client holds the two overlays as secrets and whose decoder knows the
three sample documents by the names `base`, `prepend` and `append`. -/
def packagesManager : MachineManager where
  BareMetalMachineNamespace := "myns"
  getSecret := fun _ name =>
    if name = "prepend" then .ok { Data := [("userData", "prepend")] }
    else if name = "append" then .ok { Data := [("userData", "append")] }
    else .error { notFound := true, message := "not found" }
  yamlUnmarshal := fun text =>
    if text = "base" then .ok packagesBase
    else if text = "prepend" then .ok packagesPrepend
    else if text = "append" then .ok packagesAppend
    else .error "no document"

/-- A stand-in for the encoder: it writes the keys of the document, one per line. -/
def sampleMarshal (d : Doc) : Except String String :=
  .ok (String.join ((keys d).map fun k => k ++ ":\n"))

/-- An overlay with the package of `packagesAppend` twice. -/
def packagesTwice : Doc := [("packages", .seq [.scalar (.str "a"), .scalar (.str "a")])]

/-- A base document without packages. -/
def hostnameBase : Doc := [("hostname", .scalar (.str "node1"))]

/-! ## `machine.go`, `loadbalancer.go` and `baremetalmachine_controller.go` -/

/-- The type `Machine` of the package `baremetal`, the helper of the controller for one
machine; its logger is left out. -/
structure baremetal.Machine where
  cluster : String
  machine : String
  image : String
  deriving DecidableEq, Repr

/-- The function `NewMachine`; `logger` tells whether the logger given is not nil. -/
def baremetal.NewMachine (cluster machine : String) (image : Image) (logger : Bool) :
    Except String baremetal.Machine :=
  if cluster = "" then .error "cluster is required when creating a docker.Machine"
  else if machine = "" then .error "machine is required when creating a docker.Machine"
  else if logger = false then .error "logger is required when creating a docker.Machine"
  else .ok { cluster := cluster, machine := machine, image := image.URL }

/-- The function `machineContainerName`: `fmt.Sprintf("%s-%s", cluster, machine)`. -/
def baremetal.machineContainerName (cluster machine : String) : String :=
  cluster ++ "-" ++ machine

/-- The method `ContainerName`. -/
def baremetal.Machine.ContainerName (m : baremetal.Machine) : String :=
  baremetal.machineContainerName m.cluster m.machine

/-- The method `ProviderID`: `fmt.Sprintf("docker:////%s", m.ContainerName())`. -/
def baremetal.Machine.ProviderID (m : baremetal.Machine) : String :=
  "docker:////" ++ m.ContainerName

/-- The method `Create` of the helper, which does nothing and returns nil. -/
def baremetal.Machine.Create (_m : baremetal.Machine) (_role : String)
    (_version : Option String) : Option String := none

/-- The method `ExecBootstrap` of the helper, which does nothing and returns nil. -/
def baremetal.Machine.ExecBootstrap (_m : baremetal.Machine) (_data : String) :
    Option String := none

/-- The method `SetNodeProviderID` of the helper, which does nothing and returns nil. -/
def baremetal.Machine.SetNodeProviderID (_m : baremetal.Machine) : Option String := none

/-- The type `LoadBalancer` of the package `baremetal`; its logger is left out. -/
structure baremetal.LoadBalancer where
  name : String
  deriving DecidableEq, Repr

/-- The method `UpdateConfiguration` of the load balancer, which does nothing and returns
nil. -/
def baremetal.LoadBalancer.UpdateConfiguration (_s : baremetal.LoadBalancer) :
    Option String := none

/-- The constant `MachineFinalizer`. -/
def MachineFinalizer : String := "baremetalmachine.infrastructure.cluster.x-k8s.io"

/-- A `BareMetalMachine` (`infrav1.BareMetalMachine`), reduced to its finalizers, its spec
and the field `Status.Ready`. -/
structure infrav1.BareMetalMachine where
  Finalizers : List String := []
  Spec : BareMetalMachineSpec
  Ready : Bool := false
  deriving DecidableEq, Repr

/-- A machine of the cluster API (`clusterv1.Machine` of `v1alpha2`), reduced to its name,
its labels, `Spec.Bootstrap.Data` and `Spec.Version`. -/
structure clusterv1.Machine where
  Name : String
  Labels : List (String × String) := []
  BootstrapData : Option String := none
  Version : Option String := none
  deriving DecidableEq, Repr

/-- The method `reconcileNormal`: the `BareMetalMachine` as the call leaves it and the error
returned.  The library test `util.IsControlPlaneMachine` and the two role constants of
`kind` are parameters. -/
def reconcileNormal (IsControlPlaneMachine : clusterv1.Machine → Bool)
    (WorkerNodeRoleValue ControlPlaneNodeRoleValue : String)
    (machine : clusterv1.Machine) (baremetalMachine : infrav1.BareMetalMachine)
    (externalMachine : baremetal.Machine) (externalLoadBalancer : baremetal.LoadBalancer) :
    infrav1.BareMetalMachine × Option String :=
  let baremetalMachine :=
    if !baremetalMachine.Finalizers.contains MachineFinalizer then
      { baremetalMachine with Finalizers := baremetalMachine.Finalizers ++ [MachineFinalizer] }
    else baremetalMachine
  if baremetalMachine.Spec.ProviderID ≠ none then (baremetalMachine, none)
  else
    match machine.BootstrapData with
    | none => (baremetalMachine, none)
    | some data =>
      let role :=
        if IsControlPlaneMachine machine then ControlPlaneNodeRoleValue
        else WorkerNodeRoleValue
      match externalMachine.Create role machine.Version with
      | some err => (baremetalMachine, some ("failed to create worker BareMetalMachine: " ++ err))
      | none =>
        let updateErr :=
          if IsControlPlaneMachine machine then externalLoadBalancer.UpdateConfiguration
          else none
        match updateErr with
        | some err =>
          (baremetalMachine,
            some ("failed to update BareMetalCluster.loadbalancer configuration: " ++ err))
        | none =>
          match externalMachine.ExecBootstrap data with
          | some err =>
            (baremetalMachine, some ("failed to exec BareMetalMachine bootstrap: " ++ err))
          | none =>
            match externalMachine.SetNodeProviderID with
            | some err =>
              (baremetalMachine,
                some ("failed to patch the Kubernetes node with the machine providerID: " ++
                  err))
            | none =>
              let providerID := externalMachine.ProviderID
              ({ baremetalMachine with
                  Spec := { baremetalMachine.Spec with ProviderID := some providerID }
                  Ready := true }, none)

/-- A machine with bootstrap data. -/
def bootstrappedMachine : clusterv1.Machine where
  Name := "machine-1"
  BootstrapData := some "Qm9vdHN0cmFw"

/-- A `BareMetalMachine` whose provider ID was set before. -/
def provisionedMachine : infrav1.BareMetalMachine where
  Spec := { ProviderID := some "baremetal:////machine-1", Image := sampleImage }

/-! ## The label library behind the host selector -/

/-- The operator `selection.DoesNotExist` of the library `k8s.io/apimachinery`. -/
def selectionDoesNotExist : String := "!"

/-- The operator `selection.DoubleEquals`. -/
def selectionDoubleEquals : String := "=="

/-- The operator `selection.In`. -/
def selectionIn : String := "in"

/-- The operator `selection.NotEquals`. -/
def selectionNotEquals : String := "!="

/-- The operator `selection.NotIn`. -/
def selectionNotIn : String := "notin"

/-- The operator `selection.Exists`. -/
def selectionExists : String := "exists"

/-- The operator `selection.GreaterThan`. -/
def selectionGreaterThan : String := "gt"

/-- The operator `selection.LessThan`. -/
def selectionLessThan : String := "lt"

/-- The checks of the label library that look inside a key or a value: the syntax of a
label key, the syntax of a label value, and `strconv.ParseInt`; each returns its error, if
any. -/
structure LabelSyntax where
  validateLabelKey : String → Option String
  validateLabelValue : String → Option String
  parseInt : String → Option String

/-- The first error a check finds among the values, in their order. -/
def firstError (check : String → Option String) : List String → Option String
  | [] => none
  | v :: rest =>
    match check v with
    | some err => some err
    | none => firstError check rest

/-- The `switch` of `labels.NewRequirement` on the operator: the error for the number of
values the operator takes, or for an operator that is none of the nine. -/
def operatorError (syn : LabelSyntax) (op : String) (vals : List String) : Option String :=
  if op = selectionIn ∨ op = selectionNotIn then
    if vals.length = 0 then some "for 'in', 'notin' operators, values set can't be empty"
    else none
  else if op = selectionEquals ∨ op = selectionDoubleEquals ∨ op = selectionNotEquals then
    if vals.length ≠ 1 then some "exact-match compatibility requires one single value"
    else none
  else if op = selectionExists ∨ op = selectionDoesNotExist then
    if vals.length ≠ 0 then some "values set must be empty for exists and does not exist"
    else none
  else if op = selectionGreaterThan ∨ op = selectionLessThan then
    if vals.length ≠ 1 then some "for 'Gt', 'Lt' operators, exactly one value is required"
    else
      match firstError syn.parseInt vals with
      | some _ => some "for 'Gt', 'Lt' operators, the value must be an integer"
      | none => none
  else some ("operator '" ++ op ++ "' is not recognized")

/-- The function `labels.NewRequirement` of the library `k8s.io/apimachinery`, which
`chooseHost` calls and which is not part of this repository: it checks the key, then the
operator with the number of its values, then the values; the requirement it returns keeps
the values as they were given. -/
def labels.NewRequirement (syn : LabelSyntax) (key op : String) (vals : List String) :
    Except String Requirement :=
  match syn.validateLabelKey key with
  | some err => .error err
  | none =>
    match operatorError syn op vals with
    | some err => .error err
    | none =>
      match firstError syn.validateLabelValue vals with
      | some err => .error err
      | none => .ok { key := key, operator := op, strValues := vals }

/-- The operators the label library takes, with the number of values each requires. -/
def OperatorAccepts (syn : LabelSyntax) (op : String) (vals : List String) : Prop :=
  ((op = "in" ∨ op = "notin") ∧ vals ≠ []) ∨
  ((op = "=" ∨ op = "==" ∨ op = "!=") ∧ vals.length = 1) ∨
  ((op = "exists" ∨ op = "!") ∧ vals = []) ∨
  ((op = "gt" ∨ op = "lt") ∧ vals.length = 1 ∧ ∀ v, v ∈ vals → syn.parseInt v = none)

/-- A sample of the syntax checks: a key must not be empty, every value passes, and an
integer is a string of digits. -/
def sampleSyntax : LabelSyntax where
  validateLabelKey := fun key => if key = "" then some "name part must be non-empty" else none
  validateLabelValue := fun _ => none
  parseInt := fun v => if v.isNat then none else some "invalid syntax"

/-- The library functions with `labels.NewRequirement` as the label library has it; the
other functions are those of `sampleLib`. -/
def labelLib : Lib :=
  { sampleLib with NewRequirement := labels.NewRequirement sampleSyntax }

/-- A provider spec with one expression on the key `key1`. -/
def configWithExpression (operator : String) (values : List String) :
    BareMetalMachineProviderSpec where
  Image := sampleImage
  HostSelector := { MatchExpressions := [{ Key := "key1", Operator := operator,
                                           Values := values }] }

/-- The string with its letters `A` to `Z` put in lower case, which is what `strings.ToLower`
returns for a string of ASCII characters. -/
def asciiLower (s : String) : String := String.mk (s.data.map Char.toLower)

/-- Whether every character of the string is an ASCII character. -/
def isASCII (s : String) : Bool := s.data.all fun c => decide (c.toNat < 128)

/-! # Properties -/

/-! ## Properties of the map operations -/

section MapLemmas

variable {κ : Type} [DecidableEq κ]

theorem mapGet_mapSet_self (m : List (κ × Value)) (k : κ) (v : Value) :
    mapGet (mapSet m k v) k = some v := by
  induction m with
  | nil => simp [mapSet, mapGet]
  | cons p rest ih =>
    obtain ⟨k', v'⟩ := p
    by_cases h : k' = k
    · simp [mapSet, mapGet, h]
    · simp [mapSet, mapGet, h, ih]

theorem mapGet_mapSet_ne (m : List (κ × Value)) (k k' : κ) (v : Value) (hne : k' ≠ k) :
    mapGet (mapSet m k v) k' = mapGet m k' := by
  induction m with
  | nil =>
    have : ¬ k = k' := fun h => hne h.symm
    simp [mapSet, mapGet, this]
  | cons p rest ih =>
    obtain ⟨k₀, v₀⟩ := p
    by_cases h : k₀ = k
    · subst h
      have : ¬ k₀ = k' := fun h => hne h.symm
      simp [mapSet, mapGet, this]
    · by_cases h' : k₀ = k'
      · subst h'
        simp [mapSet, mapGet, h]
      · simp [mapSet, mapGet, h, h', ih]

theorem mapGet_eq_none_iff (m : List (κ × Value)) (k : κ) :
    mapGet m k = none ↔ k ∉ keys m := by
  induction m with
  | nil => simp [mapGet, keys]
  | cons p rest ih =>
    obtain ⟨k₀, v₀⟩ := p
    by_cases h : k₀ = k
    · simp [mapGet, keys, h]
    · have h' : ¬ k = k₀ := fun e => h e.symm
      simpa [mapGet, keys, h, h'] using ih

theorem mapGet_isSome_iff (m : List (κ × Value)) (k : κ) :
    (∃ v, mapGet m k = some v) ↔ k ∈ keys m := by
  rw [← not_iff_not, ← mapGet_eq_none_iff]
  cases mapGet m k <;> simp

theorem mem_of_mapGet (m : List (κ × Value)) (k : κ) (v : Value)
    (h : mapGet m k = some v) : (k, v) ∈ m := by
  induction m with
  | nil => simp [mapGet] at h
  | cons p rest ih =>
    obtain ⟨k₀, v₀⟩ := p
    by_cases hk : k₀ = k
    · simp [mapGet, hk] at h
      simp [hk, h]
    · simp [mapGet, hk] at h
      exact List.mem_cons_of_mem _ (ih h)

theorem mapGet_of_mem (m : List (κ × Value)) (k : κ) (v : Value)
    (hnd : (keys m).Nodup) (h : (k, v) ∈ m) : mapGet m k = some v := by
  induction m with
  | nil => simp at h
  | cons p rest ih =>
    obtain ⟨k₀, v₀⟩ := p
    simp only [keys, List.map_cons, List.nodup_cons] at hnd
    rcases List.mem_cons.mp h with heq | hmem
    · cases heq
      simp [mapGet]
    · have hk : k₀ ≠ k := by
        intro e
        subst e
        exact hnd.1 (List.mem_map_of_mem Prod.fst hmem)
      simp only [mapGet, hk, if_false]
      exact ih hnd.2 hmem

theorem mapSet_of_not_mem (m : List (κ × Value)) (k : κ) (v : Value)
    (h : k ∉ keys m) : mapSet m k v = m ++ [(k, v)] := by
  induction m with
  | nil => simp [mapSet]
  | cons p rest ih =>
    obtain ⟨k₀, v₀⟩ := p
    simp only [keys, List.map_cons, List.mem_cons, not_or] at h
    have hk : ¬ k₀ = k := fun e => h.1 e.symm
    simp only [mapSet, hk, if_false, List.cons_append]
    rw [ih h.2]

theorem keys_mapSet_of_not_mem (m : List (κ × Value)) (k : κ) (v : Value)
    (h : k ∉ keys m) : keys (mapSet m k v) = keys m ++ [k] := by
  rw [mapSet_of_not_mem m k v h]
  simp [keys]

end MapLemmas

/-! ## The user-data merger -/

/-- The comparison of keys does not depend on the order of its arguments. -/
theorem MapKey.eq_comm (a b : MapKey) : a.eq b = b.eq a := by
  have hf : ∀ x y : Nat, float64Eq x y = float64Eq y x := by
    intro x y
    unfold float64Eq
    have e : decide (x % 2 ^ 64 = y % 2 ^ 64) = decide (y % 2 ^ 64 = x % 2 ^ 64) :=
      decide_eq_decide.mpr ⟨Eq.symm, Eq.symm⟩
    rw [e]
    cases float64IsNaN x <;> cases float64IsNaN y <;> simp [Bool.and_comm]
  cases a <;> cases b <;> simp [MapKey.eq, hf]
  all_goals exact ⟨Eq.symm, Eq.symm⟩

/-- A read finds nothing exactly when no key of the map equals the key read. -/
theorem keyGet_eq_none_iff (m : List (MapKey × Value)) (k : MapKey) :
    keyGet m k = none ↔ ∀ k1, k1 ∈ keys m → k1.eq k = false := by
  induction m with
  | nil => simp [keyGet, keys]
  | cons p rest ih =>
    obtain ⟨k', v⟩ := p
    by_cases h : k'.eq k = true
    · simp only [keyGet, h, if_true, keys, List.map_cons, List.mem_cons]
      constructor
      · intro hh
        cases hh
      · intro hh
        rw [hh k' (Or.inl rfl)] at h
        cases h
    · have h' : k'.eq k = false := by simpa using h
      simp only [keyGet, h', Bool.false_eq_true, if_false, ih, keys, List.map_cons,
        List.mem_cons]
      constructor
      · intro hh k1 hk1
        rcases hk1 with rfl | hk1
        · exact h'
        · exact hh k1 hk1
      · intro hh k1 hk1
        exact hh k1 (Or.inr hk1)

/-- A read finds a value exactly when a key of the map equals the key read. -/
theorem keyGet_isSome_iff (m : List (MapKey × Value)) (k : MapKey) :
    (∃ v, keyGet m k = some v) ↔ ∃ k1, k1 ∈ keys m ∧ k1.eq k = true := by
  constructor
  · rintro ⟨v, hv⟩
    by_contra hn
    have : keyGet m k = none := by
      rw [keyGet_eq_none_iff]
      intro k1 hk1
      cases he : k1.eq k with
      | false => rfl
      | true => exact absurd ⟨k1, hk1, he⟩ hn
    rw [this] at hv
    cases hv
  · rintro ⟨k1, hk1, he⟩
    cases hg : keyGet m k with
    | some v => exact ⟨v, rfl⟩
    | none =>
      rw [(keyGet_eq_none_iff m k).mp hg k1 hk1] at he
      cases he

/-- A write of a key the map does not hold adds an entry behind the others. -/
theorem keySet_of_none (m : List (MapKey × Value)) (k : MapKey) (v : Value)
    (h : keyGet m k = none) : keySet m k v = m ++ [(k, v)] := by
  induction m with
  | nil => rfl
  | cons p rest ih =>
    obtain ⟨k', v'⟩ := p
    by_cases he : k'.eq k = true
    · simp [keyGet, he] at h
    · have he' : k'.eq k = false := by simpa using he
      simp only [keyGet, he', Bool.false_eq_true, if_false] at h
      simp [keySet, he', ih h]

/-- Distinct keys, one at a time: the first equals none of the others, and the others are
distinct. -/
theorem keysDistinct_cons (k : MapKey) (rest : List MapKey) :
    keysDistinct (k :: rest) = true ↔
      (∀ k', k' ∈ rest → k.eq k' = false) ∧ keysDistinct rest = true := by
  simp [keysDistinct]

theorem innerKeysDistinct_mem (d : Doc) (h : innerKeysDistinct d = true) (k : String)
    (m : List (MapKey × Value)) (hm : (k, Value.map m) ∈ d) :
    keysDistinct (keys m) = true := by
  induction d with
  | nil => simp at hm
  | cons p rest ih =>
    obtain ⟨k₀, v₀⟩ := p
    rcases List.mem_cons.mp hm with heq | hmem
    · cases heq
      simp only [innerKeysDistinct, Bool.and_eq_true] at h
      exact h.1
    · cases v₀ with
      | map m₀ =>
        simp only [innerKeysDistinct, Bool.and_eq_true] at h
        exact ih h.2 hmem
      | null => exact ih (by simpa [innerKeysDistinct] using h) hmem
      | scalar s => exact ih (by simpa [innerKeysDistinct] using h) hmem
      | seq l => exact ih (by simpa [innerKeysDistinct] using h) hmem

theorem noNulls_mem (d : Doc) (h : noNulls d = true) (k : String) (v : Value)
    (hm : (k, v) ∈ d) : v ≠ Value.null := by
  induction d with
  | nil => simp at hm
  | cons p rest ih =>
    obtain ⟨k₀, v₀⟩ := p
    rcases List.mem_cons.mp hm with heq | hmem
    · cases heq
      cases v <;> simp [noNulls] at h ⊢
    · cases v₀ with
      | null => simp [noNulls] at h
      | map m₀ => exact ih (by simpa [noNulls] using h) hmem
      | scalar s => exact ih (by simpa [noNulls] using h) hmem
      | seq l => exact ih (by simpa [noNulls] using h) hmem

/-- The loop of `mergeMap` never panics, and it fails exactly when the second map has a key
of the map built so far. -/
theorem mergeMapLoop_spec (m2 : List (MapKey × Value)) :
    ∀ out : List (MapKey × Value), keysDistinct (keys m2) = true →
      mergeMapLoop out m2 ≠ .panicked ∧
      ((∃ e, mergeMapLoop out m2 = .error e) ↔ SharesKey out m2) := by
  induction m2 with
  | nil =>
    intro out _
    simp [mergeMapLoop, SharesKey, keys]
  | cons p rest ih =>
    intro out hnd
    obtain ⟨k, v⟩ := p
    simp only [keys, List.map_cons] at hnd
    obtain ⟨hfirst, hrest⟩ := (keysDistinct_cons _ _).mp hnd
    cases hget : keyGet out k with
    | some v' =>
      obtain ⟨k1, hk1, he⟩ := (keyGet_isSome_iff out k).mp ⟨v', hget⟩
      simp only [mergeMapLoop, hget]
      refine ⟨by simp, ?_⟩
      constructor
      · intro _
        exact ⟨k1, k, hk1, by simp [keys], he⟩
      · intro _
        exact ⟨_, rfl⟩
    | none =>
      have hnone := (keyGet_eq_none_iff out k).mp hget
      simp only [mergeMapLoop, hget]
      rw [keySet_of_none out k v hget]
      obtain ⟨hp, hiff⟩ := ih (out ++ [(k, v)]) hrest
      refine ⟨hp, hiff.trans ?_⟩
      constructor
      · rintro ⟨k1, k2, h1, h2, he⟩
        simp only [keys, List.map_append, List.map_cons, List.map_nil, List.mem_append,
          List.mem_singleton] at h1
        rcases h1 with h1 | h1
        · exact ⟨k1, k2, h1, by simp only [keys, List.map_cons, List.mem_cons]; exact Or.inr h2,
            he⟩
        · subst h1
          rw [hfirst k2 h2] at he
          cases he
      · rintro ⟨k1, k2, h1, h2, he⟩
        simp only [keys, List.map_cons, List.mem_cons] at h2
        rcases h2 with h2 | h2
        · subst h2
          rw [hnone k1 h1] at he
          cases he
        · exact ⟨k1, k2, by simp only [keys, List.map_append, List.mem_append]; exact Or.inl h1,
            h2, he⟩

/-- The merge of the two values of one key never panics on values that are not null, and it
fails exactly on a conflict. -/
theorem mergeValues_spec (key : String) (v1 v2 : Value) (h1 : v1 ≠ .null) (h2 : v2 ≠ .null)
    (hd : ∀ m, v2 = .map m → keysDistinct (keys m) = true) :
    mergeValues key v1 v2 ≠ .panicked ∧
    ((∃ e, mergeValues key v1 v2 = .error e) ↔ Conflict v1 v2) := by
  cases v1 with
  | null => exact absurd rfl h1
  | scalar s1 =>
    cases v2 with
    | null => exact absurd rfl h2
    | scalar s2 =>
      cases s1 <;> cases s2 <;>
        simp [mergeValues, Value.kind, Conflict, Value.shape]
    | seq l2 => cases s1 <;> simp [mergeValues, Value.kind, Conflict, Value.shape]
    | map m2 => cases s1 <;> simp [mergeValues, Value.kind, Conflict, Value.shape]
  | seq l1 =>
    cases v2 with
    | null => exact absurd rfl h2
    | scalar s2 => cases s2 <;> simp [mergeValues, Value.kind, Conflict, Value.shape]
    | seq l2 => simp [mergeValues, Value.kind, Conflict, Value.shape, mergeList]
    | map m2 => simp [mergeValues, Value.kind, Conflict, Value.shape]
  | map m1 =>
    cases v2 with
    | null => exact absurd rfl h2
    | scalar s2 => cases s2 <;> simp [mergeValues, Value.kind, Conflict, Value.shape]
    | seq l2 => simp [mergeValues, Value.kind, Conflict, Value.shape]
    | map m2 =>
      obtain ⟨hp, hiff⟩ := mergeMapLoop_spec m2 m1 (hd m2 rfl)
      simp only [mergeValues, Value.kind, mergeMap, ne_eq, not_true_eq_false, if_false]
      cases hres : mergeMapLoop m1 m2 with
      | ok v =>
        rw [hres] at hiff
        simp only [Conflict, Value.shape, ne_eq, not_true_eq_false, false_or, reduceCtorEq,
          false_and, Value.map.injEq]
        refine ⟨by simp, ?_⟩
        constructor
        · rintro ⟨e, he⟩
          cases he
        · rintro ⟨a, b, ⟨rfl, rfl, hs⟩⟩
          obtain ⟨e, he⟩ := hiff.mpr hs
          cases he
      | error e =>
        rw [hres] at hiff
        refine ⟨by simp, ?_⟩
        constructor
        · intro _
          exact Or.inr (Or.inr ⟨m1, m2, rfl, rfl, hiff.mp ⟨e, rfl⟩⟩)
        · intro _
          exact ⟨_, rfl⟩
      | panicked => exact absurd hres hp

/-- The first loop of `mergeCloudInitMaps` never panics on documents without nulls, and it
fails exactly when an entry still to visit conflicts with the second document. -/
theorem mergeLoop1_spec (d2 : Doc) (hn2 : noNulls d2 = true) (hd2 : innerKeysDistinct d2 = true)
    (rest : Doc) :
    ∀ out : Doc, noNulls rest = true →
      mergeLoop1 d2 rest out ≠ .panicked ∧
      ((∃ e, mergeLoop1 d2 rest out = .error e) ↔
        ∃ k v1 v2, (k, v1) ∈ rest ∧ mapGet d2 k = some v2 ∧ Conflict v1 v2) := by
  induction rest with
  | nil =>
    intro out _
    simp [mergeLoop1]
  | cons p rest ih =>
    intro out hn1
    obtain ⟨k, v1⟩ := p
    have hv1 : v1 ≠ .null := noNulls_mem _ hn1 k v1 (List.mem_cons_self _ _)
    have hn1' : noNulls rest = true := by
      cases v1 <;> simp_all [noNulls]
    cases hget : mapGet d2 k with
    | none =>
      simp only [mergeLoop1, hget]
      obtain ⟨hp, hiff⟩ := ih (mapSet out k v1) hn1'
      refine ⟨hp, hiff.trans ?_⟩
      constructor
      · rintro ⟨k', a, b, hm, hg, hc⟩
        exact ⟨k', a, b, List.mem_cons_of_mem _ hm, hg, hc⟩
      · rintro ⟨k', a, b, hm, hg, hc⟩
        rcases List.mem_cons.mp hm with heq | hm
        · cases heq
          rw [hget] at hg
          cases hg
        · exact ⟨k', a, b, hm, hg, hc⟩
    | some v2 =>
      have hmem2 : (k, v2) ∈ d2 := mem_of_mapGet d2 k v2 hget
      have hv2 : v2 ≠ .null := noNulls_mem _ hn2 k v2 hmem2
      have hdist : ∀ m, v2 = .map m → keysDistinct (keys m) = true := by
        intro m hm
        subst hm
        exact innerKeysDistinct_mem d2 hd2 k m hmem2
      obtain ⟨hvp, hviff⟩ := mergeValues_spec k v1 v2 hv1 hv2 hdist
      simp only [mergeLoop1, hget]
      cases hres : mergeValues k v1 v2 with
      | panicked => exact absurd hres hvp
      | error e =>
        refine ⟨by simp, ?_⟩
        constructor
        · intro _
          exact ⟨k, v1, v2, List.mem_cons_self _ _, hget, hviff.mp ⟨e, hres⟩⟩
        · intro _
          exact ⟨_, rfl⟩
      | ok v =>
        obtain ⟨hp, hiff⟩ := ih (mapSet (mapSet out k v1) k v) hn1'
        refine ⟨hp, hiff.trans ?_⟩
        constructor
        · rintro ⟨k', a, b, hm, hg, hc⟩
          exact ⟨k', a, b, List.mem_cons_of_mem _ hm, hg, hc⟩
        · rintro ⟨k', a, b, hm, hg, hc⟩
          rcases List.mem_cons.mp hm with heq | hm
          · cases heq
            rw [hget] at hg
            cases hg
            obtain ⟨e, he⟩ := hviff.mpr hc
            rw [hres] at he
            cases he
          · exact ⟨k', a, b, hm, hg, hc⟩

/-- A key the first loop does not visit keeps the value the output had for it. -/
theorem mergeLoop1_get_of_not_mem (d2 : Doc) (rest : Doc) :
    ∀ (out res : Doc) (k : String), k ∉ keys rest → mergeLoop1 d2 rest out = .ok res →
      mapGet res k = mapGet out k := by
  induction rest with
  | nil =>
    intro out res k _ h
    simp only [mergeLoop1, Result.ok.injEq] at h
    rw [h]
  | cons p rest ih =>
    intro out res k hk h
    obtain ⟨k₀, v₀⟩ := p
    simp only [keys, List.map_cons, List.mem_cons, not_or] at hk
    cases hget : mapGet d2 k₀ with
    | none =>
      simp only [mergeLoop1, hget] at h
      rw [ih _ res k hk.2 h, mapGet_mapSet_ne _ _ _ _ hk.1]
    | some v2 =>
      simp only [mergeLoop1, hget] at h
      cases hres : mergeValues k₀ v₀ v2 with
      | panicked => simp [hres] at h
      | error e => simp [hres] at h
      | ok v =>
        simp only [hres] at h
        rw [ih _ res k hk.2 h, mapGet_mapSet_ne _ _ _ _ hk.1, mapGet_mapSet_ne _ _ _ _ hk.1]

/-- When the first loop succeeds, an entry it visits ends as itself if the second document
lacks its key, and as the merge of the two values otherwise. -/
theorem mergeLoop1_get_of_mem (d2 : Doc) (rest : Doc) :
    ∀ (out res : Doc) (k : String) (v1 : Value), (keys rest).Nodup → (k, v1) ∈ rest →
      mergeLoop1 d2 rest out = .ok res →
      (mapGet d2 k = none → mapGet res k = some v1) ∧
      (∀ v2, mapGet d2 k = some v2 →
        ∃ v, mergeValues k v1 v2 = .ok v ∧ mapGet res k = some v) := by
  induction rest with
  | nil =>
    intro out res k v1 _ hm
    simp at hm
  | cons p rest ih =>
    intro out res k v1 hnd hm h
    obtain ⟨k₀, v₀⟩ := p
    simp only [keys, List.map_cons, List.nodup_cons] at hnd
    rcases List.mem_cons.mp hm with heq | hmem
    · cases heq
      cases hget : mapGet d2 k with
      | none =>
        simp only [mergeLoop1, hget] at h
        have := mergeLoop1_get_of_not_mem d2 rest _ res k hnd.1 h
        rw [mapGet_mapSet_self] at this
        exact ⟨fun _ => this, fun v2 hv2 => by cases hv2⟩
      | some v2 =>
        simp only [mergeLoop1, hget] at h
        cases hres : mergeValues k v1 v2 with
        | panicked => simp [hres] at h
        | error e => simp [hres] at h
        | ok v =>
          simp only [hres] at h
          have := mergeLoop1_get_of_not_mem d2 rest _ res k hnd.1 h
          rw [mapGet_mapSet_self] at this
          refine ⟨fun hcontra => (by cases hcontra), fun w hw => ?_⟩
          cases hw
          exact ⟨v, hres, this⟩
    · cases hget : mapGet d2 k₀ with
      | none =>
        simp only [mergeLoop1, hget] at h
        exact ih _ res k v1 hnd.2 hmem h
      | some v2 =>
        simp only [mergeLoop1, hget] at h
        cases hres : mergeValues k₀ v₀ v2 with
        | panicked => simp [hres] at h
        | error e => simp [hres] at h
        | ok v =>
          simp only [hres] at h
          exact ih _ res k v1 hnd.2 hmem h

/-- The second loop leaves the value of every key of the first document as it was. -/
theorem mergeLoop2_get_of_mem (d1 : Doc) (rest : Doc) :
    ∀ (out : Doc) (k : String), k ∈ keys d1 →
      mapGet (mergeLoop2 d1 rest out) k = mapGet out k := by
  induction rest with
  | nil =>
    intro out k _
    rfl
  | cons p rest ih =>
    intro out k hk
    obtain ⟨k₀, v₀⟩ := p
    cases hget : mapGet d1 k₀ with
    | some v =>
      simp only [mergeLoop2, hget]
      exact ih out k hk
    | none =>
      simp only [mergeLoop2, hget]
      have hne : k ≠ k₀ := by
        intro e
        subst e
        exact (mapGet_eq_none_iff d1 k).mp hget hk
      rw [ih _ k hk, mapGet_mapSet_ne _ _ _ _ hne]

/-- With an empty second document the first loop copies its entries behind the output. -/
theorem mergeLoop1_nil (rest : Doc) :
    ∀ out : Doc, (keys (out ++ rest)).Nodup → mergeLoop1 [] rest out = .ok (out ++ rest) := by
  induction rest with
  | nil =>
    intro out _
    simp [mergeLoop1]
  | cons p rest ih =>
    intro out hnd
    obtain ⟨k, v⟩ := p
    have hk : k ∉ keys out := by
      simp only [keys, List.map_append, List.map_cons] at hnd
      have := (List.nodup_append.mp hnd).2.2
      intro hin
      exact this hin (List.mem_cons_self _ _)
    simp only [mergeLoop1, mapGet]
    rw [mapSet_of_not_mem out k v hk, ih]
    · simp
    · simpa using hnd

/-- With an empty first document the second loop copies its entries behind the output. -/
theorem mergeLoop2_nil (rest : Doc) :
    ∀ out : Doc, (keys (out ++ rest)).Nodup → mergeLoop2 [] rest out = out ++ rest := by
  induction rest with
  | nil =>
    intro out _
    simp [mergeLoop2]
  | cons p rest ih =>
    intro out hnd
    obtain ⟨k, v⟩ := p
    have hk : k ∉ keys out := by
      simp only [keys, List.map_append, List.map_cons] at hnd
      have := (List.nodup_append.mp hnd).2.2
      intro hin
      exact this hin (List.mem_cons_self _ _)
    simp only [mergeLoop2, mapGet]
    rw [mapSet_of_not_mem out k v hk, ih]
    · simp
    · simpa using hnd

/-- With an empty second document the second loop does nothing. -/
theorem mergeLoop2_nil_right (d1 out : Doc) : mergeLoop2 d1 [] out = out := rfl

/-- The keys of a mapping are compared as Go compares them: two NaN keys are different keys
and `mergeMap` keeps both, and the keys `0.0` and `-0.0` are the same key and `mergeMap`
reports it as duplicated. -/
theorem mergeMap_float_keys :
    mergeMap (.map [(.float 9221120237041090560, .scalar (.int 1))])
        (.map [(.float 9221120237041090560, .scalar (.int 2))]) =
      .ok (.map [(.float 9221120237041090560, .scalar (.int 1)),
                 (.float 9221120237041090560, .scalar (.int 2))]) ∧
    mergeMap (.map [(.float 0, .scalar (.int 1))])
        (.map [(.float 9223372036854775808, .scalar (.int 2))]) =
      .error (.duplicatedKey (.float 9223372036854775808)) ∧
    mergeMap (.map [(.null, .scalar (.int 1))]) (.map [(.null, .scalar (.int 2))]) =
      .error (.duplicatedKey .null) ∧
    mergeMap (.map [(.int 1, .scalar (.int 1))])
        (.map [(.float 4607182418800017408, .scalar (.int 2))]) =
      .ok (.map [(.int 1, .scalar (.int 1)), (.float 4607182418800017408, .scalar (.int 2))]) :=
  ⟨rfl, rfl, rfl, rfl⟩

/-! ## Claims about the user-data merger -/

/-- C8: for documents without nulls, `mergeCloudInitMaps d1 d2` returns an error if and only
if some key present in both documents has values of different kinds, or scalar values on
both sides (equal or not), or mappings on both sides that share a key, the keys of the
mappings being compared as Go compares them (`==`); it never panics on such documents. -/
theorem mergeCloudInitMaps_error_iff (d1 d2 : Doc) (hk1 : (keys d1).Nodup)
    (hn1 : noNulls d1 = true) (hn2 : noNulls d2 = true)
    (hd2 : innerKeysDistinct d2 = true) :
    ((∃ e, mergeCloudInitMaps d1 d2 = .error e) ↔
      ∃ k v1 v2, mapGet d1 k = some v1 ∧ mapGet d2 k = some v2 ∧ Conflict v1 v2) ∧
    mergeCloudInitMaps d1 d2 ≠ .panicked := by
  obtain ⟨hp, hiff⟩ := mergeLoop1_spec d2 hn2 hd2 d1 [] hn1
  have hmem : (∃ k v1 v2, (k, v1) ∈ d1 ∧ mapGet d2 k = some v2 ∧ Conflict v1 v2) ↔
      ∃ k v1 v2, mapGet d1 k = some v1 ∧ mapGet d2 k = some v2 ∧ Conflict v1 v2 := by
    constructor
    · rintro ⟨k, v1, v2, hm, hg, hc⟩
      exact ⟨k, v1, v2, mapGet_of_mem d1 k v1 hk1 hm, hg, hc⟩
    · rintro ⟨k, v1, v2, hm, hg, hc⟩
      exact ⟨k, v1, v2, mem_of_mapGet d1 k v1 hm, hg, hc⟩
  rw [← hmem, ← hiff]
  unfold mergeCloudInitMaps
  cases hres : mergeLoop1 d2 d1 [] with
  | ok out => simp
  | error e => simp
  | panicked => exact absurd hres hp

/-- An instance of the preceding theorem: two documents that give the same scalar
to the same key: the merge is an error. -/
theorem mergeCloudInitMaps_error_iff_witness :
    (keys sampleScalar).Nodup ∧ noNulls sampleScalar = true ∧
    innerKeysDistinct sampleScalar = true ∧
    ∃ e, mergeCloudInitMaps sampleScalar sampleScalar = .error e :=
  ⟨by simp [keys, sampleScalar], rfl, rfl,
    (mergeCloudInitMaps_error_iff sampleScalar sampleScalar (by simp [keys, sampleScalar])
      rfl rfl rfl).1.mpr
      ⟨"abc", .scalar (.str "abc"), .scalar (.str "abc"), rfl, rfl, Or.inr (Or.inl ⟨rfl, rfl⟩)⟩⟩

/-- C9: `mergeList` never fails and returns the elements of its first list followed by the
elements of its second; and when `mergeCloudInitMaps base overlay` succeeds, a key holding a
sequence on both sides holds base's sequence followed by overlay's in the output. -/
theorem mergeList_concat (l1 l2 : List Value) (base overlay out : Doc) (k : String)
    (s1 s2 : List Value) (hk : (keys base).Nodup)
    (hok : mergeCloudInitMaps base overlay = .ok out)
    (hb : mapGet base k = some (.seq s1)) (ho : mapGet overlay k = some (.seq s2)) :
    mergeList (.seq l1) (.seq l2) = .ok (.seq (l1 ++ l2)) ∧
    mapGet out k = some (.seq (s1 ++ s2)) := by
  refine ⟨rfl, ?_⟩
  unfold mergeCloudInitMaps at hok
  cases hres : mergeLoop1 overlay base [] with
  | panicked => simp [hres] at hok
  | error e => simp [hres] at hok
  | ok res =>
    simp only [hres, Result.ok.injEq] at hok
    obtain ⟨v, hv, hget⟩ :=
      (mergeLoop1_get_of_mem overlay base [] res k (.seq s1) hk
        (mem_of_mapGet base k _ hb) hres).2 (.seq s2) ho
    have hv' : v = .seq (s1 ++ s2) := by
      simp [mergeValues, Value.kind, mergeList] at hv
      exact hv.symm
    rw [← hok, mergeLoop2_get_of_mem base overlay res k
      ((mapGet_isSome_iff base k).mp ⟨_, hb⟩), hget, hv']

/-- An instance of the preceding theorem: the two documents of the test of
`mergeCloudInitMaps`, for their common key `def`. -/
theorem mergeList_concat_witness :
    (keys sampleMap1).Nodup ∧
    mergeCloudInitMaps sampleMap1 sampleMap2 =
      .ok [("abc", .scalar (.str "abc")),
           ("def", .seq [.scalar (.str "def"), .scalar (.str "efg")]),
           ("ghi", .map [(.str "jkl", .scalar (.str "jkl")), (.str "klm", .scalar (.str "klm"))]),
           ("bcd", .scalar (.str "bcd"))] ∧
    mergeList (.seq [.scalar (.str "abc")]) (.seq [.scalar (.str "ghi")]) =
      .ok (.seq ([.scalar (.str "abc")] ++ [.scalar (.str "ghi")])) ∧
    mapGet [("abc", .scalar (.str "abc")),
           ("def", .seq [.scalar (.str "def"), .scalar (.str "efg")]),
           ("ghi", .map [(.str "jkl", .scalar (.str "jkl")), (.str "klm", .scalar (.str "klm"))]),
           ("bcd", .scalar (.str "bcd"))] "def" =
      some (.seq ([.scalar (.str "def")] ++ [.scalar (.str "efg")])) :=
  ⟨by simp [keys, sampleMap1], rfl,
    mergeList_concat [.scalar (.str "abc")] [.scalar (.str "ghi")] sampleMap1 sampleMap2 _ "def"
      [.scalar (.str "def")] [.scalar (.str "efg")] (by simp [keys, sampleMap1]) rfl rfl rfl⟩

/-- C10: merging with nothing is the identity: for a document `B` with distinct keys,
`mergeCloudInitMaps B []` and `mergeCloudInitMaps [] B` both succeed with `B`, and
`mergeCloudInitWrapper` without a secret reference returns its input document. -/
theorem mergeCloudInitMaps_empty (B : Doc) (hB : (keys B).Nodup) (mgr : MachineManager)
    (prepend_ : Bool) :
    mergeCloudInitMaps B [] = .ok B ∧ mergeCloudInitMaps [] B = .ok B ∧
    mergeCloudInitWrapper mgr none B prepend_ = .ok B := by
  refine ⟨?_, ?_, rfl⟩
  · unfold mergeCloudInitMaps
    rw [mergeLoop1_nil B [] (by simpa using hB)]
    simp [mergeLoop2]
  · unfold mergeCloudInitMaps
    simp only [mergeLoop1]
    rw [mergeLoop2_nil B [] (by simpa using hB)]
    simp

/-- An instance of the preceding theorem: the first document of the test of
`mergeCloudInitMaps`. -/
theorem mergeCloudInitMaps_empty_witness :
    (keys sampleMap1).Nodup ∧
    (mergeCloudInitMaps sampleMap1 [] = .ok sampleMap1 ∧
      mergeCloudInitMaps [] sampleMap1 = .ok sampleMap1 ∧
      mergeCloudInitWrapper sampleManager none sampleMap1 true = .ok sampleMap1) :=
  ⟨by simp [keys, sampleMap1],
    mergeCloudInitMaps_empty sampleMap1 (by simp [keys, sampleMap1]) sampleManager true⟩

/-! ## The host claim engine: choosing a host -/

/-- The function `consumerRefMatches` compares name, namespace, kind and API version. -/
theorem consumerRefMatches_iff (consumer : ObjectReference) (machine : Machine) :
    consumerRefMatches consumer machine = true ↔
      consumer.Name = machine.Name ∧ consumer.Namespace = machine.Namespace ∧
      consumer.Kind = machine.Kind ∧ consumer.APIVersion = machine.APIVersion := by
  unfold consumerRefMatches
  by_cases h1 : consumer.Name = machine.Name <;>
    by_cases h2 : consumer.Namespace = machine.Namespace <;>
    by_cases h3 : consumer.Kind = machine.Kind <;>
    by_cases h4 : consumer.APIVersion = machine.APIVersion <;>
    simp [h1, h2, h3, h4]

/-- The hosts the loop of `chooseHost` collects: available, and matched by the selector. -/
theorem scanHosts_inr (lib : Lib) (reqs : List Requirement) (machine : Machine)
    (hosts : List BareMetalHost) :
    ∀ acc av : List BareMetalHost, scanHosts lib reqs machine hosts acc = .inr av →
      av = acc ++ hosts.filter fun h => lib.Available h && lib.Matches reqs h.Labels := by
  induction hosts with
  | nil =>
    intro acc av h
    simp only [scanHosts, Sum.inr.injEq] at h
    simp [h]
  | cons host rest ih =>
    intro acc av h
    unfold scanHosts at h
    by_cases ha : lib.Available host = true
    · by_cases hm : lib.Matches reqs host.Labels = true
      · simp only [ha, hm, if_true] at h
        rw [ih _ _ h]
        simp [List.filter_cons, ha, hm]
      · simp only [ha, hm, if_true] at h
        rw [ih _ _ h]
        simp [List.filter_cons, ha, hm]
    · have ha : lib.Available host = false := by simpa using ha
      simp only [ha, Bool.false_eq_true, if_false] at h
      have hf : (lib.Available host && lib.Matches reqs host.Labels) = false := by
        simp [ha]
      cases hc : host.Spec.ConsumerRef with
      | none =>
        simp only [hc] at h
        rw [ih _ _ h]
        simp [List.filter_cons, hf]
      | some consumer =>
        simp only [hc] at h
        by_cases hcm : consumerRefMatches consumer machine = true
        · simp [hcm] at h
        · have hcm : consumerRefMatches consumer machine = false := by simpa using hcm
          simp only [hcm, Bool.false_eq_true, if_false] at h
          rw [ih _ _ h]
          simp [List.filter_cons, hf]

/-- The host at which the loop of `chooseHost` stops is listed, not available and bound to
the machine. -/
theorem scanHosts_inl (lib : Lib) (reqs : List Requirement) (machine : Machine)
    (hosts : List BareMetalHost) :
    ∀ (acc : List BareMetalHost) (found : BareMetalHost),
      scanHosts lib reqs machine hosts acc = .inl found →
      found ∈ hosts ∧ lib.Available found = false ∧ boundTo machine found = true := by
  induction hosts with
  | nil =>
    intro acc found h
    simp [scanHosts] at h
  | cons host rest ih =>
    intro acc found h
    unfold scanHosts at h
    by_cases ha : lib.Available host = true
    · by_cases hm : lib.Matches reqs host.Labels = true
      · simp only [ha, hm, if_true] at h
        obtain ⟨h1, h2⟩ := ih _ _ h
        exact ⟨List.mem_cons_of_mem _ h1, h2⟩
      · simp only [ha, hm, if_true] at h
        obtain ⟨h1, h2⟩ := ih _ _ h
        exact ⟨List.mem_cons_of_mem _ h1, h2⟩
    · have ha : lib.Available host = false := by simpa using ha
      simp only [ha, Bool.false_eq_true, if_false] at h
      cases hc : host.Spec.ConsumerRef with
      | none =>
        simp only [hc] at h
        obtain ⟨h1, h2⟩ := ih _ _ h
        exact ⟨List.mem_cons_of_mem _ h1, h2⟩
      | some consumer =>
        simp only [hc] at h
        by_cases hcm : consumerRefMatches consumer machine = true
        · simp only [hcm, if_true, Sum.inl.injEq] at h
          subst h
          refine ⟨List.mem_cons_self _ _, ha, ?_⟩
          simp [boundTo, hc, hcm]
        · have hcm : consumerRefMatches consumer machine = false := by simpa using hcm
          simp only [hcm, Bool.false_eq_true, if_false] at h
          obtain ⟨h1, h2⟩ := ih _ _ h
          exact ⟨List.mem_cons_of_mem _ h1, h2⟩

/-- When a listed host is not available and bound to the machine, the loop of `chooseHost`
stops at a host. -/
theorem scanHosts_stops (lib : Lib) (reqs : List Requirement) (machine : Machine)
    (hosts : List BareMetalHost) :
    ∀ acc : List BareMetalHost,
      (∃ h ∈ hosts, lib.Available h = false ∧ boundTo machine h = true) →
      ∃ found, scanHosts lib reqs machine hosts acc = .inl found := by
  induction hosts with
  | nil =>
    intro acc h
    simp at h
  | cons host rest ih =>
    intro acc hex
    obtain ⟨h, hmem, hna, hb⟩ := hex
    unfold scanHosts
    by_cases ha : lib.Available host = true
    · have hrest : ∃ h ∈ rest, lib.Available h = false ∧ boundTo machine h = true := by
        rcases List.mem_cons.mp hmem with heq | hmem
        · subst heq
          rw [ha] at hna
          cases hna
        · exact ⟨h, hmem, hna, hb⟩
      by_cases hm : lib.Matches reqs host.Labels = true
      · simp only [ha, hm, if_true]
        exact ih _ hrest
      · simp only [ha, hm, if_true]
        exact ih _ hrest
    · have ha : lib.Available host = false := by simpa using ha
      simp only [ha, Bool.false_eq_true, if_false]
      cases hc : host.Spec.ConsumerRef with
      | none =>
        simp only
        refine ih _ ?_
        rcases List.mem_cons.mp hmem with heq | hmem
        · subst heq
          simp [boundTo, hc] at hb
        · exact ⟨h, hmem, hna, hb⟩
      | some consumer =>
        simp only
        by_cases hcm : consumerRefMatches consumer machine = true
        · exact ⟨host, by simp [hcm]⟩
        · have hcm : consumerRefMatches consumer machine = false := by simpa using hcm
          simp only [hcm, Bool.false_eq_true, if_false]
          refine ih _ ?_
          rcases List.mem_cons.mp hmem with heq | hmem
          · subst heq
            simp [boundTo, hc, hcm] at hb
          · exact ⟨h, hmem, hna, hb⟩

/-- When no listed host is bound to the machine, the loop of `chooseHost` runs to its
end. -/
theorem scanHosts_runs (lib : Lib) (reqs : List Requirement) (machine : Machine)
    (hosts acc : List BareMetalHost) (hno : ∀ h ∈ hosts, boundTo machine h = false) :
    scanHosts lib reqs machine hosts acc =
      .inr (acc ++ hosts.filter fun h => lib.Available h && lib.Matches reqs h.Labels) := by
  cases hres : scanHosts lib reqs machine hosts acc with
  | inl found =>
    obtain ⟨hm, _, hb⟩ := scanHosts_inl lib reqs machine hosts acc found hres
    rw [hno found hm] at hb
    cases hb
  | inr av => rw [scanHosts_inr lib reqs machine hosts acc av hres]

/-- C1: when the host list is read, the selector is valid and no host of the machine's
namespace has a consumer reference matching the machine, `chooseHost` returns no host if and
only if no host of that namespace is available with labels the selector matches; otherwise
it returns one of the available, selector-matching hosts of that namespace, which so has no
consumer reference and no error message, and the random index is within the candidates. -/
theorem chooseHost_available (lib : Lib) (c : Client) (machine : Machine)
    (config : BareMetalMachineProviderSpec) (reqs : List Requirement)
    (hlist : c.listErr = none)
    (hsel : selectorReqs lib config.HostSelector = .ok reqs)
    (hrand : ∀ n, 0 < n → lib.Intn n < n)
    (havail : ∀ h, lib.Available h = true →
      h.Spec.ConsumerRef = none ∧ h.Status.ErrorMessage = "")
    (hnone : ∀ h ∈ c.hosts, h.Namespace = machine.Namespace → boundTo machine h = false) :
    (chooseHost lib c machine config = .noHost ↔
      ∀ h ∈ c.hosts, h.Namespace = machine.Namespace →
        ¬ (lib.Available h = true ∧ lib.Matches reqs h.Labels = true)) ∧
    (chooseHost lib c machine config = .noHost ∨
      ∃ h, chooseHost lib c machine config = .host h ∧ h ∈ c.hosts ∧
        h.Namespace = machine.Namespace ∧ lib.Available h = true ∧
        lib.Matches reqs h.Labels = true ∧ h.Spec.ConsumerRef = none ∧
        h.Status.ErrorMessage = "") := by
  have hno : ∀ h ∈ c.hosts.filter (fun h => decide (h.Namespace = machine.Namespace)),
      boundTo machine h = false := by
    intro h hm
    obtain ⟨h1, h2⟩ := List.mem_filter.mp hm
    exact hnone h h1 (by simpa using h2)
  have hscan := scanHosts_runs lib reqs machine _ [] hno
  have hcand : ∀ h, h ∈ (c.hosts.filter (fun h => decide (h.Namespace = machine.Namespace))).filter
        (fun h => lib.Available h && lib.Matches reqs h.Labels) ↔
      h ∈ c.hosts ∧ h.Namespace = machine.Namespace ∧ lib.Available h = true ∧
        lib.Matches reqs h.Labels = true := by
    intro h
    simp only [List.mem_filter, decide_eq_true_eq, Bool.and_eq_true]
    tauto
  simp only [List.nil_append] at hscan
  generalize hav : (c.hosts.filter (fun h => decide (h.Namespace = machine.Namespace))).filter
      (fun h => lib.Available h && lib.Matches reqs h.Labels) = av at hscan hcand
  have hch : chooseHost lib c machine config =
      if av.length = 0 then .noHost
      else match av.get? (lib.Intn av.length) with
        | some chosenHost => .host chosenHost
        | none => .indexOutOfRange := by
    simp only [chooseHost, Client.List, hlist, hsel, hscan]
  cases av with
  | nil =>
    have hch' : chooseHost lib c machine config = .noHost := by simpa using hch
    refine ⟨?_, Or.inl hch'⟩
    constructor
    · intro _ h hm hns hp
      have := (hcand h).mpr ⟨hm, hns, hp.1, hp.2⟩
      simp at this
    · intro _
      exact hch'
  | cons a rest =>
    have hlt : lib.Intn (a :: rest).length < (a :: rest).length := hrand _ (by simp)
    obtain ⟨chosen, hchosen⟩ : ∃ x, (a :: rest).get? (lib.Intn (a :: rest).length) = some x :=
      ⟨_, List.get?_eq_get hlt⟩
    have hch' : chooseHost lib c machine config = .host chosen := by
      rw [hch, hchosen]
      simp
    have hin : chosen ∈ a :: rest := List.get?_mem hchosen
    obtain ⟨h1, h2, h3, h4⟩ := (hcand chosen).mp hin
    refine ⟨?_, Or.inr ⟨chosen, hch', h1, h2, h3, h4, havail chosen h3⟩⟩
    constructor
    · intro hcontra
      rw [hch'] at hcontra
      cases hcontra
    · intro hall
      exact absurd ⟨h3, h4⟩ (hall chosen h1 h2)

/-- An instance of the preceding theorem: a store with a host of another machine, a free
host of another namespace and a free labelled host: the labelled host is returned. -/
theorem chooseHost_available_witness :
    (({ hosts := [hostOfSomeoneElse, hostElsewhere, hostFree] } : Client).listErr = none ∧
      selectorReqs sampleLib sampleConfig.HostSelector =
        .ok [{ key := "key1", operator := "=", strValues := ["value1"] }] ∧
      chooseHost sampleLib { hosts := [hostOfSomeoneElse, hostElsewhere, hostFree] }
        sampleMachine sampleConfig = .host hostFree) ∧
    (chooseHost sampleLib { hosts := [hostOfSomeoneElse, hostElsewhere, hostFree] }
        sampleMachine sampleConfig = .noHost ∨
      ∃ h, chooseHost sampleLib { hosts := [hostOfSomeoneElse, hostElsewhere, hostFree] }
          sampleMachine sampleConfig = .host h ∧
        h ∈ [hostOfSomeoneElse, hostElsewhere, hostFree] ∧
        h.Namespace = sampleMachine.Namespace ∧ sampleLib.Available h = true ∧
        sampleLib.Matches [{ key := "key1", operator := "=", strValues := ["value1"] }]
          h.Labels = true ∧
        h.Spec.ConsumerRef = none ∧ h.Status.ErrorMessage = "") :=
  ⟨⟨rfl, rfl, rfl⟩,
    (chooseHost_available sampleLib { hosts := [hostOfSomeoneElse, hostElsewhere, hostFree] }
      sampleMachine sampleConfig [{ key := "key1", operator := "=", strValues := ["value1"] }]
      rfl rfl (fun _ hn => hn)
      (fun h hav => by
        simp only [sampleLib, specAvailable, Bool.and_eq_true, decide_eq_true_eq,
          Option.isNone_iff_eq_none] at hav
        exact ⟨hav.1.2, hav.2⟩)
      (fun h hm _ => by
        simp only [List.mem_cons, List.mem_singleton, List.not_mem_nil, or_false] at hm
        rcases hm with rfl | rfl | rfl <;> rfl)).2⟩

/-- C2: when the host list is read and the selector is valid, and some host of the
machine's namespace has a consumer reference that matches the machine in name, namespace,
kind and API version, `chooseHost` returns such a host, whatever available hosts are present
and whatever the labels of that host are. -/
theorem chooseHost_existing_consumer (lib : Lib) (c : Client) (machine : Machine)
    (config : BareMetalMachineProviderSpec) (reqs : List Requirement)
    (hlist : c.listErr = none)
    (hsel : selectorReqs lib config.HostSelector = .ok reqs)
    (havail : ∀ h, lib.Available h = true → h.Spec.ConsumerRef = none)
    (host : BareMetalHost) (consumer : ObjectReference)
    (hmem : host ∈ c.hosts) (hns : host.Namespace = machine.Namespace)
    (href : host.Spec.ConsumerRef = some consumer)
    (hmatch : consumerRefMatches consumer machine = true) :
    ∃ h r, chooseHost lib c machine config = .host h ∧ h ∈ c.hosts ∧
      h.Namespace = machine.Namespace ∧ h.Spec.ConsumerRef = some r ∧
      r.Name = machine.Name ∧ r.Namespace = machine.Namespace ∧
      r.Kind = machine.Kind ∧ r.APIVersion = machine.APIVersion := by
  have hna : lib.Available host = false := by
    cases ha : lib.Available host with
    | false => rfl
    | true =>
      rw [havail host ha] at href
      cases href
  have hb : boundTo machine host = true := by simp [boundTo, href, hmatch]
  obtain ⟨found, hfound⟩ := scanHosts_stops lib reqs machine
    (c.hosts.filter (fun h => decide (h.Namespace = machine.Namespace))) []
    ⟨host, List.mem_filter.mpr ⟨hmem, by simpa using hns⟩, hna, hb⟩
  obtain ⟨h1, _, h3⟩ := scanHosts_inl lib reqs machine _ [] found hfound
  obtain ⟨h1a, h1b⟩ := List.mem_filter.mp h1
  have hch : chooseHost lib c machine config = .host found := by
    simp only [chooseHost, Client.List, hlist, hsel, hfound]
  cases hr : found.Spec.ConsumerRef with
  | none => simp [boundTo, hr] at h3
  | some r =>
    have hrm : consumerRefMatches r machine = true := by simpa [boundTo, hr] using h3
    obtain ⟨e1, e2, e3, e4⟩ := (consumerRefMatches_iff r machine).mp hrm
    exact ⟨found, r, hch, h1a, by simpa using h1b, hr, e1, e2, e3, e4⟩

/-- An instance of the preceding theorem: a store with a free labelled host and a
host already bound to the machine, which carries no label. -/
theorem chooseHost_existing_consumer_witness :
    (selectorReqs sampleLib sampleConfig.HostSelector =
        .ok [{ key := "key1", operator := "=", strValues := ["value1"] }] ∧
      chooseHost sampleLib { hosts := [hostFree, hostReady] } sampleMachine sampleConfig =
        .host hostReady) ∧
    ∃ h r, chooseHost sampleLib { hosts := [hostFree, hostReady] } sampleMachine sampleConfig =
        .host h ∧ h ∈ [hostFree, hostReady] ∧
      h.Namespace = sampleMachine.Namespace ∧ h.Spec.ConsumerRef = some r ∧
      r.Name = sampleMachine.Name ∧ r.Namespace = sampleMachine.Namespace ∧
      r.Kind = sampleMachine.Kind ∧ r.APIVersion = sampleMachine.APIVersion :=
  ⟨⟨rfl, rfl⟩,
    chooseHost_existing_consumer sampleLib { hosts := [hostFree, hostReady] } sampleMachine
      sampleConfig [{ key := "key1", operator := "=", strValues := ["value1"] }] rfl rfl
      (fun h hav => by
        simp only [sampleLib, specAvailable, Bool.and_eq_true, decide_eq_true_eq,
          Option.isNone_iff_eq_none] at hav
        exact hav.1.2)
      hostReady sampleConsumer (by simp) rfl rfl rfl⟩

/-! ## The host claim engine: deleting a machine -/

/-- Replacing the element a search finds by another element of the same key makes the
search find the new element. -/
theorem find_map_replace (p : BareMetalHost → Bool) (new : BareMetalHost)
    (hnew : p new = true) (l : List BareMetalHost) (old : BareMetalHost)
    (h : l.find? p = some old) :
    (l.map fun x => if p x then new else x).find? p = some new := by
  induction l with
  | nil => simp at h
  | cons x rest ih =>
    by_cases hx : p x = true
    · simp [List.find?_cons, hx, hnew]
    · have hx' : p x = false := by simpa using hx
      simp only [List.find?_cons, hx'] at h
      simp only [List.map_cons, hx', Bool.false_eq_true, if_false, List.find?_cons]
      exact ih h

/-- What `getHost` returning a host says about the machine and the client. -/
theorem getHost_some (c : Client) (machine : Machine) (host : BareMetalHost)
    (h : getHost c machine = .ok (some host)) :
    ∃ hostKey, lookupStr machine.Annotations HostAnnotation = some hostKey ∧
      SplitMetaNamespaceKey hostKey = .ok (host.Namespace, host.Name) ∧
      c.getErr = none ∧
      c.hosts.find? (hasKey host.Namespace host.Name) = some host := by
  unfold getHost at h
  cases ha : lookupStr machine.Annotations HostAnnotation with
  | none => simp [ha] at h
  | some hostKey =>
    simp only [ha] at h
    cases hs : SplitMetaNamespaceKey hostKey with
    | error e => simp [hs] at h
    | ok key =>
      obtain ⟨ns, name⟩ := key
      simp only [hs, Client.Get] at h
      cases he : c.getErr with
      | some e =>
        simp only [he] at h
        split at h <;> simp at h
      | none =>
        simp only [he] at h
        cases hf : c.hosts.find? (hasKey ns name) with
        | none => simp [hf] at h
        | some found =>
          simp only [hf, Except.ok.injEq, Option.some.injEq] at h
          subst h
          have hk := List.find?_some hf
          simp only [hasKey, Bool.and_eq_true, decide_eq_true_eq] at hk
          refine ⟨hostKey, rfl, ?_, rfl, ?_⟩
          · rw [hk.1, hk.2]
            exact hs
          · rw [hk.1, hk.2]
            exact hf

/-- An accepted update of the host that `getHost` finds, by a host of the same key, is what
`getHost` finds afterwards. -/
theorem getHost_Update (c : Client) (machine : Machine) (host new : BareMetalHost)
    (h : getHost c machine = .ok (some host)) (hupd : c.updateErr = none)
    (hns : new.Namespace = host.Namespace) (hname : new.Name = host.Name) :
    (c.Update new).2 = none ∧ getHost (c.Update new).1 machine = .ok (some new) := by
  obtain ⟨hostKey, ha, hs, he, hf⟩ := getHost_some c machine host h
  have hany : c.hosts.any (hasKey host.Namespace host.Name) = true := by
    rw [List.any_eq_true]
    exact ⟨host, List.mem_of_find?_eq_some hf, List.find?_some hf⟩
  have hnew : hasKey host.Namespace host.Name new = true := by
    simp [hasKey, hns, hname]
  have hfind := find_map_replace (hasKey host.Namespace host.Name) new hnew c.hosts host hf
  simp only [Client.Update, hupd, hns, hname, hany, if_true]
  refine ⟨trivial, ?_⟩
  simp only [getHost, ha, hs, Client.Get, he, hfind]

/-- An update the client refuses leaves the client as it was. -/
theorem Update_error (c : Client) (new : BareMetalHost) (e : APIError)
    (h : (c.Update new).2 = some e) : (c.Update new).1 = c := by
  unfold Client.Update at h ⊢
  cases hu : c.updateErr with
  | some e' => simp
  | none =>
    simp only [hu] at h ⊢
    by_cases hany : c.hosts.any (hasKey new.Namespace new.Name) = true
    · simp [hany] at h
    · simp [hany]

/-- The `switch` of `Delete` waits exactly outside the not-provisioned states, and not for
an externally provisioned host that is powered off. -/
theorem waiting_iff (host : BareMetalHost) :
    waiting host = true ↔
      (host.Status.State ∉ notProvisionedStates ∧
        ¬ (host.Status.State = .StateExternallyProvisioned ∧ host.Status.PoweredOn = false)) := by
  unfold waiting
  cases hs : host.Status.State <;> cases hp : host.Status.PoweredOn <;>
    simp [notProvisionedStates]

/-- After an accepted write, `Delete` returns what it returns on success, with the client
the write produced. -/
theorem afterUpdate_ok (c : Client) (new : BareMetalHost) (r : Option ActuatorError)
    (h : (c.Update new).2 = none) : afterUpdate c new r = ((c.Update new).1, r) := by
  unfold afterUpdate
  generalize c.Update new = u at h
  obtain ⟨c', e⟩ := u
  simp only at h
  subst h
  rfl

/-- The tick of `Delete` on a bound host with something left to deprovision. -/
theorem Delete_deprovision (c : Client) (machine : Machine) (host : BareMetalHost)
    (consumer : ObjectReference) (hget : getHost c machine = .ok (some host))
    (href : host.Spec.ConsumerRef = some consumer)
    (hmatch : consumerRefMatches consumer machine = true)
    (hset : (host.Spec.Image.isSome || host.Spec.Online || host.Spec.UserData.isSome) = true) :
    Delete c machine = afterUpdate c (deprovisioned host) (some (.RequeueAfterError 0)) := by
  simp only [Delete, hget, href, hmatch, hset, Bool.not_true, Bool.false_eq_true, if_false,
    if_true, afterUpdate, deprovisioned]

/-- The tick of `Delete` on a bound host with nothing left to deprovision. -/
theorem Delete_release (c : Client) (machine : Machine) (host : BareMetalHost)
    (consumer : ObjectReference) (hget : getHost c machine = .ok (some host))
    (href : host.Spec.ConsumerRef = some consumer)
    (hmatch : consumerRefMatches consumer machine = true)
    (hset : (host.Spec.Image.isSome || host.Spec.Online || host.Spec.UserData.isSome) = false) :
    Delete c machine =
      if waiting host then (c, some (.RequeueAfterError requeueAfter))
      else afterUpdate c (released host) none := by
  simp only [Delete, hget, href, hmatch, hset, Bool.not_true, Bool.false_eq_true, if_false,
    afterUpdate, released]

/-- C3: for a host bound to the machine with image unset, user data unset and online false,
and a client that accepts the write, `Delete` returns the requeue after 30 seconds and
leaves the store (so the consumer reference) as it was exactly when the provisioning state
is outside Registering, RegistrationError, MatchProfile, Inspecting, Ready, ValidationError
and is not ExternallyProvisioned with the power off; in every other case it returns nil and
the stored host is the host with its consumer reference cleared. -/
theorem Delete_waits_iff (c : Client) (machine : Machine) (host : BareMetalHost)
    (consumer : ObjectReference) (hget : getHost c machine = .ok (some host))
    (hupd : c.updateErr = none)
    (href : host.Spec.ConsumerRef = some consumer)
    (hmatch : consumerRefMatches consumer machine = true)
    (himg : host.Spec.Image = none) (hud : host.Spec.UserData = none)
    (honl : host.Spec.Online = false) :
    (Delete c machine = (c, some (.RequeueAfterError 30)) ↔
      (host.Status.State ∉ notProvisionedStates ∧
        ¬ (host.Status.State = .StateExternallyProvisioned ∧
            host.Status.PoweredOn = false))) ∧
    (¬ (host.Status.State ∉ notProvisionedStates ∧
        ¬ (host.Status.State = .StateExternallyProvisioned ∧
            host.Status.PoweredOn = false)) →
      (Delete c machine).2 = none ∧
      getHost (Delete c machine).1 machine =
        .ok (some (released host))) := by
  have hset : (host.Spec.Image.isSome || host.Spec.Online || host.Spec.UserData.isSome) =
      false := by simp [himg, hud, honl]
  have hD := Delete_release c machine host consumer hget href hmatch hset
  obtain ⟨hu1, hu2⟩ := getHost_Update c machine host (released host) hget hupd rfl rfl
  have hrel : waiting host = false →
      Delete c machine = ((c.Update (released host)).1, none) := by
    intro hw
    rw [hD, afterUpdate_ok c (released host) none hu1]
    simp only [hw, Bool.false_eq_true, if_false]
  rw [← waiting_iff]
  constructor
  · constructor
    · intro h
      cases hw : waiting host with
      | true => rfl
      | false =>
        rw [hrel hw] at h
        simp at h
    · intro hw
      rw [hD]
      simp [hw, requeueAfter]
  · intro hw
    have hw' : waiting host = false := by simpa using hw
    rw [hrel hw']
    exact ⟨rfl, hu2⟩

/-- An instance of the preceding theorem: the bound, ready host of `TestDelete`: the consumer
reference is cleared and nil is returned. -/
theorem Delete_waits_iff_witness :
    getHost { hosts := [hostReady] } sampleMachine = .ok (some hostReady) ∧
    hostReady.Spec.ConsumerRef = some sampleConsumer ∧
    consumerRefMatches sampleConsumer sampleMachine = true ∧
    (Delete { hosts := [hostReady] } sampleMachine).2 = none ∧
    getHost (Delete { hosts := [hostReady] } sampleMachine).1 sampleMachine =
      .ok (some (released hostReady)) :=
  ⟨rfl, rfl, rfl,
    (Delete_waits_iff { hosts := [hostReady] } sampleMachine hostReady sampleConsumer
      rfl rfl rfl rfl rfl rfl rfl).2 (by simp [notProvisionedStates, hostReady])⟩

/-- An update leaves the injected errors of the client as they were. -/
theorem Update_updateErr (c : Client) (new : BareMetalHost) :
    (c.Update new).1.updateErr = c.updateErr := by
  unfold Client.Update
  cases hu : c.updateErr with
  | some e => simp [hu]
  | none =>
    by_cases hany : c.hosts.any (hasKey new.Namespace new.Name) = true
    · simp [hany, hu]
    · simp [hany, hu]

/-- An accepted update was not given an injected error. -/
theorem Update_ok_updateErr (c : Client) (new : BareMetalHost)
    (h : (c.Update new).2 = none) : c.updateErr = none := by
  unfold Client.Update at h
  cases hu : c.updateErr with
  | some e => simp [hu] at h
  | none => rfl

/-- After its write, `Delete` either has the client it started from, or the write was
accepted and it returns the client of the write with the result for success. -/
theorem afterUpdate_cases (c : Client) (new : BareMetalHost) (r : Option ActuatorError) :
    (afterUpdate c new r).1 = c ∨
    ((c.Update new).2 = none ∧ afterUpdate c new r = ((c.Update new).1, r)) := by
  cases hu : (c.Update new).2 with
  | none => exact Or.inr ⟨rfl, afterUpdate_ok c new r hu⟩
  | some e =>
    left
    have hc := Update_error c new e hu
    unfold afterUpdate
    generalize c.Update new = u at hu hc
    obtain ⟨c', e'⟩ := u
    simp only at hu hc
    subst hu hc
    by_cases hn : e.notFound = true <;> simp [hn]

/-- C4: for a host bound to the machine that still has an image, a user-data reference or
online true, and a client that accepts the write, `Delete` stores the host with image
cleared, user data cleared and online false, with the consumer reference and the status as
they were, and returns a requeue with zero delay, which is neither nil nor the requeue after
30 seconds, whatever the provisioning state is. -/
theorem Delete_deprovisions (c : Client) (machine : Machine) (host : BareMetalHost)
    (consumer : ObjectReference) (hget : getHost c machine = .ok (some host))
    (hupd : c.updateErr = none)
    (href : host.Spec.ConsumerRef = some consumer)
    (hmatch : consumerRefMatches consumer machine = true)
    (hset : host.Spec.Image ≠ none ∨ host.Spec.UserData ≠ none ∨ host.Spec.Online = true) :
    (Delete c machine).2 = some (.RequeueAfterError 0) ∧
    (Delete c machine).2 ≠ none ∧
    (Delete c machine).2 ≠ some (.RequeueAfterError requeueAfter) ∧
    (∃ stored, getHost (Delete c machine).1 machine = .ok (some stored) ∧
      stored.Spec.Image = none ∧ stored.Spec.UserData = none ∧ stored.Spec.Online = false ∧
      stored.Spec.ConsumerRef = host.Spec.ConsumerRef ∧ stored.Status = host.Status ∧
      stored.Name = host.Name ∧ stored.Namespace = host.Namespace) := by
  have hset' : (host.Spec.Image.isSome || host.Spec.Online || host.Spec.UserData.isSome) =
      true := by
    rcases hset with h | h | h
    · cases hi : host.Spec.Image with
      | none => exact absurd hi h
      | some i => simp
    · cases hi : host.Spec.UserData with
      | none => exact absurd hi h
      | some i => simp
    · simp [h]
  obtain ⟨hu1, hu2⟩ := getHost_Update c machine host (deprovisioned host) hget hupd rfl rfl
  rw [Delete_deprovision c machine host consumer hget href hmatch hset',
    afterUpdate_ok c (deprovisioned host) _ hu1]
  refine ⟨rfl, by simp, by simp [requeueAfter], deprovisioned host, hu2, ?_⟩
  simp [deprovisioned]

/-- An instance of the preceding theorem: the provisioned host of `TestDelete`. -/
theorem Delete_deprovisions_witness :
    getHost { hosts := [hostProvisioned] } sampleMachine = .ok (some hostProvisioned) ∧
    hostProvisioned.Spec.ConsumerRef = some sampleConsumer ∧
    consumerRefMatches sampleConsumer sampleMachine = true ∧
    hostProvisioned.Spec.Image ≠ none ∧
    (Delete { hosts := [hostProvisioned] } sampleMachine).2 = some (.RequeueAfterError 0) :=
  ⟨rfl, rfl, rfl, by simp [hostProvisioned],
    (Delete_deprovisions { hosts := [hostProvisioned] } sampleMachine hostProvisioned
      sampleConsumer rfl rfl rfl rfl (Or.inl (by simp [hostProvisioned]))).1⟩

/-- C5: for a host whose consumer reference is set but differs from the machine in name,
namespace, kind or API version, `Delete` leaves the client as it was (no write: image, user
data, online and consumer reference stay) and returns nil, whatever the host holds. -/
theorem Delete_other_consumer (c : Client) (machine : Machine) (host : BareMetalHost)
    (consumer : ObjectReference) (hget : getHost c machine = .ok (some host))
    (href : host.Spec.ConsumerRef = some consumer)
    (hdiff : consumer.Name ≠ machine.Name ∨ consumer.Namespace ≠ machine.Namespace ∨
      consumer.Kind ≠ machine.Kind ∨ consumer.APIVersion ≠ machine.APIVersion) :
    Delete c machine = (c, none) := by
  have hm : consumerRefMatches consumer machine = false := by
    cases h : consumerRefMatches consumer machine with
    | false => rfl
    | true =>
      obtain ⟨h1, h2, h3, h4⟩ := (consumerRefMatches_iff consumer machine).mp h
      rcases hdiff with d | d | d | d
      · exact absurd h1 d
      · exact absurd h2 d
      · exact absurd h3 d
      · exact absurd h4 d
  simp only [Delete, hget, href, hm, Bool.not_false, if_true]

/-- An instance of the preceding theorem: the host of `TestDelete` that is provisioned for
another machine. -/
theorem Delete_other_consumer_witness :
    getHost { hosts := [hostOfSomeoneElse] } sampleMachine = .ok (some hostOfSomeoneElse) ∧
    hostOfSomeoneElse.Spec.ConsumerRef =
      some { sampleConsumer with Name := "someoneelsesmachine" } ∧
    Delete { hosts := [hostOfSomeoneElse] } sampleMachine =
      ({ hosts := [hostOfSomeoneElse] }, none) :=
  ⟨rfl, rfl,
    Delete_other_consumer { hosts := [hostOfSomeoneElse] } sampleMachine hostOfSomeoneElse
      { sampleConsumer with Name := "someoneelsesmachine" } rfl rfl
      (Or.inl (by simp [sampleConsumer, sampleMachine]))⟩

/-- The tick of `Delete` on a host without consumer reference writes and returns nothing. -/
theorem Delete_unbound (c : Client) (machine : Machine) (host : BareMetalHost)
    (hget : getHost c machine = .ok (some host)) (href : host.Spec.ConsumerRef = none) :
    Delete c machine = (c, none) := by
  simp only [Delete, hget, href]

/-- The test of `Delete` for something left to deprovision fails exactly on a host with no
image, no user data and online false. -/
theorem nothingSet_iff (host : BareMetalHost) :
    (host.Spec.Image.isSome || host.Spec.Online || host.Spec.UserData.isSome) = false ↔
      host.Spec.Image = none ∧ host.Spec.UserData = none ∧ host.Spec.Online = false := by
  cases host.Spec.Image <;> cases host.Spec.UserData <;> cases host.Spec.Online <;> simp

/-- C6: for a host bound to the machine whose provisioning state is in the non-waiting set
and stays as it is, and a client that accepts the writes, two consecutive ticks of `Delete`
leave the stored host with image unset, user data unset, online false and consumer
reference unset; and on every tick after which the stored host has lost its consumer
reference, the stored host has image unset, user data unset and online false. -/
theorem Delete_two_ticks (c : Client) (machine : Machine) (host : BareMetalHost)
    (consumer : ObjectReference) (hget : getHost c machine = .ok (some host))
    (hupd : c.updateErr = none)
    (href : host.Spec.ConsumerRef = some consumer)
    (hmatch : consumerRefMatches consumer machine = true)
    (hstate : host.Status.State ∈ notProvisionedStates ∨
      (host.Status.State = .StateExternallyProvisioned ∧ host.Status.PoweredOn = false)) :
    (∃ stored, getHost (Delete (Delete c machine).1 machine).1 machine = .ok (some stored) ∧
      stored.Spec.Image = none ∧ stored.Spec.UserData = none ∧ stored.Spec.Online = false ∧
      stored.Spec.ConsumerRef = none ∧ stored.Status = host.Status) ∧
    (∀ (c' : Client) (before after : BareMetalHost),
      getHost c' machine = .ok (some before) → before.Spec.ConsumerRef ≠ none →
      getHost (Delete c' machine).1 machine = .ok (some after) →
      after.Spec.ConsumerRef = none →
      after.Spec.Image = none ∧ after.Spec.UserData = none ∧ after.Spec.Online = false) := by
  have hw : waiting host = false := by
    cases h : waiting host with
    | false => rfl
    | true =>
      obtain ⟨h1, h2⟩ := (waiting_iff host).mp h
      rcases hstate with hs | hs
      · exact absurd hs h1
      · exact absurd hs h2
  constructor
  · cases hset : (host.Spec.Image.isSome || host.Spec.Online || host.Spec.UserData.isSome) with
    | true =>
      obtain ⟨hu1, hu2⟩ := getHost_Update c machine host (deprovisioned host) hget hupd rfl rfl
      have h1 : Delete c machine = ((c.Update (deprovisioned host)).1, some (.RequeueAfterError 0)) := by
        rw [Delete_deprovision c machine host consumer hget href hmatch hset,
          afterUpdate_ok c (deprovisioned host) _ hu1]
      have hupd' : (c.Update (deprovisioned host)).1.updateErr = none := by
        rw [Update_updateErr, hupd]
      obtain ⟨hv1, hv2⟩ := getHost_Update (c.Update (deprovisioned host)).1 machine
        (deprovisioned host) (released (deprovisioned host)) hu2 hupd' rfl rfl
      have h2 : Delete (c.Update (deprovisioned host)).1 machine =
          (((c.Update (deprovisioned host)).1.Update (released (deprovisioned host))).1,
            none) := by
        rw [Delete_release _ machine (deprovisioned host) consumer hu2 href hmatch
          (by simp [deprovisioned]), afterUpdate_ok _ _ _ hv1]
        have : waiting (deprovisioned host) = false := hw
        simp [this]
      rw [h1]
      simp only
      rw [h2]
      exact ⟨_, hv2, by simp [released, deprovisioned]⟩
    | false =>
      obtain ⟨hu1, hu2⟩ := getHost_Update c machine host (released host) hget hupd rfl rfl
      have h1 : Delete c machine = ((c.Update (released host)).1, none) := by
        rw [Delete_release c machine host consumer hget href hmatch hset,
          afterUpdate_ok c (released host) _ hu1]
        simp [hw]
      have h2 : Delete (c.Update (released host)).1 machine =
          ((c.Update (released host)).1, none) :=
        Delete_unbound _ machine (released host) hu2 rfl
      rw [h1]
      simp only
      rw [h2]
      obtain ⟨e1, e2, e3⟩ := (nothingSet_iff host).mp hset
      exact ⟨_, hu2, by simp [released, e1, e2, e3]⟩
  · intro c' before after hb hbref hafter hcleared
    cases hr : before.Spec.ConsumerRef with
    | none => exact absurd hr hbref
    | some r =>
      have hkeep : (Delete c' machine).1 = c' → False := by
        intro heq
        rw [heq, hb] at hafter
        simp only [Except.ok.injEq, Option.some.injEq] at hafter
        subst hafter
        exact hbref hcleared
      cases hm : consumerRefMatches r machine with
      | false =>
        exfalso
        apply hkeep
        simp only [Delete, hb, hr, hm, Bool.not_false, if_true]
      | true =>
        cases hset : (before.Spec.Image.isSome || before.Spec.Online ||
            before.Spec.UserData.isSome) with
        | true =>
          exfalso
          have hD := Delete_deprovision c' machine before r hb hr hm hset
          rcases afterUpdate_cases c' (deprovisioned before) (some (.RequeueAfterError 0)) with
            hc | ⟨hok, heq⟩
          · exact hkeep (by rw [hD, hc])
          · obtain ⟨_, hu2⟩ := getHost_Update c' machine before (deprovisioned before) hb
              (Update_ok_updateErr c' _ hok) rfl rfl
            rw [hD, heq] at hafter
            simp only at hafter
            rw [hu2] at hafter
            simp only [Except.ok.injEq, Option.some.injEq] at hafter
            subst hafter
            simp [deprovisioned, hr] at hcleared
        | false =>
          obtain ⟨e1, e2, e3⟩ := (nothingSet_iff before).mp hset
          have hD := Delete_release c' machine before r hb hr hm hset
          cases hwb : waiting before with
          | true =>
            exfalso
            apply hkeep
            rw [hD]
            simp [hwb]
          | false =>
            simp only [hwb, Bool.false_eq_true, if_false] at hD
            rcases afterUpdate_cases c' (released before) none with hc | ⟨hok, heq⟩
            · exact absurd (by rw [hD, hc]) hkeep
            · obtain ⟨_, hu2⟩ := getHost_Update c' machine before (released before) hb
                (Update_ok_updateErr c' _ hok) rfl rfl
              rw [hD, heq] at hafter
              simp only at hafter
              rw [hu2] at hafter
              simp only [Except.ok.injEq, Option.some.injEq] at hafter
              subst hafter
              simp [released, e1, e2, e3]

/-- An instance of the preceding theorem: a bound host that still has an image and whose state
is ready: the first tick deprovisions it, the second releases it. -/
theorem Delete_two_ticks_witness :
    getHost { hosts := [{ hostProvisioned with Status := { State := .StateReady } }] }
      sampleMachine = .ok (some { hostProvisioned with Status := { State := .StateReady } }) ∧
    (Delete { hosts := [{ hostProvisioned with Status := { State := .StateReady } }] }
      sampleMachine).2 = some (.RequeueAfterError 0) ∧
    ∃ stored,
      getHost (Delete (Delete
        { hosts := [{ hostProvisioned with Status := { State := .StateReady } }] }
        sampleMachine).1 sampleMachine).1 sampleMachine = .ok (some stored) ∧
      stored.Spec.Image = none ∧ stored.Spec.UserData = none ∧ stored.Spec.Online = false ∧
      stored.Spec.ConsumerRef = none ∧
      stored.Status = ({ State := .StateReady } : BareMetalHostStatus) :=
  ⟨rfl, rfl,
    (Delete_two_ticks { hosts := [{ hostProvisioned with Status := { State := .StateReady } }] }
      sampleMachine { hostProvisioned with Status := { State := .StateReady } } sampleConsumer
      rfl rfl rfl rfl (Or.inl (by simp [notProvisionedStates]))).1⟩

/-- C7: the code departs from the claim. On the host of the case "deprovisioning not
required, no host status" of `TestDelete` (bound to the machine, no image, no user data,
online false, no provisioning state reported) `Delete` keeps the consumer reference, writes
nothing and returns the requeue after 30 seconds, where the test expects the reference
removed and nil returned: the empty state is not among the cases of the `switch`. -/
theorem Delete_no_host_status :
    getHost { hosts := [hostNoStatus] } sampleMachine = .ok (some hostNoStatus) ∧
    boundTo sampleMachine hostNoStatus = true ∧
    hostNoStatus.Status.State = .StateNone ∧
    Delete { hosts := [hostNoStatus] } sampleMachine =
      ({ hosts := [hostNoStatus] }, some (.RequeueAfterError 30)) :=
  ⟨rfl, rfl, rfl, rfl⟩

/-! ## Validation of a machine spec -/

/-- The method `IsValid` returns nil exactly when no field is missing. -/
theorem IsValid_eq_none_iff (s : BareMetalMachineSpec) :
    s.IsValid = none ↔ missingFields s = [] := by
  unfold BareMetalMachineSpec.IsValid
  cases h : missingFields s with
  | nil => simp
  | cons a l => simp

/-- C18: `IsValid` returns an error whenever `Image.URL` is empty, `Image.Checksum` is
empty, or user data is present with an append or prepend reference whose name is empty; and
it returns nil for every spec with both image fields non-empty and no user data, whatever
the host selector is. -/
theorem IsValid_missing (s : BareMetalMachineSpec) :
    ((s.Image.URL = "" ∨ s.Image.Checksum = "" ∨
        ∃ u, s.UserData = some u ∧
          ((∃ r, u.UserDataAppend = some r ∧ r.Name = "") ∨
            (∃ r, u.UserDataPrepend = some r ∧ r.Name = ""))) →
      ∃ missing, s.IsValid = some missing) ∧
    (s.Image.URL ≠ "" → s.Image.Checksum ≠ "" → s.UserData = none → s.IsValid = none) := by
  constructor
  · intro h
    have hne : missingFields s ≠ [] := by
      unfold missingFields
      rcases h with h | h | ⟨u, hu, hr | hr⟩
      · simp [h]
      · simp [h]
      · obtain ⟨r, hr1, hr2⟩ := hr
        simp [hu, hr1, hr2]
      · obtain ⟨r, hr1, hr2⟩ := hr
        simp [hu, hr1, hr2]
    cases hv : s.IsValid with
    | none => exact absurd ((IsValid_eq_none_iff s).mp hv) hne
    | some missing => exact ⟨missing, rfl⟩
  · intro h1 h2 h3
    rw [IsValid_eq_none_iff]
    simp [missingFields, h1, h2, h3]

/-- An instance of the preceding theorem: a spec without checksum and with an unnamed
append reference is refused, a spec with its image and a host selector is accepted. -/
theorem IsValid_missing_witness :
    (specMissing.Image.Checksum = "" ∧ ∃ missing, specMissing.IsValid = some missing) ∧
    (specNoUserData.Image.URL ≠ "" ∧ specNoUserData.Image.Checksum ≠ "" ∧
      specNoUserData.UserData = none ∧ specNoUserData.IsValid = none) :=
  ⟨⟨rfl, (IsValid_missing specMissing).1 (Or.inr (Or.inl rfl))⟩,
    by simp [specNoUserData, sampleImage], by simp [specNoUserData, sampleImage], rfl,
    (IsValid_missing specNoUserData).2 (by simp [specNoUserData, sampleImage])
      (by simp [specNoUserData, sampleImage]) rfl⟩

/-- C19, as the code has it: for a spec with both image fields non-empty and user data whose
append and prepend references (when present) have names, `IsValid` returns nil if and only
if the type of the user data is not empty; the value of the type is not looked at. -/
theorem IsValid_userData_type (s : BareMetalMachineSpec) (u : UserDataInput)
    (hurl : s.Image.URL ≠ "") (hsum : s.Image.Checksum ≠ "") (hu : s.UserData = some u)
    (ha : ∀ r, u.UserDataAppend = some r → r.Name ≠ "")
    (hp : ∀ r, u.UserDataPrepend = some r → r.Name ≠ "") :
    s.IsValid = none ↔ u.Type_ ≠ "" := by
  rw [IsValid_eq_none_iff]
  have hA : (match u.UserDataAppend with
      | none => ([] : List String)
      | some ref => if ref.Name = "" then ["UserData.UserDataAppend.Name"] else []) = [] := by
    cases hr : u.UserDataAppend with
    | none => rfl
    | some r => simp [ha r hr]
  have hP : (match u.UserDataPrepend with
      | none => ([] : List String)
      | some ref => if ref.Name = "" then ["UserData.UserDataPrepend.Name"] else []) = [] := by
    cases hr : u.UserDataPrepend with
    | none => rfl
    | some r => simp [hp r hr]
  simp only [missingFields, hurl, hsum, hu, if_false, hA, hP, List.append_nil, List.nil_append]
  by_cases ht : u.Type_ = "" <;> simp [ht]

/-- An instance of the preceding theorem: user data of type `cloud-init` with a named
prepend reference is accepted. -/
theorem IsValid_userData_type_witness :
    specCloudInit.Image.URL ≠ "" ∧ specCloudInit.Image.Checksum ≠ "" ∧
    (specCloudInit.IsValid = none ↔ ("cloud-init" : String) ≠ "") :=
  ⟨by simp [specCloudInit, sampleImage], by simp [specCloudInit, sampleImage],
    IsValid_userData_type specCloudInit
      { Type_ := "cloud-init", UserDataPrepend := some { Name := "first", Namespace := "" } }
      (by simp [specCloudInit, sampleImage]) (by simp [specCloudInit, sampleImage]) rfl
      (by simp) (by simp)⟩

/-- C19 as stated fails: with both image fields set and named references, user data without
a type is refused although the claim accepts the unset type, and user data of type
`ignition` is accepted although the claim refuses every type but `cloud-init`. -/
theorem IsValid_userData_type_counterexample :
    (specWithoutType.IsValid = some ["UserData.Type"] ∧
      ¬ (specWithoutType.IsValid = none ↔
          (("" : String) = "" ∨ ("" : String) = "cloud-init"))) ∧
    (specWithOtherType.IsValid = none ∧
      ¬ (specWithOtherType.IsValid = none ↔
          (("ignition" : String) = "" ∨ ("ignition" : String) = "cloud-init"))) := by
  refine ⟨⟨rfl, ?_⟩, ⟨rfl, ?_⟩⟩
  · intro h
    have := h.mpr (Or.inl rfl)
    simp [specWithoutType, BareMetalMachineSpec.IsValid, missingFields, sampleImage] at this
  · intro h
    have := h.mp rfl
    simp at this

/-! ## Writing the host -/

/-- A search that finds nothing finds no element with the property. -/
theorem find_of_any (p : BareMetalHost → Bool) (l : List BareMetalHost)
    (h : l.any p = true) : ∃ old, l.find? p = some old := by
  induction l with
  | nil => simp at h
  | cons x rest ih =>
    by_cases hx : p x = true
    · exact ⟨x, by simp [List.find?_cons, hx]⟩
    · have hx' : p x = false := by simpa using hx
      simp only [List.any_cons, hx', Bool.false_or] at h
      obtain ⟨old, hold⟩ := ih h
      exact ⟨old, by simp [List.find?_cons, hx', hold]⟩

/-- An accepted update of a stored host is what the store holds under its key afterwards. -/
theorem Update_stored (c : Client) (new : BareMetalHost) (hupd : c.updateErr = none)
    (hstored : c.hosts.any (hasKey new.Namespace new.Name) = true) :
    (c.Update new).2 = none ∧
    (c.Update new).1.hosts.find? (hasKey new.Namespace new.Name) = some new := by
  obtain ⟨old, hold⟩ := find_of_any _ _ hstored
  have hnew : hasKey new.Namespace new.Name new = true := by simp [hasKey]
  have hfind := find_map_replace (hasKey new.Namespace new.Name) new hnew c.hosts old hold
  simp only [Client.Update, hupd, hstored, if_true]
  exact ⟨trivial, hfind⟩

/-- C20: `setHostSpec` on a stored host whose image is already set stores the host with its
image and its user-data reference as they were; on a stored host whose image is unset it
stores the host with the URL and checksum of the config as image and with the reference of
the config as user data, the namespace of the reference replaced by the namespace of the
machine when it was empty and kept otherwise. -/
theorem setHostSpec_image (c : Client) (host : BareMetalHost) (machine : Machine)
    (config : BareMetalMachineProviderSpec) (hupd : c.updateErr = none)
    (hstored : c.hosts.any (hasKey host.Namespace host.Name) = true) :
    ∃ stored, (setHostSpec c host machine config).2 = none ∧
      (setHostSpec c host machine config).1.hosts.find? (hasKey host.Namespace host.Name) =
        some stored ∧
      (∀ image, host.Spec.Image = some image →
        stored.Spec.Image = some image ∧ stored.Spec.UserData = host.Spec.UserData) ∧
      (host.Spec.Image = none →
        stored.Spec.Image =
          some { URL := config.Image.URL, Checksum := config.Image.Checksum } ∧
        (config.UserData = none → stored.Spec.UserData = none) ∧
        (∀ ref, config.UserData = some ref → ref.Namespace = "" →
          stored.Spec.UserData = some { Name := ref.Name, Namespace := machine.Namespace }) ∧
        (∀ ref, config.UserData = some ref → ref.Namespace ≠ "" →
          stored.Spec.UserData = some ref)) := by
  have hkey : (hostSpecFor host machine config).Namespace = host.Namespace ∧
      (hostSpecFor host machine config).Name = host.Name := ⟨rfl, rfl⟩
  obtain ⟨h1, h2⟩ := Update_stored c (hostSpecFor host machine config) hupd
    (by rw [hkey.1, hkey.2]; exact hstored)
  rw [hkey.1, hkey.2] at h2
  refine ⟨hostSpecFor host machine config, h1, h2, ?_, ?_⟩
  · intro image himg
    simp [hostSpecFor, himg]
  · intro himg
    refine ⟨by simp [hostSpecFor, himg], ?_, ?_, ?_⟩
    · intro hc
      simp [hostSpecFor, himg, hc]
    · intro ref hc hns
      simp [hostSpecFor, himg, hc, hns]
    · intro ref hc hns
      simp [hostSpecFor, himg, hc, hns]

/-- An instance of the preceding theorem: a free labelled host receives the image of the
config and its user data in the namespace of the machine. -/
theorem setHostSpec_image_witness :
    (({ hosts := [hostFree] } : Client).updateErr = none ∧
      ({ hosts := [hostFree] } : Client).hosts.any (hasKey hostFree.Namespace hostFree.Name) =
        true ∧
      (setHostSpec { hosts := [hostFree] } hostFree sampleMachine configWithUserData).1.hosts =
        [{ hostFree with
            Spec := { ConsumerRef := some sampleConsumer, Image := some sampleImage,
                      UserData := some { Name := "worker-user-data", Namespace := "myns" },
                      Online := true } }]) ∧
    ∃ stored, (setHostSpec { hosts := [hostFree] } hostFree sampleMachine
        configWithUserData).2 = none ∧
      (setHostSpec { hosts := [hostFree] } hostFree sampleMachine
        configWithUserData).1.hosts.find? (hasKey hostFree.Namespace hostFree.Name) =
        some stored ∧
      (∀ image, hostFree.Spec.Image = some image →
        stored.Spec.Image = some image ∧ stored.Spec.UserData = hostFree.Spec.UserData) ∧
      (hostFree.Spec.Image = none →
        stored.Spec.Image =
          some { URL := configWithUserData.Image.URL,
                 Checksum := configWithUserData.Image.Checksum } ∧
        (configWithUserData.UserData = none → stored.Spec.UserData = none) ∧
        (∀ ref, configWithUserData.UserData = some ref → ref.Namespace = "" →
          stored.Spec.UserData =
            some { Name := ref.Name, Namespace := sampleMachine.Namespace }) ∧
        (∀ ref, configWithUserData.UserData = some ref → ref.Namespace ≠ "" →
          stored.Spec.UserData = some ref)) :=
  ⟨⟨rfl, rfl, rfl⟩,
    setHostSpec_image { hosts := [hostFree] } hostFree sampleMachine configWithUserData rfl rfl⟩

/-! ## The store of the cluster -/

section StoreLemmas

variable {α : Type}

theorem find_replaceBy (p : α → Bool) (new : α) (hnew : p new = true) (l : List α) (old : α)
    (h : l.find? p = some old) : (replaceBy p new l).find? p = some new := by
  induction l with
  | nil => simp at h
  | cons x rest ih =>
    by_cases hx : p x = true
    · simp [replaceBy, List.find?_cons, hx, hnew]
    · have hx' : p x = false := by simpa using hx
      simp only [List.find?_cons, hx'] at h
      simp only [replaceBy, List.map_cons, hx', Bool.false_eq_true, if_false, List.find?_cons]
      exact ih h

theorem find_filter_not (p : α → Bool) (l : List α) :
    (l.filter fun x => !p x).find? p = none := by
  induction l with
  | nil => rfl
  | cons x rest ih =>
    by_cases hx : p x = true
    · simp [List.filter_cons, hx, ih]
    · have hx' : p x = false := by simpa using hx
      simp [List.filter_cons, hx', List.find?_cons, ih]

theorem filter_not_of_find_none (p : α → Bool) (l : List α) (h : l.find? p = none) :
    (l.filter fun x => !p x) = l := by
  induction l with
  | nil => rfl
  | cons x rest ih =>
    by_cases hx : p x = true
    · simp [List.find?_cons, hx] at h
    · have hx' : p x = false := by simpa using hx
      simp only [List.find?_cons, hx'] at h
      simp [List.filter_cons, hx', ih h]

theorem any_of_find (p : α → Bool) (l : List α) (a : α) (h : l.find? p = some a) :
    l.any p = true := by
  rw [List.any_eq_true]
  exact ⟨a, List.mem_of_find?_eq_some h, List.find?_some h⟩

theorem find_none_of_not_any (p : α → Bool) (l : List α) (h : l.any p = false) :
    l.find? p = none := by
  cases hf : l.find? p with
  | none => rfl
  | some a =>
    rw [any_of_find p l a hf] at h
    cases h

theorem getBy_ok_iff (p : α → Bool) (l : List α) (a : α) :
    getBy p l = .ok a ↔ l.find? p = some a := by
  unfold getBy
  cases l.find? p with
  | none => simp
  | some b => simp

end StoreLemmas

theorem lookupStr_strSet_self (m : List (String × String)) (k v : String) :
    lookupStr (strSet m k v) k = some v := by
  induction m with
  | nil => simp [strSet, lookupStr]
  | cons p rest ih =>
    obtain ⟨k', v'⟩ := p
    by_cases h : k' = k
    · simp [strSet, lookupStr, h]
    · simp [strSet, lookupStr, h, ih]

theorem lookupStr_strDelete_self (m : List (String × String)) (k : String) :
    lookupStr (strDelete m k) k = none := by
  induction m with
  | nil => rfl
  | cons p rest ih =>
    obtain ⟨k', v'⟩ := p
    by_cases h : k' = k
    · simpa [strDelete, List.filter_cons, h] using ih
    · simpa [strDelete, List.filter_cons, h, lookupStr] using ih

theorem isRebootInProgress_iff (bmh : BareMetalHost) :
    isRebootInProgress bmh = true ↔
      lookupStr bmh.Annotations AnnotationRebootInProgress = some "true" := by
  unfold isRebootInProgress
  cases lookupStr bmh.Annotations AnnotationRebootInProgress with
  | none => simp
  | some v => by_cases hv : v = "true" <;> simp [hv]

/-! ## The calls of the remediator on the cluster -/

/-- An accepted status update stores the record given in the place of the stored one and
leaves the other objects. -/
theorem returnStatusUpdate_stored (c : Cluster) (mr mrCopy : MachineRemediation)
    (hf : c.fails .updateRemediationStatus = none)
    (hstored : c.record mr.Namespace mr.Name = some mr)
    (hns : mrCopy.Namespace = mr.Namespace) (hname : mrCopy.Name = mr.Name) :
    ∃ c', returnStatusUpdate c mrCopy = (c', .returned none) ∧
      c'.record mr.Namespace mr.Name = some mrCopy ∧ c'.hosts = c.hosts ∧
      c'.nodes = c.nodes := by
  have hany : c.remediations.any (remediationKey mr.Namespace mr.Name) = true :=
    any_of_find _ _ _ hstored
  have hkey : remediationKey mr.Namespace mr.Name mrCopy = true := by
    simp [remediationKey, hns, hname]
  let rems := replaceBy (remediationKey mr.Namespace mr.Name) mrCopy c.remediations
  refine ⟨{ c with remediations := rems }, ?_, ?_, rfl, rfl⟩
  · simp only [returnStatusUpdate, Cluster.UpdateRemediationStatus, hf, hns, hname, hany,
      if_true]
  · exact find_replaceBy _ _ hkey _ _ hstored

/-- An accepted update of a stored host stores the host given in its place and leaves the
other objects and the behaviour of the client. -/
theorem UpdateHost_stored (c : Cluster) (old new : BareMetalHost)
    (hf : c.fails .updateHost = none)
    (hold : c.host old.Namespace old.Name = some old)
    (hns : new.Namespace = old.Namespace) (hname : new.Name = old.Name) :
    ∃ c', c.UpdateHost new = (c', none) ∧ c'.host old.Namespace old.Name = some new ∧
      c'.remediations = c.remediations ∧ c'.nodes = c.nodes ∧ c'.fails = c.fails := by
  have hany : c.hosts.any (hasKey old.Namespace old.Name) = true := any_of_find _ _ _ hold
  have hkey : hasKey old.Namespace old.Name new = true := by simp [hasKey, hns, hname]
  let hosts := replaceBy (hasKey old.Namespace old.Name) new c.hosts
  refine ⟨{ c with hosts := hosts }, ?_, ?_, rfl, rfl, rfl⟩
  · simp only [Cluster.UpdateHost, hf, hns, hname, hany, if_true]
  · exact find_replaceBy _ _ hkey _ _ hold

/-- The host `getBareMetalHostByMachine` returns is stored under its own key. -/
theorem getBareMetalHostByMachine_ok (c : Cluster) (machine : Machine) (bmh : BareMetalHost)
    (h : getBareMetalHostByMachine c machine = .ok bmh) :
    c.host bmh.Namespace bmh.Name = some bmh := by
  unfold getBareMetalHostByMachine at h
  cases ha : lookupStr machine.Annotations AnnotationBareMetalHost with
  | none => simp [ha] at h
  | some bmhKey =>
    simp only [ha, Cluster.GetHost] at h
    cases hf : c.fails .getHost with
    | some e => simp [hf] at h
    | none =>
      simp only [hf] at h
      generalize (match SplitMetaNamespaceKey bmhKey with
        | .ok key => key
        | .error _ => ("", "")) = key at h
      cases hg : getBy (hasKey key.1 key.2) c.hosts with
      | error e => simp [hg] at h
      | ok found =>
        simp only [hg, Except.ok.injEq] at h
        subst h
        have hfind := (getBy_ok_iff _ _ _).mp hg
        have hkey := List.find?_some hfind
        simp only [hasKey, Bool.and_eq_true, decide_eq_true_eq] at hkey
        unfold Cluster.host
        rw [hkey.1, hkey.2]
        exact hfind

/-- C11: `Reboot` on a stored record in state Started, with a client that accepts the
writes: if the host has `Spec.Online` false and no `rebootInProgress` annotation with the
value `true`, the hosts are left as they are and the record is stored as Succeeded with the
end time `now`; in every other case the host is stored with `Spec.Online` false and the
annotation `rebootInProgress` at `true`, and the record is stored as PowerOff with its end
time as it was. -/
theorem Reboot_started (c : Cluster) (mr : MachineRemediation) (machine : Machine)
    (bmh : BareMetalHost) (now : Int)
    (hm : c.GetMachine mr.Namespace mr.MachineName = .ok machine)
    (hh : getBareMetalHostByMachine c machine = .ok bmh)
    (hstored : c.record mr.Namespace mr.Name = some mr)
    (hfu : c.fails .updateHost = none) (hfs : c.fails .updateRemediationStatus = none)
    (hs : mr.State = .RemediationStateStarted) :
    ((bmh.Spec.Online = false ∧
        lookupStr bmh.Annotations AnnotationRebootInProgress ≠ some "true") →
      (Reboot c mr now).2 = .returned none ∧
      (Reboot c mr now).1.hosts = c.hosts ∧
      ∃ stored, (Reboot c mr now).1.record mr.Namespace mr.Name = some stored ∧
        stored.State = .RemediationStateSucceeded ∧ stored.EndTime = some now) ∧
    (¬ (bmh.Spec.Online = false ∧
        lookupStr bmh.Annotations AnnotationRebootInProgress ≠ some "true") →
      (Reboot c mr now).2 = .returned none ∧
      (∃ host, (Reboot c mr now).1.host bmh.Namespace bmh.Name = some host ∧
        host.Spec.Online = false ∧
        lookupStr host.Annotations AnnotationRebootInProgress = some "true") ∧
      ∃ stored, (Reboot c mr now).1.record mr.Namespace mr.Name = some stored ∧
        stored.State = .RemediationStatePowerOff ∧ stored.EndTime = mr.EndTime) := by
  have hR : Reboot c mr now = rebootStarted c mr bmh now := by
    simp only [Reboot, hm, hh, hs]
  have hhost := getBareMetalHostByMachine_ok c machine bmh hh
  rw [hR]
  constructor
  · rintro ⟨hon, hann⟩
    have hnot : isRebootInProgress bmh = false := by
      cases hp : isRebootInProgress bmh with
      | false => rfl
      | true => exact absurd ((isRebootInProgress_iff bmh).mp hp) hann
    have hcond : (!bmh.Spec.Online && !isRebootInProgress bmh) = true := by simp [hon, hnot]
    obtain ⟨c', e, r1, r2, _⟩ := returnStatusUpdate_stored
      (c.Eventf "MachineRemediationSkippedOffline") mr
      (withStatus mr .RemediationStateSucceeded
        "Skip the reboot, the machine was powered off already" (some now)) hfs hstored rfl rfl
    simp only [rebootStarted, hcond, if_true]
    rw [e]
    exact ⟨rfl, r2, _, r1, rfl, rfl⟩
  · intro hneg
    have hcond : (!bmh.Spec.Online && !isRebootInProgress bmh) = false := by
      cases hon : bmh.Spec.Online with
      | true => simp
      | false =>
        cases hp : isRebootInProgress bmh with
        | true => simp
        | false =>
          exfalso
          apply hneg
          refine ⟨hon, fun hv => ?_⟩
          rw [(isRebootInProgress_iff bmh).mpr hv] at hp
          cases hp
    obtain ⟨c1, e1, h1, h2, _, h4⟩ := UpdateHost_stored c bmh (poweredOffCopy bmh) hfu hhost
      rfl rfl
    obtain ⟨c2, e2, r1, r2, _⟩ := returnStatusUpdate_stored
      (c1.Eventf "MachineRemediationRebootStarted") mr
      (withStatus mr .RemediationStatePowerOff "Starts the reboot process" mr.EndTime)
      (by show c1.fails _ = none; rw [h4]; exact hfs)
      (by show c1.remediations.find? _ = some mr; rw [h2]; exact hstored) rfl rfl
    simp only [rebootStarted, hcond, Bool.false_eq_true, if_false]
    rw [e1]
    simp only
    rw [e2]
    refine ⟨rfl, ⟨poweredOffCopy bmh, ?_, rfl, ?_⟩, _, r1, rfl, rfl⟩
    · show c2.hosts.find? _ = some _
      rw [r2]
      exact h1
    · cases hp : isRebootInProgress bmh with
      | true => simpa [poweredOffCopy, hp] using (isRebootInProgress_iff bmh).mp hp
      | false => simp [poweredOffCopy, hp, lookupStr_strSet_self]

/-- An instance of the preceding theorem: a host that is online is powered off and marked,
and the record moves to PowerOff. -/
theorem Reboot_started_witness :
    (sampleCluster bareMetalHostOnline (remediationIn .RemediationStateStarted)).GetMachine
        (remediationIn .RemediationStateStarted).Namespace
        (remediationIn .RemediationStateStarted).MachineName = .ok (machineOnNode "nodeOnline") ∧
    getBareMetalHostByMachine
        (sampleCluster bareMetalHostOnline (remediationIn .RemediationStateStarted))
        (machineOnNode "nodeOnline") = .ok bareMetalHostOnline ∧
    (Reboot (sampleCluster bareMetalHostOnline (remediationIn .RemediationStateStarted))
        (remediationIn .RemediationStateStarted) 5).2 = .returned none ∧
    (∃ host, (Reboot (sampleCluster bareMetalHostOnline (remediationIn .RemediationStateStarted))
          (remediationIn .RemediationStateStarted) 5).1.host
          bareMetalHostOnline.Namespace bareMetalHostOnline.Name = some host ∧
        host.Spec.Online = false ∧
        lookupStr host.Annotations AnnotationRebootInProgress = some "true") ∧
    ∃ stored, (Reboot (sampleCluster bareMetalHostOnline (remediationIn .RemediationStateStarted))
          (remediationIn .RemediationStateStarted) 5).1.record
          (remediationIn .RemediationStateStarted).Namespace
          (remediationIn .RemediationStateStarted).Name = some stored ∧
      stored.State = .RemediationStatePowerOff ∧
      stored.EndTime = (remediationIn .RemediationStateStarted).EndTime :=
  ⟨rfl, rfl,
    (Reboot_started (sampleCluster bareMetalHostOnline (remediationIn .RemediationStateStarted))
      (remediationIn .RemediationStateStarted) (machineOnNode "nodeOnline") bareMetalHostOnline 5
      rfl rfl rfl rfl rfl rfl).2 (fun h => absurd h.1 (by decide))⟩

/-! ## The cases PowerOff and PowerOn -/

/-- The timeout test compares the start time plus five minutes with the time of the call. -/
theorem timedOut_iff (startTime now : Int) :
    timedOut startTime now = true ↔
      startTime + rebootDefaultTimeoutMinutes * timeMinute < now := by
  simp [timedOut]

/-- With a client that answers, `deleteMachineNode` returns nil and leaves the nodes without
the node the machine refers to, and the other objects as they were. -/
theorem deleteMachineNode_ok (c : Cluster) (machine : Machine)
    (hfg : c.fails .getNode = none) (hfd : c.fails .deleteNode = none) :
    ∃ c', deleteMachineNode c machine = (c', none) ∧ c'.hosts = c.hosts ∧
      c'.remediations = c.remediations ∧ c'.fails = c.fails ∧
      (machine.NodeRef = none → c'.nodes = c.nodes) ∧
      (∀ nodeRef, machine.NodeRef = some nodeRef →
        c'.nodes = c.nodes.filter fun n => !nodeKey nodeRef.Namespace nodeRef.Name n) := by
  cases href : machine.NodeRef with
  | none =>
    refine ⟨c, ?_, rfl, rfl, rfl, fun _ => rfl, fun r hr => by cases hr⟩
    simp [deleteMachineNode, getNodeByMachine, href]
  | some nodeRef =>
    cases hfind : c.nodes.find? (nodeKey nodeRef.Namespace nodeRef.Name) with
    | none =>
      refine ⟨c, ?_, rfl, rfl, rfl, fun h => (by cases h), fun r hr => ?_⟩
      · simp [deleteMachineNode, getNodeByMachine, href, Cluster.GetNode, hfg, getBy, hfind,
          notFoundError]
      · cases hr
        exact (filter_not_of_find_none _ _ hfind).symm
    | some node =>
      have hkey := List.find?_some hfind
      simp only [nodeKey, Bool.and_eq_true, decide_eq_true_eq] at hkey
      let nodes := c.nodes.filter fun n => !nodeKey nodeRef.Namespace nodeRef.Name n
      refine ⟨{ c with nodes := nodes }, ?_, rfl, rfl, rfl, fun h => (by cases h),
        fun r hr => ?_⟩
      · have hany : c.nodes.any (nodeKey nodeRef.Namespace nodeRef.Name) = true :=
          any_of_find _ _ _ hfind
        simp only [deleteMachineNode, getNodeByMachine, href, Cluster.GetNode, hfg, getBy,
          hfind, Cluster.DeleteNode, hfd, hkey.1, hkey.2, hany, if_true]
      · cases hr
        rfl

/-- C12: `Reboot` on a stored record in state PowerOff with a start time, with a client that
answers and accepts the writes: if `now` is strictly later than the start time plus five
minutes, the record is stored as Failed with the reason `Reboot failed on timeout` and the
end time `now`, and hosts and nodes are left as they are, whatever the power of the host is;
otherwise, if the host is powered on, nothing is written and nil is returned; otherwise the
node of the machine is deleted, the host is stored with `Spec.Online` true and without the
annotation `rebootInProgress`, and the record is stored as PowerOn. -/
theorem Reboot_powerOff (c : Cluster) (mr : MachineRemediation) (machine : Machine)
    (bmh : BareMetalHost) (now startTime : Int)
    (hm : c.GetMachine mr.Namespace mr.MachineName = .ok machine)
    (hh : getBareMetalHostByMachine c machine = .ok bmh)
    (hstored : c.record mr.Namespace mr.Name = some mr)
    (hfg : c.fails .getNode = none) (hfd : c.fails .deleteNode = none)
    (hfu : c.fails .updateHost = none) (hfs : c.fails .updateRemediationStatus = none)
    (hs : mr.State = .RemediationStatePowerOff) (hstart : mr.StartTime = some startTime) :
    (startTime + rebootDefaultTimeoutMinutes * timeMinute < now →
      (Reboot c mr now).2 = .returned none ∧
      (Reboot c mr now).1.hosts = c.hosts ∧ (Reboot c mr now).1.nodes = c.nodes ∧
      (Reboot c mr now).1.record mr.Namespace mr.Name =
        some (withStatus mr .RemediationStateFailed "Reboot failed on timeout" (some now))) ∧
    (¬ startTime + rebootDefaultTimeoutMinutes * timeMinute < now →
      bmh.Status.PoweredOn = true → Reboot c mr now = (c, .returned none)) ∧
    (¬ startTime + rebootDefaultTimeoutMinutes * timeMinute < now →
      bmh.Status.PoweredOn = false →
      (Reboot c mr now).2 = .returned none ∧
      (machine.NodeRef = none → (Reboot c mr now).1.nodes = c.nodes) ∧
      (∀ nodeRef, machine.NodeRef = some nodeRef →
        (Reboot c mr now).1.nodes =
          c.nodes.filter fun n => !nodeKey nodeRef.Namespace nodeRef.Name n) ∧
      (∃ host, (Reboot c mr now).1.host bmh.Namespace bmh.Name = some host ∧
        host.Spec.Online = true ∧
        lookupStr host.Annotations AnnotationRebootInProgress = none) ∧
      ∃ stored, (Reboot c mr now).1.record mr.Namespace mr.Name = some stored ∧
        stored.State = .RemediationStatePowerOn ∧ stored.EndTime = mr.EndTime) := by
  have hR : Reboot c mr now = rebootPowerOff c mr machine bmh now := by
    simp only [Reboot, hm, hh, hs]
  have hhost := getBareMetalHostByMachine_ok c machine bmh hh
  rw [hR]
  refine ⟨?_, ?_, ?_⟩
  · intro hlate
    have ht : timedOut startTime now = true := (timedOut_iff _ _).mpr hlate
    obtain ⟨c', e, r1, r2, r3⟩ := returnStatusUpdate_stored
      (c.Eventf "MachineRemediationRebootTimedOut") mr
      (withStatus mr .RemediationStateFailed "Reboot failed on timeout" (some now))
      hfs hstored rfl rfl
    simp only [rebootPowerOff, hstart, ht, if_true, rebootTimedOut]
    rw [e]
    exact ⟨rfl, r2, r3, r1⟩
  · intro hnot hon
    have ht : timedOut startTime now = false := by
      cases h : timedOut startTime now with
      | false => rfl
      | true => exact absurd ((timedOut_iff _ _).mp h) hnot
    simp only [rebootPowerOff, hstart, ht, Bool.false_eq_true, if_false, hon, if_true]
  · intro hnot hoff
    have ht : timedOut startTime now = false := by
      cases h : timedOut startTime now with
      | false => rfl
      | true => exact absurd ((timedOut_iff _ _).mp h) hnot
    obtain ⟨c1, e1, d1, d2, d3, d4, d5⟩ := deleteMachineNode_ok c machine hfg hfd
    obtain ⟨c2, e2, h1, h2, h3, h4⟩ := UpdateHost_stored c1 bmh (poweredOnCopy bmh)
      (by rw [d3]; exact hfu)
      (by show c1.hosts.find? _ = some bmh; rw [d1]; exact hhost) rfl rfl
    obtain ⟨c3, e3, r1, r2, r3⟩ := returnStatusUpdate_stored
      (c2.Eventf "MachineRemediationRebootPoweringOn") mr
      (withStatus mr .RemediationStatePowerOn "Reboot in progress" mr.EndTime)
      (by show c2.fails _ = none; rw [h4, d3]; exact hfs)
      (by show c2.remediations.find? _ = some mr; rw [h2, d2]; exact hstored) rfl rfl
    simp only [rebootPowerOff, hstart, ht, Bool.false_eq_true, if_false, hoff]
    rw [e1]
    simp only
    rw [e2]
    simp only
    rw [e3]
    have hnodes : c3.nodes = c1.nodes := by
      rw [r3]
      exact h3
    refine ⟨rfl, fun hn => ?_, fun r hr => ?_, ⟨poweredOnCopy bmh, ?_, rfl, ?_⟩,
      _, r1, rfl, rfl⟩
    · show c3.nodes = c.nodes
      rw [hnodes, d4 hn]
    · show c3.nodes = _
      rw [hnodes, d5 r hr]
    · show c3.hosts.find? _ = some _
      rw [r2]
      exact h1
    · simp [poweredOnCopy, lookupStr_strDelete_self]

/-- An instance of the preceding theorem: the time is within the five minutes and the host
is powered off, so the node is deleted, the host is put online and the record moves to
PowerOn. -/
theorem Reboot_powerOff_witness :
    getBareMetalHostByMachine
        (sampleCluster bareMetalHostRebooting (remediationIn .RemediationStatePowerOff))
        (machineOnNode "nodeOnline") = .ok bareMetalHostRebooting ∧
    (remediationIn .RemediationStatePowerOff).StartTime = some 0 ∧
    ¬ (0 : Int) + rebootDefaultTimeoutMinutes * timeMinute < 7 ∧
    (Reboot (sampleCluster bareMetalHostRebooting (remediationIn .RemediationStatePowerOff))
        (remediationIn .RemediationStatePowerOff) 7).1.nodes = [nodeNotReady] ∧
    (Reboot (sampleCluster bareMetalHostRebooting (remediationIn .RemediationStatePowerOff))
        (remediationIn .RemediationStatePowerOff) 7).1.hosts =
      [{ bareMetalHostRebooting with Annotations := [], Spec := { Online := true } }] ∧
    (Reboot (sampleCluster bareMetalHostRebooting (remediationIn .RemediationStatePowerOff))
        (remediationIn .RemediationStatePowerOff) 7).2 = .returned none :=
  ⟨rfl, rfl, by decide, rfl, rfl,
    ((Reboot_powerOff
      (sampleCluster bareMetalHostRebooting (remediationIn .RemediationStatePowerOff))
      (remediationIn .RemediationStatePowerOff) (machineOnNode "nodeOnline")
      bareMetalHostRebooting 7 0 rfl rfl rfl rfl rfl rfl rfl rfl rfl).2.2
        (by decide) rfl).1⟩

/-- The function `NodeHasCondition` answers true exactly when one of the conditions of the
node has the type and the status asked for. -/
theorem NodeHasCondition_iff (node : Node) (conditionType contidionStatus : String) :
    NodeHasCondition node conditionType contidionStatus = true ↔
      ∃ cond, cond ∈ node.Conditions ∧ cond.Type_ = conditionType ∧
        cond.Status = contidionStatus := by
  simp [NodeHasCondition, List.any_eq_true]

/-- The case PowerOn of `Reboot`, by what `NodeHasCondition` answers on the node of the
machine. -/
theorem rebootPowerOn_cases (c : Cluster) (mr : MachineRemediation) (machine : Machine)
    (bmh : BareMetalHost) (now startTime : Int)
    (hm : c.GetMachine mr.Namespace mr.MachineName = .ok machine)
    (hh : getBareMetalHostByMachine c machine = .ok bmh)
    (hstored : c.record mr.Namespace mr.Name = some mr)
    (hfg : c.fails .getNode = none) (hfs : c.fails .updateRemediationStatus = none)
    (hs : mr.State = .RemediationStatePowerOn) (hstart : mr.StartTime = some startTime) :
    (startTime + rebootDefaultTimeoutMinutes * timeMinute < now →
      (Reboot c mr now).2 = .returned none ∧
      (Reboot c mr now).1.record mr.Namespace mr.Name =
        some (withStatus mr .RemediationStateFailed "Reboot failed on timeout" (some now))) ∧
    (¬ startTime + rebootDefaultTimeoutMinutes * timeMinute < now →
      ((∃ nodeRef node, machine.NodeRef = some nodeRef ∧
          c.nodes.find? (nodeKey nodeRef.Namespace nodeRef.Name) = some node ∧
          NodeHasCondition node NodeReady ConditionTrue = true) →
        (Reboot c mr now).2 = .returned none ∧
        (Reboot c mr now).1.record mr.Namespace mr.Name =
          some (withStatus mr .RemediationStateSucceeded "Reboot succeeded" (some now))) ∧
      (¬ (∃ nodeRef node, machine.NodeRef = some nodeRef ∧
          c.nodes.find? (nodeKey nodeRef.Namespace nodeRef.Name) = some node ∧
          NodeHasCondition node NodeReady ConditionTrue = true) →
        Reboot c mr now = (c, .returned none)) ∧
      ((∃ stored, (Reboot c mr now).1.record mr.Namespace mr.Name = some stored ∧
          stored.State = .RemediationStateSucceeded ∧ stored.EndTime = some now) ↔
        ∃ nodeRef node, machine.NodeRef = some nodeRef ∧
          c.nodes.find? (nodeKey nodeRef.Namespace nodeRef.Name) = some node ∧
          NodeHasCondition node NodeReady ConditionTrue = true)) := by
  have hR : Reboot c mr now = rebootPowerOn c mr machine now := by
    simp only [Reboot, hm, hh, hs]
  rw [hR]
  constructor
  · intro hlate
    have ht : timedOut startTime now = true := (timedOut_iff _ _).mpr hlate
    obtain ⟨c', e, r1, _, _⟩ := returnStatusUpdate_stored
      (c.Eventf "MachineRemediationRebootTimedOut") mr
      (withStatus mr .RemediationStateFailed "Reboot failed on timeout" (some now))
      hfs hstored rfl rfl
    simp only [rebootPowerOn, hstart, ht, if_true, rebootTimedOut]
    rw [e]
    exact ⟨rfl, r1⟩
  · intro hnot
    have ht : timedOut startTime now = false := by
      cases h : timedOut startTime now with
      | false => rfl
      | true => exact absurd ((timedOut_iff _ _).mp h) hnot
    have hready : (∃ nodeRef node, machine.NodeRef = some nodeRef ∧
          c.nodes.find? (nodeKey nodeRef.Namespace nodeRef.Name) = some node ∧
          NodeHasCondition node NodeReady ConditionTrue = true) →
        (rebootPowerOn c mr machine now).2 = .returned none ∧
        (rebootPowerOn c mr machine now).1.record mr.Namespace mr.Name =
          some (withStatus mr .RemediationStateSucceeded "Reboot succeeded" (some now)) := by
      rintro ⟨nodeRef, node, href, hfind, hcond⟩
      obtain ⟨c', e, r1, _, _⟩ := returnStatusUpdate_stored
        (c.Eventf "MachineRemediationRebootSucceeded") mr
        (withStatus mr .RemediationStateSucceeded "Reboot succeeded" (some now))
        hfs hstored rfl rfl
      simp only [rebootPowerOn, hstart, ht, Bool.false_eq_true, if_false, getNodeByMachine,
        href, Cluster.GetNode, hfg, getBy, hfind, hcond, if_true]
      rw [e]
      exact ⟨rfl, r1⟩
    have hnotready : ¬ (∃ nodeRef node, machine.NodeRef = some nodeRef ∧
          c.nodes.find? (nodeKey nodeRef.Namespace nodeRef.Name) = some node ∧
          NodeHasCondition node NodeReady ConditionTrue = true) →
        rebootPowerOn c mr machine now = (c, .returned none) := by
      intro hneg
      simp only [rebootPowerOn, hstart, ht, Bool.false_eq_true, if_false, getNodeByMachine]
      cases href : machine.NodeRef with
      | none => simp
      | some nodeRef =>
        simp only [Cluster.GetNode, hfg, getBy]
        cases hfind : c.nodes.find? (nodeKey nodeRef.Namespace nodeRef.Name) with
        | none => simp [notFoundError]
        | some node =>
          have hc : NodeHasCondition node NodeReady ConditionTrue = false := by
            cases h : NodeHasCondition node NodeReady ConditionTrue with
            | false => rfl
            | true => exact absurd ⟨nodeRef, node, href, hfind, h⟩ hneg
          simp [hc]
    refine ⟨hready, hnotready, ?_⟩
    constructor
    · rintro ⟨stored, hrec, hstate, _⟩
      by_contra hneg
      rw [hnotready hneg] at hrec
      simp only at hrec
      rw [hstored] at hrec
      cases hrec
      rw [hs] at hstate
      cases hstate
    · intro h
      exact ⟨_, (hready h).2, rfl, rfl⟩

/-- C13: `Reboot` on a stored record in state PowerOn with a start time, with a client that
answers and accepts the writes: if `now` is strictly later than the start time plus five
minutes, the record is stored as Failed with the end time `now`, whatever the node is;
otherwise, when the node of the machine is stored and one of its conditions has the type
`Ready` and the status `True`, the record is stored as Succeeded with the end time `now`,
and when the node reference or the node is missing or no condition of the node has the type
`Ready` with the status `True`, nothing is written and nil is returned; so within the five
minutes the record becomes Succeeded exactly when the node is there with such a
condition. -/
theorem Reboot_powerOn (c : Cluster) (mr : MachineRemediation) (machine : Machine)
    (bmh : BareMetalHost) (now startTime : Int)
    (hm : c.GetMachine mr.Namespace mr.MachineName = .ok machine)
    (hh : getBareMetalHostByMachine c machine = .ok bmh)
    (hstored : c.record mr.Namespace mr.Name = some mr)
    (hfg : c.fails .getNode = none) (hfs : c.fails .updateRemediationStatus = none)
    (hs : mr.State = .RemediationStatePowerOn) (hstart : mr.StartTime = some startTime) :
    (startTime + 5 * 60000000000 < now →
      (Reboot c mr now).2 = .returned none ∧
      (Reboot c mr now).1.record mr.Namespace mr.Name =
        some { mr with State := .RemediationStateFailed, Reason := "Reboot failed on timeout",
                       EndTime := some now }) ∧
    (¬ startTime + 5 * 60000000000 < now →
      ((∃ nodeRef node cond, machine.NodeRef = some nodeRef ∧
          c.nodes.find? (nodeKey nodeRef.Namespace nodeRef.Name) = some node ∧
          cond ∈ node.Conditions ∧ cond.Type_ = "Ready" ∧ cond.Status = "True") →
        (Reboot c mr now).2 = .returned none ∧
        (Reboot c mr now).1.record mr.Namespace mr.Name =
          some { mr with State := .RemediationStateSucceeded, Reason := "Reboot succeeded",
                         EndTime := some now }) ∧
      (¬ (∃ nodeRef node cond, machine.NodeRef = some nodeRef ∧
          c.nodes.find? (nodeKey nodeRef.Namespace nodeRef.Name) = some node ∧
          cond ∈ node.Conditions ∧ cond.Type_ = "Ready" ∧ cond.Status = "True") →
        Reboot c mr now = (c, .returned none)) ∧
      ((∃ stored, (Reboot c mr now).1.record mr.Namespace mr.Name = some stored ∧
          stored.State = .RemediationStateSucceeded ∧ stored.EndTime = some now) ↔
        ∃ nodeRef node cond, machine.NodeRef = some nodeRef ∧
          c.nodes.find? (nodeKey nodeRef.Namespace nodeRef.Name) = some node ∧
          cond ∈ node.Conditions ∧ cond.Type_ = "Ready" ∧ cond.Status = "True")) := by
  have hready : (∃ nodeRef node cond, machine.NodeRef = some nodeRef ∧
        c.nodes.find? (nodeKey nodeRef.Namespace nodeRef.Name) = some node ∧
        cond ∈ node.Conditions ∧ cond.Type_ = "Ready" ∧ cond.Status = "True") ↔
      ∃ nodeRef node, machine.NodeRef = some nodeRef ∧
        c.nodes.find? (nodeKey nodeRef.Namespace nodeRef.Name) = some node ∧
        NodeHasCondition node NodeReady ConditionTrue = true := by
    constructor
    · rintro ⟨nodeRef, node, cond, h1, h2, h3, h4, h5⟩
      exact ⟨nodeRef, node, h1, h2, (NodeHasCondition_iff _ _ _).mpr ⟨cond, h3, h4, h5⟩⟩
    · rintro ⟨nodeRef, node, h1, h2, h3⟩
      obtain ⟨cond, h3, h4, h5⟩ := (NodeHasCondition_iff _ _ _).mp h3
      exact ⟨nodeRef, node, cond, h1, h2, h3, h4, h5⟩
  have hcases := rebootPowerOn_cases c mr machine bmh now startTime hm hh hstored hfg hfs hs
    hstart
  have htime : startTime + rebootDefaultTimeoutMinutes * timeMinute =
      startTime + 5 * 60000000000 := rfl
  rw [htime] at hcases
  rw [hready]
  exact hcases

/-- Two instances of the preceding theorem, within the five minutes: with the node
`nodeOnline`, which has the condition `Ready` with the status `True`, the record moves to
Succeeded and gets its end time; with the node `nodeNotReady`, whose condition `Ready` has
the status `Unknown`, nothing is written. -/
theorem Reboot_powerOn_witness :
    getBareMetalHostByMachine
        (sampleCluster bareMetalHostOnline (remediationIn .RemediationStatePowerOn))
        (machineOnNode "nodeOnline") = .ok bareMetalHostOnline ∧
    ¬ (0 : Int) + 5 * 60000000000 < 7 ∧
    ((Reboot (sampleCluster bareMetalHostOnline (remediationIn .RemediationStatePowerOn))
        (remediationIn .RemediationStatePowerOn) 7).2 = .returned none ∧
      (Reboot (sampleCluster bareMetalHostOnline (remediationIn .RemediationStatePowerOn))
        (remediationIn .RemediationStatePowerOn) 7).1.record
        (remediationIn .RemediationStatePowerOn).Namespace
        (remediationIn .RemediationStatePowerOn).Name =
      some { remediationIn .RemediationStatePowerOn with
              State := .RemediationStateSucceeded, Reason := "Reboot succeeded",
              EndTime := some 7 }) ∧
    nodeNotReady.Conditions = [{ Type_ := "Ready", Status := "Unknown" }] ∧
    Reboot (sampleClusterNotReady bareMetalHostOnline (remediationIn .RemediationStatePowerOn))
        (remediationIn .RemediationStatePowerOn) 7 =
      (sampleClusterNotReady bareMetalHostOnline (remediationIn .RemediationStatePowerOn),
        .returned none) :=
  ⟨rfl, by decide,
    ((Reboot_powerOn (sampleCluster bareMetalHostOnline (remediationIn .RemediationStatePowerOn))
      (remediationIn .RemediationStatePowerOn) (machineOnNode "nodeOnline") bareMetalHostOnline
      7 0 rfl rfl rfl rfl rfl rfl rfl).2 (by decide)).1
      ⟨_, nodeOnline, { Type_ := "Ready", Status := "True" }, rfl, rfl, by simp [nodeOnline],
        rfl, rfl⟩,
    rfl,
    ((Reboot_powerOn
      (sampleClusterNotReady bareMetalHostOnline (remediationIn .RemediationStatePowerOn))
      (remediationIn .RemediationStatePowerOn) (machineOnNode "nodeNotReady")
      bareMetalHostOnline 7 0 rfl rfl rfl rfl rfl rfl rfl).2 (by decide)).2.1
      (by
        rintro ⟨nodeRef, node, cond, h1, h2, h3, h4, h5⟩
        cases h1
        cases h2
        simp only [nodeNotReady, List.mem_singleton] at h3
        subst h3
        exact absurd h5 (by decide))⟩

/-! ## What a tick does to the stored record -/

theorem UpdateHost_remediations (c : Cluster) (host : BareMetalHost) :
    (c.UpdateHost host).1.remediations = c.remediations := by
  unfold Cluster.UpdateHost
  cases c.fails .updateHost with
  | some e => rfl
  | none =>
    by_cases h : c.hosts.any (hasKey host.Namespace host.Name) = true
    · simp [h]
    · simp [h]

theorem DeleteNode_remediations (c : Cluster) (node : Node) :
    (c.DeleteNode node).1.remediations = c.remediations := by
  unfold Cluster.DeleteNode
  cases c.fails .deleteNode with
  | some e => rfl
  | none =>
    by_cases h : c.nodes.any (nodeKey node.Namespace node.Name) = true
    · simp [h]
    · simp [h]

theorem UpdateNode_remediations (c : Cluster) (node : Node) :
    (c.UpdateNode node).1.remediations = c.remediations := by
  unfold Cluster.UpdateNode
  cases c.fails .updateNode with
  | some e => rfl
  | none =>
    by_cases h : c.nodes.any (nodeKey node.Namespace node.Name) = true
    · simp [h]
    · simp [h]

theorem deleteMachineNode_remediations (c : Cluster) (machine : Machine) :
    (deleteMachineNode c machine).1.remediations = c.remediations := by
  unfold deleteMachineNode
  cases getNodeByMachine c machine with
  | error err => by_cases h : err.notFound = true <;> simp [h]
  | ok node => exact DeleteNode_remediations c node

theorem removeNodeRebootAnnotation_remediations (c : Cluster) (node : Node) :
    ( removeNodeRebootAnnotation c node).1.remediations = c.remediations := by
  unfold removeNodeRebootAnnotation
  cases lookupStr node.Annotations AnnotationNodeMachineReboot with
  | none => rfl
  | some v => exact UpdateNode_remediations c _

/-- A status update of a copy of the stored record leaves the stored record or puts the
copy in its place. -/
theorem returnStatusUpdate_record (c : Cluster) (mr mrCopy : MachineRemediation)
    (hstored : c.record mr.Namespace mr.Name = some mr)
    (hns : mrCopy.Namespace = mr.Namespace) (hname : mrCopy.Name = mr.Name) :
    (returnStatusUpdate c mrCopy).1.record mr.Namespace mr.Name = some mr ∨
    (returnStatusUpdate c mrCopy).1.record mr.Namespace mr.Name = some mrCopy := by
  cases hf : c.fails .updateRemediationStatus with
  | some e =>
    left
    simp only [returnStatusUpdate, Cluster.UpdateRemediationStatus, hf]
    exact hstored
  | none =>
    right
    obtain ⟨c', e, r, _, _⟩ := returnStatusUpdate_stored c mr mrCopy hf hstored hns hname
    rw [e]
    exact r

/-- The deletion of the stored record leaves it or removes it. -/
theorem DeleteRemediation_record (c : Cluster) (mr : MachineRemediation) :
    (c.DeleteRemediation mr).1.record mr.Namespace mr.Name = c.record mr.Namespace mr.Name ∨
    (c.DeleteRemediation mr).1.record mr.Namespace mr.Name = none := by
  unfold Cluster.DeleteRemediation
  cases c.fails .deleteRemediation with
  | some e => exact Or.inl rfl
  | none =>
    by_cases h : c.remediations.any (remediationKey mr.Namespace mr.Name) = true
    · right
      simp only [h, if_true, Cluster.record]
      exact find_filter_not _ _
    · left
      simp [h]

/-- The timeout branch leaves the stored record or moves it to Failed with the end time. -/
theorem rebootTimedOut_record (c : Cluster) (mr : MachineRemediation) (now : Int)
    (hstored : c.record mr.Namespace mr.Name = some mr)
    (hs : (mr.State, RemediationState.RemediationStateFailed) ∈ remediationEdges) :
    ∃ stored, (rebootTimedOut c mr now).1.record mr.Namespace mr.Name = some stored ∧
      TickMoves now mr stored := by
  unfold rebootTimedOut
  rcases returnStatusUpdate_record (c.Eventf "MachineRemediationRebootTimedOut") mr
    (withStatus mr .RemediationStateFailed "Reboot failed on timeout" (some now))
    hstored rfl rfl with h | h
  · exact ⟨_, h, Or.inl rfl⟩
  · exact ⟨_, h, Or.inr (Or.inr ⟨_, _, rfl, rfl, hs⟩)⟩

/-- The case Started leaves the stored record or moves it along an edge. -/
theorem rebootStarted_record (c : Cluster) (mr : MachineRemediation) (bmh : BareMetalHost)
    (now : Int) (hstored : c.record mr.Namespace mr.Name = some mr)
    (hs : mr.State = .RemediationStateStarted) :
    ∃ stored, (rebootStarted c mr bmh now).1.record mr.Namespace mr.Name = some stored ∧
      TickMoves now mr stored := by
  unfold rebootStarted
  by_cases hcond : (!bmh.Spec.Online && !isRebootInProgress bmh) = true
  · simp only [hcond, if_true]
    rcases returnStatusUpdate_record (c.Eventf "MachineRemediationSkippedOffline") mr
      (withStatus mr .RemediationStateSucceeded
        "Skip the reboot, the machine was powered off already" (some now))
      hstored rfl rfl with h | h
    · exact ⟨_, h, Or.inl rfl⟩
    · exact ⟨_, h, Or.inr (Or.inr ⟨_, _, rfl, rfl, by rw [hs]; simp [remediationEdges]⟩)⟩
  · simp only [hcond, if_false]
    have hrem := UpdateHost_remediations c (poweredOffCopy bmh)
    generalize c.UpdateHost (poweredOffCopy bmh) = u at hrem
    obtain ⟨c1, e⟩ := u
    simp only at hrem
    have hst1 : c1.record mr.Namespace mr.Name = some mr := by
      show c1.remediations.find? _ = some mr
      rw [hrem]
      exact hstored
    cases e with
    | some err => exact ⟨mr, hst1, Or.inl rfl⟩
    | none =>
      simp only
      rcases returnStatusUpdate_record (c1.Eventf "MachineRemediationRebootStarted") mr
        (withStatus mr .RemediationStatePowerOff "Starts the reboot process" mr.EndTime)
        hst1 rfl rfl with h | h
      · exact ⟨_, h, Or.inl rfl⟩
      · exact ⟨_, h, Or.inr (Or.inl ⟨_, _, rfl, rfl, by rw [hs]; simp [remediationEdges]⟩)⟩

/-- The case PowerOff leaves the stored record or moves it along an edge. -/
theorem rebootPowerOff_record (c : Cluster) (mr : MachineRemediation) (machine : Machine)
    (bmh : BareMetalHost) (now : Int) (hstored : c.record mr.Namespace mr.Name = some mr)
    (hs : mr.State = .RemediationStatePowerOff) :
    ∃ stored, (rebootPowerOff c mr machine bmh now).1.record mr.Namespace mr.Name =
        some stored ∧ TickMoves now mr stored := by
  unfold rebootPowerOff
  cases mr.StartTime with
  | none => exact ⟨mr, hstored, Or.inl rfl⟩
  | some startTime =>
    simp only
    by_cases ht : timedOut startTime now = true
    · simp only [ht, if_true]
      exact rebootTimedOut_record c mr now hstored (by rw [hs]; simp [remediationEdges])
    · simp only [ht, if_false]
      by_cases hon : bmh.Status.PoweredOn = true
      · simp only [hon, if_true]
        exact ⟨mr, hstored, Or.inl rfl⟩
      · simp only [hon, if_false]
        have hrem := deleteMachineNode_remediations c machine
        generalize deleteMachineNode c machine = u at hrem
        obtain ⟨c1, e⟩ := u
        simp only at hrem
        have hst1 : c1.record mr.Namespace mr.Name = some mr := by
          show c1.remediations.find? _ = some mr
          rw [hrem]
          exact hstored
        cases e with
        | some err => exact ⟨mr, hst1, Or.inl rfl⟩
        | none =>
          simp only
          have hrem2 := UpdateHost_remediations c1 (poweredOnCopy bmh)
          generalize c1.UpdateHost (poweredOnCopy bmh) = u2 at hrem2
          obtain ⟨c2, e2⟩ := u2
          simp only at hrem2
          have hst2 : c2.record mr.Namespace mr.Name = some mr := by
            show c2.remediations.find? _ = some mr
            rw [hrem2]
            exact hst1
          cases e2 with
          | some err => exact ⟨mr, hst2, Or.inl rfl⟩
          | none =>
            simp only
            rcases returnStatusUpdate_record (c2.Eventf "MachineRemediationRebootPoweringOn")
              mr (withStatus mr .RemediationStatePowerOn "Reboot in progress" mr.EndTime)
              hst2 rfl rfl with h | h
            · exact ⟨_, h, Or.inl rfl⟩
            · exact ⟨_, h,
                Or.inr (Or.inl ⟨_, _, rfl, rfl, by rw [hs]; simp [remediationEdges]⟩)⟩

/-- The case PowerOn leaves the stored record or moves it along an edge. -/
theorem rebootPowerOn_record (c : Cluster) (mr : MachineRemediation) (machine : Machine)
    (now : Int) (hstored : c.record mr.Namespace mr.Name = some mr)
    (hs : mr.State = .RemediationStatePowerOn) :
    ∃ stored, (rebootPowerOn c mr machine now).1.record mr.Namespace mr.Name = some stored ∧
      TickMoves now mr stored := by
  unfold rebootPowerOn
  cases mr.StartTime with
  | none => exact ⟨mr, hstored, Or.inl rfl⟩
  | some startTime =>
    simp only
    by_cases ht : timedOut startTime now = true
    · simp only [ht, if_true]
      exact rebootTimedOut_record c mr now hstored (by rw [hs]; simp [remediationEdges])
    · simp only [ht, if_false]
      cases getNodeByMachine c machine with
      | error err =>
        by_cases hn : err.notFound = true
        · simp only [hn, if_true]
          exact ⟨mr, hstored, Or.inl rfl⟩
        · simp only [hn, if_false]
          exact ⟨mr, hstored, Or.inl rfl⟩
      | ok node =>
        simp only
        by_cases hc : NodeHasCondition node NodeReady ConditionTrue = true
        · simp only [hc, if_true]
          rcases returnStatusUpdate_record (c.Eventf "MachineRemediationRebootSucceeded") mr
            (withStatus mr .RemediationStateSucceeded "Reboot succeeded" (some now))
            hstored rfl rfl with h | h
          · exact ⟨_, h, Or.inl rfl⟩
          · exact ⟨_, h,
              Or.inr (Or.inr ⟨_, _, rfl, rfl, by rw [hs]; simp [remediationEdges]⟩)⟩
        · simp only [hc, if_false]
          exact ⟨mr, hstored, Or.inl rfl⟩

/-- The case Failed leaves the stored record. -/
theorem rebootFailed_record (c : Cluster) (machine : Machine) (ns name : String) :
    (rebootFailed c machine).1.record ns name = c.record ns name := by
  unfold rebootFailed
  cases getNodeByMachine c machine with
  | error err => by_cases hn : err.notFound = true <;> simp [hn]
  | ok node =>
    simp only
    have hrem := removeNodeRebootAnnotation_remediations c node
    generalize removeNodeRebootAnnotation c node = u at hrem
    obtain ⟨c1, e⟩ := u
    simp only at hrem
    cases e with
    | some err =>
      show c1.remediations.find? _ = c.remediations.find? _
      rw [hrem]
    | none =>
      show c1.remediations.find? _ = c.remediations.find? _
      rw [hrem]

/-- What a tick does to the stored record: it removes it, which it does only in state
Succeeded, or it leaves it or moves it along an edge, with the end time `now` exactly on the
edges to Succeeded and Failed. -/
theorem Reboot_record (c : Cluster) (mr : MachineRemediation) (now : Int)
    (hstored : c.record mr.Namespace mr.Name = some mr) :
    ((Reboot c mr now).1.record mr.Namespace mr.Name = none ∧
      mr.State = .RemediationStateSucceeded) ∨
    ∃ stored, (Reboot c mr now).1.record mr.Namespace mr.Name = some stored ∧
      TickMoves now mr stored := by
  unfold Reboot
  cases c.GetMachine mr.Namespace mr.MachineName with
  | error err => exact Or.inr ⟨mr, hstored, Or.inl rfl⟩
  | ok machine =>
    simp only
    cases getBareMetalHostByMachine c machine with
    | error err => exact Or.inr ⟨mr, hstored, Or.inl rfl⟩
    | ok bmh =>
      simp only
      cases hs : mr.State with
      | RemediationStateUnset => exact Or.inr ⟨mr, hstored, Or.inl rfl⟩
      | RemediationStateStarted => exact Or.inr (rebootStarted_record c mr bmh now hstored hs)
      | RemediationStatePowerOff =>
        exact Or.inr (rebootPowerOff_record c mr machine bmh now hstored hs)
      | RemediationStatePowerOn =>
        exact Or.inr (rebootPowerOn_record c mr machine now hstored hs)
      | RemediationStateSucceeded =>
        simp only
        have hd := DeleteRemediation_record c mr
        generalize c.DeleteRemediation mr = u at hd
        obtain ⟨c1, e⟩ := u
        simp only at hd
        rcases hd with hd | hd
        · right
          refine ⟨mr, ?_, Or.inl rfl⟩
          cases e <;> simp only <;> rw [hd] <;> exact hstored
        · left
          refine ⟨?_, trivial⟩
          cases e <;> simp only <;> exact hd
      | RemediationStateFailed =>
        right
        refine ⟨mr, ?_, Or.inl rfl⟩
        simp only
        rw [rebootFailed_record]
        exact hstored

/-! ## Runs of ticks -/

theorem edge_rank (s s' : RemediationState) (h : (s, s') ∈ remediationEdges) :
    stateRank (some s) < stateRank (some s') := by
  simp only [remediationEdges, List.mem_cons, Prod.mk.injEq, List.mem_singleton,
    List.not_mem_nil, or_false] at h
  rcases h with ⟨rfl, rfl⟩ | ⟨rfl, rfl⟩ | ⟨rfl, rfl⟩ | ⟨rfl, rfl⟩ | ⟨rfl, rfl⟩ | ⟨rfl, rfl⟩ <;>
    simp [stateRank]

theorem edge_not_terminal (s s' : RemediationState) (h : (s, s') ∈ remediationEdges) :
    s.terminal = false := by
  simp only [remediationEdges, List.mem_cons, Prod.mk.injEq, List.mem_singleton,
    List.not_mem_nil, or_false] at h
  rcases h with ⟨rfl, rfl⟩ | ⟨rfl, rfl⟩ | ⟨rfl, rfl⟩ | ⟨rfl, rfl⟩ | ⟨rfl, rfl⟩ | ⟨rfl, rfl⟩ <;>
    rfl

theorem stateRank_injective (a b : Option RemediationState)
    (h : stateRank a = stateRank b) : a = b := by
  cases a with
  | none =>
    cases b with
    | none => rfl
    | some t => cases t <;> simp [stateRank] at h
  | some s =>
    cases b with
    | none => cases s <;> simp [stateRank] at h
    | some t => cases s <;> cases t <;> simp [stateRank] at h <;> rfl

/-- A tick leaves the state or moves it along an edge. -/
theorem TickMoves_state (now : Int) (mr stored : MachineRemediation)
    (h : TickMoves now mr stored) :
    stored.State = mr.State ∨ (mr.State, stored.State) ∈ remediationEdges := by
  rcases h with h | ⟨state, reason, h, _, he⟩ | ⟨state, reason, h, _, he⟩
  · exact Or.inl (by rw [h])
  · exact Or.inr (by rw [h]; exact he)
  · exact Or.inr (by rw [h]; exact he)

/-- A tick on a record in a terminal state leaves the record. -/
theorem TickMoves_terminal (now : Int) (mr stored : MachineRemediation)
    (h : TickMoves now mr stored) (ht : mr.State.terminal = true) : stored = mr := by
  rcases h with h | ⟨state, reason, _, _, he⟩ | ⟨state, reason, _, _, he⟩
  · exact h
  · rw [edge_not_terminal _ _ he] at ht
    cases ht
  · rw [edge_not_terminal _ _ he] at ht
    cases ht

/-- A tick sets the end time to `now` when it moves the state to Succeeded or Failed, and
leaves the end time otherwise. -/
theorem TickMoves_endTime (now : Int) (mr stored : MachineRemediation)
    (h : TickMoves now mr stored) :
    ((stored.State ≠ mr.State ∧ stored.State.terminal = true) → stored.EndTime = some now) ∧
    (¬ (stored.State ≠ mr.State ∧ stored.State.terminal = true) →
      stored.EndTime = mr.EndTime) := by
  rcases h with h | ⟨state, reason, h, hn, he⟩ | ⟨state, reason, h, ht, he⟩
  · subst h
    exact ⟨fun hc => absurd rfl hc.1, fun _ => rfl⟩
  · subst h
    refine ⟨fun hc => ?_, fun _ => rfl⟩
    have : state.terminal = true := hc.2
    rw [hn] at this
    cases this
  · subst h
    refine ⟨fun _ => rfl, fun hc => ?_⟩
    exfalso
    apply hc
    refine ⟨fun heq => ?_, ht⟩
    have h1 := edge_rank _ _ he
    have : state = mr.State := heq
    rw [this] at h1
    exact lt_irrefl _ h1

/-- One step of a run: a record that is gone stays gone; a stored record is removed, which
happens only in state Succeeded, or is left or moved as a tick does. -/
theorem run_step (ns name : String) (run : Nat → Cluster) (hrun : IsRun ns name run)
    (n : Nat) :
    ((run n).record ns name = none → (run (n + 1)).record ns name = none) ∧
    (∀ mr, (run n).record ns name = some mr →
      ((run (n + 1)).record ns name = none ∧ mr.State = .RemediationStateSucceeded) ∨
      ∃ stored now, (run (n + 1)).record ns name = some stored ∧ TickMoves now mr stored) := by
  have h := hrun n
  constructor
  · intro hnone
    rw [hnone] at h
    exact h
  · intro mr hmr
    rw [hmr] at h
    obtain ⟨c, now, hc, hnext⟩ := h
    have hkey := List.find?_some hmr
    simp only [remediationKey, Bool.and_eq_true, decide_eq_true_eq] at hkey
    obtain ⟨hns, hname⟩ := hkey
    subst hns hname
    rcases Reboot_record c mr now hc with ⟨h1, h2⟩ | ⟨stored, h1, h2⟩
    · exact Or.inl ⟨by rw [hnext]; exact h1, h2⟩
    · exact Or.inr ⟨stored, now, by rw [hnext]; exact h1, h2⟩

/-- Along a run the rank of the state never decreases. -/
theorem run_rank_mono (ns name : String) (run : Nat → Cluster) (hrun : IsRun ns name run)
    (i j : Nat) (hij : i ≤ j) :
    stateRank ((run i).stateOf ns name) ≤ stateRank ((run j).stateOf ns name) := by
  induction j with
  | zero =>
    have : i = 0 := Nat.le_zero.mp hij
    subst this
    exact le_refl _
  | succ j ih =>
    rcases Nat.lt_or_ge i (j + 1) with hlt | hge
    · refine le_trans (ih (Nat.lt_succ_iff.mp hlt)) ?_
      obtain ⟨s1, s2⟩ := run_step ns name run hrun j
      unfold Cluster.stateOf
      cases hr : (run j).record ns name with
      | none => simp [s1 hr]
      | some mr =>
        rcases s2 mr hr with ⟨h1, h2⟩ | ⟨stored, now, h1, h2⟩
        · rw [h1]
          simp [stateRank, h2]
        · rw [h1]
          simp only [Option.map_some']
          rcases TickMoves_state now mr stored h2 with h | h
          · rw [h]
          · exact le_of_lt (edge_rank _ _ h)
    · have : i = j + 1 := le_antisymm hij hge
      subst this
      exact le_refl _

/-- Along a run a record in a terminal state keeps its state and its end time as long as it
is stored, and a record in state Failed stays stored. -/
theorem run_terminal (ns name : String) (run : Nat → Cluster) (hrun : IsRun ns name run)
    (i : Nat) (mr : MachineRemediation) (hi : (run i).record ns name = some mr)
    (ht : mr.State.terminal = true) (d : Nat) :
    ((run (i + d)).record ns name = some mr ∨
      ((run (i + d)).record ns name = none ∧ mr.State = .RemediationStateSucceeded)) := by
  induction d with
  | zero => exact Or.inl hi
  | succ d ih =>
    obtain ⟨s1, s2⟩ := run_step ns name run hrun (i + d)
    rcases ih with h | ⟨h, hs⟩
    · rcases s2 mr h with ⟨h1, h2⟩ | ⟨stored, now, h1, h2⟩
      · exact Or.inr ⟨h1, h2⟩
      · rw [TickMoves_terminal now mr stored h2 ht] at h1
        exact Or.inl h1
    · exact Or.inr ⟨s1 h, hs⟩

/-- Ticks of `Reboot` on the stored record, one after the other, are a run. -/
theorem ticks_isRun (ns name : String) (now : Int) (c : Cluster) :
    IsRun ns name (ticks ns name now c) := by
  intro n
  cases h : (ticks ns name now c n).record ns name with
  | none =>
    show (ticks ns name now c (n + 1)).record ns name = none
    simp only [ticks, h]
  | some mr =>
    refine ⟨ticks ns name now c n, now, h, ?_⟩
    simp only [ticks, h]

/-- C14: every tick of `Reboot` on a stored record leaves its state or moves it along one of
the edges Started→PowerOff, Started→Succeeded, PowerOff→PowerOn, PowerOff→Failed,
PowerOn→Succeeded, PowerOn→Failed, and removes the record only in state Succeeded; hence
along any run of ticks the state never returns to a state it has left, and a record in state
Succeeded or Failed keeps its state as long as it is stored (a Failed record is never
removed). -/
theorem Reboot_edges (c : Cluster) (mr : MachineRemediation) (now : Int)
    (hstored : c.record mr.Namespace mr.Name = some mr)
    (ns name : String) (run : Nat → Cluster) (hrun : IsRun ns name run) :
    (∀ stored, (Reboot c mr now).1.record mr.Namespace mr.Name = some stored →
      stored.State = mr.State ∨ (mr.State, stored.State) ∈ remediationEdges) ∧
    ((Reboot c mr now).1.record mr.Namespace mr.Name = none →
      mr.State = .RemediationStateSucceeded) ∧
    (∀ i j k, i ≤ j → j ≤ k → (run i).stateOf ns name = (run k).stateOf ns name →
      (run j).stateOf ns name = (run i).stateOf ns name) ∧
    (∀ i j s, i ≤ j → (run i).stateOf ns name = some s → s.terminal = true →
      (run j).stateOf ns name = some s ∨
      ((run j).stateOf ns name = none ∧ s = .RemediationStateSucceeded)) := by
  refine ⟨?_, ?_, ?_, ?_⟩
  · intro stored hst
    rcases Reboot_record c mr now hstored with ⟨h1, _⟩ | ⟨stored', h1, h2⟩
    · rw [h1] at hst
      cases hst
    · rw [h1] at hst
      cases hst
      exact TickMoves_state now mr stored h2
  · intro hnone
    rcases Reboot_record c mr now hstored with ⟨_, h2⟩ | ⟨stored', h1, _⟩
    · exact h2
    · rw [h1] at hnone
      cases hnone
  · intro i j k hij hjk heq
    have h1 := run_rank_mono ns name run hrun i j hij
    have h2 := run_rank_mono ns name run hrun j k hjk
    rw [← heq] at h2
    exact stateRank_injective _ _ (le_antisymm h2 h1)
  · intro i j s hij hs ht
    obtain ⟨d, rfl⟩ := Nat.exists_eq_add_of_le hij
    unfold Cluster.stateOf at hs ⊢
    cases hr : (run i).record ns name with
    | none =>
      rw [hr] at hs
      cases hs
    | some a =>
      rw [hr] at hs
      simp only [Option.map_some', Option.some.injEq] at hs
      subst hs
      rcases run_terminal ns name run hrun i a hr ht d with h | ⟨h, hs⟩
      · exact Or.inl (by rw [h]; rfl)
      · exact Or.inr ⟨by rw [h]; rfl, hs⟩

/-- An instance of the preceding theorem: ticks on a record in state Started whose host is
online; the first tick moves the record to PowerOff. -/
theorem Reboot_edges_witness :
    (sampleCluster bareMetalHostOnline (remediationIn .RemediationStateStarted)).record
        (remediationIn .RemediationStateStarted).Namespace
        (remediationIn .RemediationStateStarted).Name =
      some (remediationIn .RemediationStateStarted) ∧
    (ticks NamespaceOpenshiftMachineAPI "machineRemediation" 5
        (sampleCluster bareMetalHostOnline (remediationIn .RemediationStateStarted))
        1).stateOf NamespaceOpenshiftMachineAPI "machineRemediation" =
      some .RemediationStatePowerOff ∧
    ∀ stored,
      (Reboot (sampleCluster bareMetalHostOnline (remediationIn .RemediationStateStarted))
          (remediationIn .RemediationStateStarted) 5).1.record
          (remediationIn .RemediationStateStarted).Namespace
          (remediationIn .RemediationStateStarted).Name = some stored →
        stored.State = (remediationIn .RemediationStateStarted).State ∨
        ((remediationIn .RemediationStateStarted).State, stored.State) ∈ remediationEdges :=
  ⟨rfl, rfl,
    (Reboot_edges (sampleCluster bareMetalHostOnline (remediationIn .RemediationStateStarted))
      (remediationIn .RemediationStateStarted) 5 rfl
      NamespaceOpenshiftMachineAPI "machineRemediation"
      (ticks NamespaceOpenshiftMachineAPI "machineRemediation" 5
        (sampleCluster bareMetalHostOnline (remediationIn .RemediationStateStarted)))
      (ticks_isRun _ _ _ _)).1⟩

/-- C15: a tick of `Reboot` on a stored record sets the end time to `now` when it moves the
state to Succeeded or Failed and leaves the end time as it was otherwise, and so leaves it on
a record already in Succeeded or Failed; hence along any run of ticks the end time changes
at most once, and a record that a run starting from a state other than Succeeded and Failed
has brought to Succeeded or Failed has its end time set. -/
theorem Reboot_endTime (c : Cluster) (mr : MachineRemediation) (now : Int)
    (hstored : c.record mr.Namespace mr.Name = some mr)
    (ns name : String) (run : Nat → Cluster) (hrun : IsRun ns name run) :
    (∀ stored, (Reboot c mr now).1.record mr.Namespace mr.Name = some stored →
      ((stored.State ≠ mr.State ∧ stored.State.terminal = true) →
        stored.EndTime = some now) ∧
      (¬ (stored.State ≠ mr.State ∧ stored.State.terminal = true) →
        stored.EndTime = mr.EndTime) ∧
      (mr.State.terminal = true → stored.EndTime = mr.EndTime)) ∧
    (∀ i j a a' b b', i < j →
      (run i).record ns name = some a → (run (i + 1)).record ns name = some a' →
      (run j).record ns name = some b → (run (j + 1)).record ns name = some b' →
      a'.EndTime ≠ a.EndTime → b'.EndTime = b.EndTime) ∧
    (∀ n first stored, (run 0).record ns name = some first → first.State.terminal = false →
      (run n).record ns name = some stored → stored.State.terminal = true →
      stored.EndTime ≠ none) := by
  refine ⟨?_, ?_, ?_⟩
  · intro stored hst
    rcases Reboot_record c mr now hstored with ⟨h1, _⟩ | ⟨stored', h1, h2⟩
    · rw [h1] at hst
      cases hst
    · rw [h1] at hst
      cases hst
      obtain ⟨e1, e2⟩ := TickMoves_endTime now mr stored h2
      refine ⟨e1, e2, fun ht => ?_⟩
      rw [TickMoves_terminal now mr stored h2 ht]
  · intro i j a a' b b' hij ha ha' hb hb' hchange
    rcases (run_step ns name run hrun i).2 a ha with ⟨h1, _⟩ | ⟨x, t, h1, h2⟩
    · rw [h1] at ha'
      cases ha'
    · have hx : x = a' := Option.some.inj (h1.symm.trans ha')
      rw [hx] at h2
      obtain ⟨e1, e2⟩ := TickMoves_endTime t a a' h2
      have hterm : a'.State.terminal = true := by
        by_contra hn
        exact hchange (e2 fun hc => hn hc.2)
      obtain ⟨d, hd⟩ := Nat.exists_eq_add_of_le (Nat.succ_le_of_lt hij)
      rcases run_terminal ns name run hrun (i + 1) a' ha' hterm d with h | ⟨h, _⟩
      · have hb2 : b = a' := by
          rw [← hd, hb] at h
          exact Option.some.inj h
        rcases (run_step ns name run hrun j).2 b hb with ⟨h3, _⟩ | ⟨y, t', h3, h4⟩
        · rw [h3] at hb'
          cases hb'
        · have hy : y = b' := Option.some.inj (h3.symm.trans hb')
          rw [hy] at h4
          rw [TickMoves_terminal t' b b' h4 (by rw [hb2]; exact hterm)]
      · rw [← hd, hb] at h
        cases h
  · intro n
    induction n with
    | zero =>
      intro first stored h0 hnt hn ht
      rw [h0] at hn
      cases hn
      rw [hnt] at ht
      cases ht
    | succ n ih =>
      intro first stored h0 hnt hn ht
      cases hr : (run n).record ns name with
      | none =>
        rw [(run_step ns name run hrun n).1 hr] at hn
        cases hn
      | some prev =>
        rcases (run_step ns name run hrun n).2 prev hr with ⟨h1, _⟩ | ⟨x, t, h1, h2⟩
        · rw [h1] at hn
          cases hn
        · have hx : x = stored := Option.some.inj (h1.symm.trans hn)
          rw [hx] at h2
          obtain ⟨e1, e2⟩ := TickMoves_endTime t prev stored h2
          by_cases hc : stored.State ≠ prev.State ∧ stored.State.terminal = true
          · rw [e1 hc]
            simp
          · rw [e2 hc]
            have hsame : stored.State = prev.State := by
              by_contra hne
              exact hc ⟨hne, ht⟩
            exact ih first prev h0 hnt hr (by rw [← hsame]; exact ht)

/-- An instance of the preceding theorem: the tick on a record in state PowerOn with a ready
node moves it to Succeeded and sets its end time. -/
theorem Reboot_endTime_witness :
    (sampleCluster bareMetalHostOnline (remediationIn .RemediationStatePowerOn)).record
        (remediationIn .RemediationStatePowerOn).Namespace
        (remediationIn .RemediationStatePowerOn).Name =
      some (remediationIn .RemediationStatePowerOn) ∧
    (ticks NamespaceOpenshiftMachineAPI "machineRemediation" 7
        (sampleCluster bareMetalHostOnline (remediationIn .RemediationStatePowerOn))
        1).record NamespaceOpenshiftMachineAPI "machineRemediation" =
      some (withStatus (remediationIn .RemediationStatePowerOn) .RemediationStateSucceeded
        "Reboot succeeded" (some 7)) ∧
    ∀ n first stored,
      (ticks NamespaceOpenshiftMachineAPI "machineRemediation" 7
        (sampleCluster bareMetalHostOnline (remediationIn .RemediationStatePowerOn))
        0).record NamespaceOpenshiftMachineAPI "machineRemediation" = some first →
      first.State.terminal = false →
      (ticks NamespaceOpenshiftMachineAPI "machineRemediation" 7
        (sampleCluster bareMetalHostOnline (remediationIn .RemediationStatePowerOn))
        n).record NamespaceOpenshiftMachineAPI "machineRemediation" = some stored →
      stored.State.terminal = true → stored.EndTime ≠ none :=
  ⟨rfl, rfl,
    (Reboot_endTime (sampleCluster bareMetalHostOnline (remediationIn .RemediationStatePowerOn))
      (remediationIn .RemediationStatePowerOn) 7 rfl
      NamespaceOpenshiftMachineAPI "machineRemediation"
      (ticks NamespaceOpenshiftMachineAPI "machineRemediation" 7
        (sampleCluster bareMetalHostOnline (remediationIn .RemediationStatePowerOn)))
      (ticks_isRun _ _ _ _)).2.2⟩

/-! ## The auto-scaler -/

/-- An `int32` in range is kept by the conversion. -/
theorem toInt32_of_range (n : Int) (h0 : 0 ≤ n) (h1 : n < 2147483648) : toInt32 n = n := by
  unfold toInt32
  rw [Int.emod_eq_of_lt (by omega) (by omega)]
  omega

/-- As long as the count fits an `int32`, the loop counts the hosts the selector matches. -/
theorem countMatching_eq (lib : Lib) (selector : List Requirement)
    (hosts : List BareMetalHost) :
    ∀ count : Int, 0 ≤ count →
      count + ((hosts.filter fun h => lib.Matches selector h.Labels).length : Int) <
        2147483648 →
      countMatching lib selector hosts count =
        count + ((hosts.filter fun h => lib.Matches selector h.Labels).length : Int) := by
  induction hosts with
  | nil =>
    intro count _ _
    simp [countMatching]
  | cons host rest ih =>
    intro count h0 hlt
    by_cases hm : lib.Matches selector host.Labels = true
    · simp only [List.filter_cons, hm, if_true, List.length_cons, Nat.cast_add,
        Nat.cast_one] at hlt ⊢
      simp only [countMatching, hm, if_true]
      rw [toInt32_of_range (count + 1) (by omega) (by omega), ih (count + 1) (by omega)
        (by omega)]
      omega
    · have hm' : lib.Matches selector host.Labels = false := by simpa using hm
      simp only [List.filter_cons, hm', Bool.false_eq_true, if_false] at hlt ⊢
      simp only [countMatching, hm', Bool.false_eq_true, if_false]
      exact ih count h0 hlt

/-- An accepted update of a stored machine set stores the machine set given. -/
theorem UpdateMachineSet_stored (c : Cluster) (old new : MachineSet)
    (hf : c.fails .updateMachineSet = none)
    (hold : c.machineSets.find? (machineSetKey old.Namespace old.Name) = some old)
    (hns : new.Namespace = old.Namespace) (hname : new.Name = old.Name) :
    ∃ c', c.UpdateMachineSet new = (c', none) ∧
      c'.machineSets.find? (machineSetKey old.Namespace old.Name) = some new := by
  have hany : c.machineSets.any (machineSetKey old.Namespace old.Name) = true :=
    any_of_find _ _ _ hold
  have hkey : machineSetKey old.Namespace old.Name new = true := by
    simp [machineSetKey, hns, hname]
  let sets := replaceBy (machineSetKey old.Namespace old.Name) new c.machineSets
  refine ⟨{ c with machineSets := sets }, ?_, ?_⟩
  · simp only [Cluster.UpdateMachineSet, hf, hns, hname, hany, if_true]
  · exact find_replaceBy _ _ hkey _ _ hold

/-- C16: `Reconcile` of the auto-scaler, on a stored machine set that carries the autoscale
annotation (with any value) and whose provider spec gives a selector, with a client that
answers and a count that fits an `int32`: when the client accepts the write it returns nil
and the stored replicas are the number of hosts of the namespace of the machine set whose
labels the selector matches, which is every host of the namespace when the selector has no
requirement (an empty selector matches every label set); and when the replicas were that
count already it returns nil with the cluster left as it is, also with a client that
refuses every write: no update is issued. -/
theorem machineset_Reconcile_replicas (lib : Lib)
    (decode : String → Except String BareMetalMachineProviderSpec)
    (c : Cluster) (ns name : String) (machineSet : MachineSet) (value : String)
    (selector : List Requirement)
    (hget : c.GetMachineSet ns name = .ok machineSet)
    (hann : lookupStr machineSet.Annotations AutoScaleAnnotation = some value)
    (hsel : SelectorFromProviderSpec lib decode machineSet.ProviderSpec = .ok selector)
    (hfl : c.fails .listHosts = none)
    (hfit : ((matchingHosts lib selector c machineSet.Namespace).length : Int) <
      2147483648) :
    (c.fails .updateMachineSet = none →
      (machineset.Reconcile lib decode c ns name).2 = none ∧
      ∃ stored, (machineset.Reconcile lib decode c ns name).1.machineSets.find?
          (machineSetKey ns name) = some stored ∧
        stored.Replicas =
          some ((matchingHosts lib selector c machineSet.Namespace).length : Int)) ∧
    (machineSet.Replicas =
        some ((matchingHosts lib selector c machineSet.Namespace).length : Int) →
      machineset.Reconcile lib decode c ns name = (c, none)) ∧
    (selector = [] → (∀ labels, lib.Matches [] labels = true) →
      matchingHosts lib selector c machineSet.Namespace =
        c.hosts.filter fun h => decide (h.Namespace = machineSet.Namespace)) := by
  have hfind : c.machineSets.find? (machineSetKey ns name) = some machineSet := by
    unfold Cluster.GetMachineSet at hget
    cases hf : c.fails .getMachineSet with
    | some e => simp [hf] at hget
    | none =>
      simp only [hf] at hget
      exact (getBy_ok_iff _ _ _).mp hget
  have hkey := List.find?_some hfind
  simp only [machineSetKey, Bool.and_eq_true, decide_eq_true_eq] at hkey
  obtain ⟨hns, hname⟩ := hkey
  subst hns hname
  have hcount : countMatching lib selector
      (c.hosts.filter fun h => decide (h.Namespace = machineSet.Namespace)) 0 =
      ((matchingHosts lib selector c machineSet.Namespace).length : Int) := by
    have := countMatching_eq lib selector
      (c.hosts.filter fun h => decide (h.Namespace = machineSet.Namespace)) 0 (le_refl _)
      (by simpa [matchingHosts] using hfit)
    simpa [matchingHosts] using this
  have hsame : machineSet.Replicas =
        some ((matchingHosts lib selector c machineSet.Namespace).length : Int) →
      machineset.Reconcile lib decode c machineSet.Namespace machineSet.Name = (c, none) := by
    intro hrep
    simp [machineset.Reconcile, hget, hann, hsel, Cluster.ListHosts, hfl, hcount, hrep]
  refine ⟨?_, hsame, ?_⟩
  · intro hfu
    obtain ⟨c', e, r⟩ := UpdateMachineSet_stored c machineSet
      (withReplicas machineSet (matchingHosts lib selector c machineSet.Namespace).length)
      hfu hfind rfl rfl
    have hdiff : machineSet.Replicas ≠
          some ((matchingHosts lib selector c machineSet.Namespace).length : Int) →
        machineset.Reconcile lib decode c machineSet.Namespace machineSet.Name =
          (c', none) := by
      intro hrep
      simp only [machineset.Reconcile, hget, hann, hsel, Cluster.ListHosts, hfl, hcount]
      have hcond : (machineSet.Replicas.isNone ||
          decide (machineSet.Replicas ≠
            some ((matchingHosts lib selector c machineSet.Namespace).length : Int))) =
          true := by
        simp [hrep]
      simp only [hcond, if_true]
      rw [e]
    by_cases hrep : machineSet.Replicas =
        some ((matchingHosts lib selector c machineSet.Namespace).length : Int)
    · rw [hsame hrep]
      exact ⟨rfl, machineSet, hfind, hrep⟩
    · rw [hdiff hrep]
      exact ⟨rfl, _, r, rfl⟩
  · intro hempty hall
    subst hempty
    simp [matchingHosts, hall]

/-- An instance of the preceding theorem: of the three hosts two are in the namespace of
the machine set and one of these carries the label, so the replicas become one. -/
theorem machineset_Reconcile_replicas_witness :
    scaleCluster.GetMachineSet "myns" "machineset1" = .ok sampleMachineSet ∧
    SelectorFromProviderSpec sampleLib sampleDecode sampleMachineSet.ProviderSpec =
      .ok [{ key := "key1", operator := "=", strValues := ["value1"] }] ∧
    (machineset.Reconcile sampleLib sampleDecode scaleCluster "myns" "machineset1").1.machineSets
      = [{ sampleMachineSet with Replicas := some 1 }] ∧
    (machineset.Reconcile sampleLib sampleDecode scaleCluster "myns" "machineset1").2 = none :=
  ⟨rfl, rfl, rfl,
    ((machineset_Reconcile_replicas sampleLib sampleDecode scaleCluster "myns" "machineset1"
      sampleMachineSet "yesplease"
      [{ key := "key1", operator := "=", strValues := ["value1"] }] rfl rfl rfl rfl
      (by decide)).1 rfl).1⟩

/-! ## The node-reboot controller -/

/-- The loop of `isRebootInProgress` finds a reboot in progress exactly when a record of the
machine name has no end time. -/
theorem rebootInProgressAmong_iff (machineName : String) (items : List MachineRemediation) :
    nodereboot.rebootInProgressAmong machineName items = true ↔
      ∃ mr ∈ items, mr.MachineName = machineName ∧ mr.EndTime = none := by
  induction items with
  | nil => simp [nodereboot.rebootInProgressAmong]
  | cons mr rest ih =>
    unfold nodereboot.rebootInProgressAmong
    by_cases hn : mr.MachineName = machineName
    · cases he : mr.EndTime with
      | none =>
        simp only [hn, if_true, Option.isNone_none, true_iff]
        exact ⟨mr, List.mem_cons_self _ _, hn, he⟩
      | some t =>
        simp only [hn, if_true, Option.isNone_some, Bool.false_eq_true, if_false, ih]
        constructor
        · rintro ⟨x, hx, h1, h2⟩
          exact ⟨x, List.mem_cons_of_mem _ hx, h1, h2⟩
        · rintro ⟨x, hx, h1, h2⟩
          rcases List.mem_cons.mp hx with rfl | hx
          · rw [he] at h2
            cases h2
          · exact ⟨x, hx, h1, h2⟩
    · simp only [hn, if_false, ih]
      constructor
      · rintro ⟨x, hx, h1, h2⟩
        exact ⟨x, List.mem_cons_of_mem _ hx, h1, h2⟩
      · rintro ⟨x, hx, h1, h2⟩
        rcases List.mem_cons.mp hx with rfl | hx
        · exact absurd h1 hn
        · exact ⟨x, hx, h1, h2⟩

/-- C17, as the code has it: `Reconcile` of the node-reboot controller on a stored node:
without the reboot annotation it leaves the cluster as it is; with the reboot annotation and
a machine annotation that resolves to a machine, and a client that answers and accepts the
write, it creates a record (generated name, type Reboot, the name and the namespace of the
machine) if and only if no stored record of that machine name has its end time unset,
whatever the states of the records are, and otherwise leaves the cluster as it is. -/
theorem nodereboot_Reconcile_creates (c : Cluster) (ns name : String) (node : Node)
    (hnode : c.GetNode ns name = .ok node) :
    (lookupStr node.Annotations AnnotationNodeMachineReboot = none →
      nodereboot.Reconcile c ns name = (c, none)) ∧
    (∀ value machine, lookupStr node.Annotations AnnotationNodeMachineReboot = some value →
      GetMachineByNode c node = .ok machine →
      c.fails .listRemediations = none → c.fails .createRemediation = none →
      ((∃ mr ∈ c.remediations, mr.MachineName = machine.Name ∧ mr.EndTime = none) →
        nodereboot.Reconcile c ns name = (c, none)) ∧
      ((¬ ∃ mr ∈ c.remediations, mr.MachineName = machine.Name ∧ mr.EndTime = none) →
        (nodereboot.Reconcile c ns name).2 = none ∧
        (nodereboot.Reconcile c ns name).1.remediations =
          c.remediations ++
            [{ Name := c.generatedName "remediation-", GenerateName := "remediation-",
               Namespace := machine.Namespace, MachineName := machine.Name,
               Type_ := .RemediationTypeReboot }]) ∧
      ((nodereboot.Reconcile c ns name).1.remediations ≠ c.remediations ↔
        ¬ ∃ mr ∈ c.remediations, mr.MachineName = machine.Name ∧ mr.EndTime = none)) := by
  constructor
  · intro hann
    simp only [nodereboot.Reconcile, hnode, hann]
  · intro value machine hann hmach hfl hfc
    have hprog : nodereboot.isRebootInProgress c machine.Name =
        .ok (nodereboot.rebootInProgressAmong machine.Name c.remediations) := by
      simp only [nodereboot.isRebootInProgress, Cluster.ListRemediations, hfl]
    have hyes : (∃ mr ∈ c.remediations, mr.MachineName = machine.Name ∧ mr.EndTime = none) →
        nodereboot.Reconcile c ns name = (c, none) := by
      intro hex
      have := (rebootInProgressAmong_iff machine.Name c.remediations).mpr hex
      simp only [nodereboot.Reconcile, hnode, hann, hmach, hprog, this]
    have hno : (¬ ∃ mr ∈ c.remediations, mr.MachineName = machine.Name ∧ mr.EndTime = none) →
        (nodereboot.Reconcile c ns name).2 = none ∧
        (nodereboot.Reconcile c ns name).1.remediations =
          c.remediations ++
            [{ Name := c.generatedName "remediation-", GenerateName := "remediation-",
               Namespace := machine.Namespace, MachineName := machine.Name,
               Type_ := .RemediationTypeReboot }] := by
      intro hnex
      have : nodereboot.rebootInProgressAmong machine.Name c.remediations = false := by
        cases h : nodereboot.rebootInProgressAmong machine.Name c.remediations with
        | false => rfl
        | true => exact absurd ((rebootInProgressAmong_iff _ _).mp h) hnex
      simp only [nodereboot.Reconcile, hnode, hann, hmach, hprog, this,
        Cluster.CreateRemediation, hfc]
      exact ⟨trivial, trivial⟩
    refine ⟨hyes, hno, ?_⟩
    constructor
    · intro hne hex
      rw [hyes hex] at hne
      exact hne rfl
    · intro hnex
      rw [(hno hnex).2]
      simp

/-- An instance of the preceding theorem: the only record of the machine has ended, so a new
record is created. -/
theorem nodereboot_Reconcile_creates_witness :
    (rebootCluster [{ failedWithoutEndTime with EndTime := some 3 }]).GetNode "" "nodeOnline" =
      .ok nodeOnline ∧
    GetMachineByNode (rebootCluster [{ failedWithoutEndTime with EndTime := some 3 }])
      nodeOnline = .ok (machineOnNode "nodeOnline") ∧
    (nodereboot.Reconcile (rebootCluster [{ failedWithoutEndTime with EndTime := some 3 }])
        "" "nodeOnline").1.remediations =
      [{ failedWithoutEndTime with EndTime := some 3 },
       { Name := "remediation-", GenerateName := "remediation-",
         Namespace := NamespaceOpenshiftMachineAPI, MachineName := "machineOnline",
         Type_ := .RemediationTypeReboot }] ∧
    (nodereboot.Reconcile (rebootCluster [{ failedWithoutEndTime with EndTime := some 3 }])
        "" "nodeOnline").2 = none :=
  ⟨rfl, rfl, rfl,
    (((nodereboot_Reconcile_creates
      (rebootCluster [{ failedWithoutEndTime with EndTime := some 3 }]) "" "nodeOnline"
      nodeOnline rfl).2 "" (machineOnNode "nodeOnline") rfl rfl rfl rfl).2.1
      (by simp [rebootCluster, failedWithoutEndTime])).1⟩

/-- C17 as stated fails: the only record of the machine is in state Failed, so it is not
active in the sense of the claim (a state other than Succeeded and Failed, and no end time),
and the claim has a record created; but its end time is unset, and `Reconcile` creates
nothing. -/
theorem nodereboot_Reconcile_creates_counterexample :
    (rebootCluster [failedWithoutEndTime]).GetNode "" "nodeOnline" = .ok nodeOnline ∧
    lookupStr nodeOnline.Annotations AnnotationNodeMachineReboot = some "" ∧
    GetMachineByNode (rebootCluster [failedWithoutEndTime]) nodeOnline =
      .ok (machineOnNode "nodeOnline") ∧
    (¬ ∃ mr ∈ (rebootCluster [failedWithoutEndTime]).remediations,
      mr.MachineName = (machineOnNode "nodeOnline").Name ∧
      mr.State ≠ .RemediationStateSucceeded ∧ mr.State ≠ .RemediationStateFailed ∧
      mr.EndTime = none) ∧
    (nodereboot.Reconcile (rebootCluster [failedWithoutEndTime]) "" "nodeOnline").1.remediations =
      [failedWithoutEndTime] ∧
    (nodereboot.Reconcile (rebootCluster [failedWithoutEndTime]) "" "nodeOnline").2 = none := by
  refine ⟨rfl, rfl, rfl, ?_, rfl, rfl⟩
  simp [rebootCluster, failedWithoutEndTime]

/-! ## The consumer reference a host receives -/

/-- After a successful `setHostSpec` the stored host carries the consumer reference of kind
`Machine` with the name, namespace and API version of the machine, and `consumerRefMatches`
holds between this reference and the machine if and only if the kind of the machine is
`Machine`: the kind is written as a constant and compared with the kind of the machine. -/
theorem setHostSpec_consumerRef (c : Client) (host : BareMetalHost) (machine : Machine)
    (config : BareMetalMachineProviderSpec)
    (hok : (setHostSpec c host machine config).2 = none) :
    ∃ stored ref,
      (setHostSpec c host machine config).1.hosts.find? (hasKey host.Namespace host.Name) =
        some stored ∧
      stored.Spec.ConsumerRef = some ref ∧
      ref = { Kind := "Machine", Name := machine.Name, Namespace := machine.Namespace,
              APIVersion := machine.APIVersion } ∧
      (consumerRefMatches ref machine = true ↔ machine.Kind = "Machine") := by
  have hupd : c.updateErr = none := by
    cases h : c.updateErr with
    | none => rfl
    | some e => simp [setHostSpec, Client.Update, h] at hok
  have hstored : c.hosts.any (hasKey host.Namespace host.Name) = true := by
    cases h : c.hosts.any (hasKey host.Namespace host.Name) with
    | true => rfl
    | false =>
      have hn : (hostSpecFor host machine config).Namespace = host.Namespace := rfl
      have hm : (hostSpecFor host machine config).Name = host.Name := rfl
      simp [setHostSpec, Client.Update, hupd, hn, hm, h] at hok
  have hst := (Update_stored c (hostSpecFor host machine config) hupd hstored).2
  refine ⟨hostSpecFor host machine config, _, hst, rfl, rfl, ?_⟩
  simp only [consumerRefMatches, ne_eq, not_true_eq_false, if_false]
  constructor
  · intro h
    by_contra hk
    have hk' : ¬ ("Machine" = machine.Kind) := fun e => hk e.symm
    simp [hk'] at h
  · intro h
    simp [h]

/-- C21: on the machine of `TestSetHostSpec`, which has no type metadata, `setHostSpec`
succeeds and stores the consumer reference of kind `Machine`, and `consumerRefMatches` does
not match this reference with the machine; on the next tick `chooseHost` does not find the
host again, and `Delete` of the machine, annotated with the host, returns nil and leaves the
host claimed. -/
theorem setHostSpec_consumerRef_mismatch :
    (setHostSpec { hosts := [hostFree] } hostFree machineWithoutKind sampleConfig).2 = none ∧
    ((setHostSpec { hosts := [hostFree] } hostFree machineWithoutKind sampleConfig).1.hosts.map
        fun h => h.Spec.ConsumerRef) =
      [some { Kind := "Machine", Name := "machine1", Namespace := "myns", APIVersion := "" }] ∧
    consumerRefMatches
      { Kind := "Machine", Name := "machine1", Namespace := "myns", APIVersion := "" }
      machineWithoutKind = false ∧
    chooseHost sampleLib
        (setHostSpec { hosts := [hostFree] } hostFree machineWithoutKind sampleConfig).1
        machineWithoutKind sampleConfig = .noHost ∧
    Delete (setHostSpec { hosts := [hostFree] } hostFree machineWithoutKind sampleConfig).1
        { machineWithoutKind with Annotations := [( HostAnnotation, "myns/host2")] } =
      ((setHostSpec { hosts := [hostFree] } hostFree machineWithoutKind sampleConfig).1,
        none) := by
  refine ⟨rfl, rfl, ?_, rfl, rfl⟩
  decide

/-! ## The addresses of a node -/

/-- The loop over the interfaces appends one internal address per interface, in order. -/
theorem nicAddresses_eq (nics : List NIC) :
    ∀ addrs : List NodeAddress,
      nicAddresses nics addrs =
        addrs ++ nics.map fun nic => { Type_ := .NodeInternalIP, Address := nic.IP } := by
  induction nics with
  | nil => intro addrs; simp [nicAddresses]
  | cons nic rest ih =>
    intro addrs
    simp [nicAddresses, ih, List.append_assoc]

/-- C23: `nodeAddresses` never returns an error; it returns the empty list for a nil host
and for a host without hardware details; otherwise it returns one `InternalIP` address per
interface, in the order of the interfaces and with their IPs, followed, exactly when the
hostname is not empty, by a `HostName` and an `InternalDNS` address of the hostname; so the
length is the number of interfaces, plus two when the hostname is not empty. -/
theorem nodeAddresses_spec (host : Option BareMetalHost) :
    (nodeAddresses host).2 = none ∧
    (host = none → (nodeAddresses host).1 = []) ∧
    (∀ h, host = some h → h.Status.HardwareDetails = none → (nodeAddresses host).1 = []) ∧
    (∀ h details, host = some h → h.Status.HardwareDetails = some details →
      (details.Hostname ≠ "" →
        (nodeAddresses host).1 =
          (details.NIC.map fun nic => { Type_ := .NodeInternalIP, Address := nic.IP }) ++
            [{ Type_ := .NodeHostName, Address := details.Hostname },
             { Type_ := .NodeInternalDNS, Address := details.Hostname }] ∧
        (nodeAddresses host).1.length = details.NIC.length + 2) ∧
      (details.Hostname = "" →
        (nodeAddresses host).1 =
          (details.NIC.map fun nic => { Type_ := .NodeInternalIP, Address := nic.IP }) ∧
        (nodeAddresses host).1.length = details.NIC.length)) := by
  refine ⟨?_, ?_, ?_, ?_⟩
  · cases host with
    | none => rfl
    | some h =>
      cases hd : h.Status.HardwareDetails with
      | none => simp [nodeAddresses, hd]
      | some details => simp [nodeAddresses, hd]
  · intro hn
    subst hn
    rfl
  · intro h hh hd
    subst hh
    simp [nodeAddresses, hd]
  · intro h details hh hd
    subst hh
    constructor
    · intro hname
      have e : (nodeAddresses (some h)).1 =
          (details.NIC.map fun nic => { Type_ := .NodeInternalIP, Address := nic.IP }) ++
            [{ Type_ := .NodeHostName, Address := details.Hostname },
             { Type_ := .NodeInternalDNS, Address := details.Hostname }] := by
        simp [nodeAddresses, hd, hname, nicAddresses_eq]
      exact ⟨e, by rw [e]; simp⟩
    · intro hname
      have e : (nodeAddresses (some h)).1 =
          (details.NIC.map fun nic => { Type_ := .NodeInternalIP, Address := nic.IP }) := by
        simp [nodeAddresses, hd, hname, nicAddresses_eq]
      exact ⟨e, by rw [e]; simp⟩

/-- An instance of the preceding theorem: a host with two interfaces and a hostname has
four addresses. -/
theorem nodeAddresses_spec_witness :
    (nodeAddresses (some hostTwoNICs)).1 =
      [{ Type_ := .NodeInternalIP, Address := "192.168.1.1" },
       { Type_ := .NodeInternalIP, Address := "172.0.20.2" },
       { Type_ := .NodeHostName, Address := "mygreathost" },
       { Type_ := .NodeInternalDNS, Address := "mygreathost" }] ∧
    (nodeAddresses (some hostTwoNICs)).1.length = 2 + 2 :=
  ⟨rfl,
    (((nodeAddresses_spec (some hostTwoNICs)).2.2.2 hostTwoNICs
      { NIC := [{ IP := "192.168.1.1" }, { IP := "172.0.20.2" }], Hostname := "mygreathost" }
      rfl rfl).1 (by decide)).2⟩

/-! ## The terminal states of the remediation -/

theorem lookupStr_strDelete_ne (m : List (String × String)) (k k' : String) (hne : k' ≠ k) :
    lookupStr (strDelete m k) k' = lookupStr m k' := by
  induction m with
  | nil => rfl
  | cons p rest ih =>
    obtain ⟨a, b⟩ := p
    unfold strDelete at ih ⊢
    by_cases h : a = k
    · have hk : ¬ (k = k') := fun e => hne e.symm
      simp [List.filter, h, lookupStr, hk, ih]
    · simp [List.filter, h, lookupStr, ih]

theorem lookupStr_strSet_ne (m : List (String × String)) (k k' v : String) (hne : k' ≠ k) :
    lookupStr (strSet m k v) k' = lookupStr m k' := by
  induction m with
  | nil =>
    have hk : ¬ (k = k') := fun e => hne e.symm
    simp [strSet, lookupStr, hk]
  | cons p rest ih =>
    obtain ⟨a, b⟩ := p
    by_cases h : a = k
    · have hk : ¬ (k = k') := fun e => hne e.symm
      simp [strSet, h, lookupStr, hk]
    · simp [strSet, h, lookupStr, ih]

/-- A node read under a key is stored under its own key. -/
theorem GetNode_ok (c : Cluster) (ns name : String) (node : Node)
    (h : c.GetNode ns name = .ok node) :
    c.nodes.any (nodeKey node.Namespace node.Name) = true := by
  unfold Cluster.GetNode at h
  cases hf : c.fails .getNode with
  | some e => simp [hf] at h
  | none =>
    simp only [hf] at h
    have hfind := (getBy_ok_iff _ _ _).mp h
    have hkey := List.find?_some hfind
    simp only [nodeKey, Bool.and_eq_true, decide_eq_true_eq] at hkey
    rw [hkey.1, hkey.2]
    exact any_of_find _ _ _ hfind

/-- C28: `Reboot` on a record in state Succeeded deletes the record and writes nothing else;
on a record in state Failed it returns nil and writes nothing when the node reference of the
machine or the node is missing, writes nothing when the node lacks the reboot annotation,
and otherwise stores the node with the reboot annotation removed and its other annotations
as they were, the record and every other object being left as they are. -/
theorem Reboot_terminal (c : Cluster) (mr : MachineRemediation) (machine : Machine)
    (bmh : BareMetalHost) (now : Int)
    (hm : c.GetMachine mr.Namespace mr.MachineName = .ok machine)
    (hh : getBareMetalHostByMachine c machine = .ok bmh) :
    (mr.State = .RemediationStateSucceeded → c.fails .deleteRemediation = none →
      c.remediations.any (remediationKey mr.Namespace mr.Name) = true →
      Reboot c mr now =
        ({ c with
            remediations :=
              c.remediations.filter fun r => !remediationKey mr.Namespace mr.Name r },
          .returned none)) ∧
    (mr.State = .RemediationStateFailed →
      (machine.NodeRef = none → Reboot c mr now = (c, .returned none)) ∧
      (∀ nodeRef, machine.NodeRef = some nodeRef → c.fails .getNode = none →
        c.nodes.find? (nodeKey nodeRef.Namespace nodeRef.Name) = none →
        Reboot c mr now = (c, .returned none)) ∧
      (∀ nodeRef node, machine.NodeRef = some nodeRef →
        c.GetNode nodeRef.Namespace nodeRef.Name = .ok node →
        (lookupStr node.Annotations AnnotationNodeMachineReboot = none →
          Reboot c mr now = (c, .returned none)) ∧
        (lookupStr node.Annotations AnnotationNodeMachineReboot ≠ none →
          c.fails .updateNode = none →
          Reboot c mr now =
            ({ c with
                nodes := replaceBy (nodeKey node.Namespace node.Name)
                  { node with
                    Annotations := strDelete node.Annotations AnnotationNodeMachineReboot }
                  c.nodes },
              .returned none) ∧
          lookupStr (strDelete node.Annotations AnnotationNodeMachineReboot)
            AnnotationNodeMachineReboot = none ∧
          ∀ k, k ≠ AnnotationNodeMachineReboot →
            lookupStr (strDelete node.Annotations AnnotationNodeMachineReboot) k =
              lookupStr node.Annotations k))) := by
  refine ⟨?_, ?_⟩
  · intro hs hf hany
    simp only [Reboot, hm, hh, hs, Cluster.DeleteRemediation, hf, hany, if_true]
  · intro hs
    refine ⟨?_, ?_, ?_⟩
    · intro href
      simp [Reboot, hm, hh, hs, rebootFailed, getNodeByMachine, href]
    · intro nodeRef href hfg hfind
      simp [Reboot, hm, hh, hs, rebootFailed, getNodeByMachine, href, Cluster.GetNode, hfg,
        getBy, hfind, notFoundError]
    · intro nodeRef node href hget
      refine ⟨?_, ?_⟩
      · intro hann
        simp [Reboot, hm, hh, hs, rebootFailed, getNodeByMachine, href, hget,
          removeNodeRebootAnnotation, hann]
      · intro hann hfu
        have hany := GetNode_ok c _ _ node hget
        refine ⟨?_, lookupStr_strDelete_self _ _, fun k hk => lookupStr_strDelete_ne _ _ _ hk⟩
        cases hv : lookupStr node.Annotations AnnotationNodeMachineReboot with
        | none => exact absurd hv hann
        | some v =>
          simp only [Reboot, hm, hh, hs, rebootFailed, getNodeByMachine, href, hget,
            removeNodeRebootAnnotation, hv, Cluster.UpdateNode, hfu, hany, if_true]

/-- An instance of the preceding theorem: the failed record of the machine on `nodeOnline`:
the node loses the reboot annotation and keeps its machine annotation. -/
theorem Reboot_terminal_witness :
    (Reboot (sampleCluster bareMetalHostOnline (remediationIn .RemediationStateFailed))
        (remediationIn .RemediationStateFailed) 7).1.nodes =
      [{ nodeOnline with
          Annotations := [(AnnotationMachine, "openshift-machine-api/machineOnline")] },
        nodeNotReady] ∧
    (Reboot (sampleCluster bareMetalHostOnline (remediationIn .RemediationStateFailed))
        (remediationIn .RemediationStateFailed) 7).1.remediations =
      [remediationIn .RemediationStateFailed] ∧
    Reboot (sampleCluster bareMetalHostOnline (remediationIn .RemediationStateFailed))
        (remediationIn .RemediationStateFailed) 7 =
      ({ sampleCluster bareMetalHostOnline (remediationIn .RemediationStateFailed) with
          nodes := replaceBy (nodeKey nodeOnline.Namespace nodeOnline.Name)
            { nodeOnline with
              Annotations := strDelete nodeOnline.Annotations AnnotationNodeMachineReboot }
            (sampleCluster bareMetalHostOnline (remediationIn .RemediationStateFailed)).nodes },
        .returned none) :=
  ⟨rfl, rfl,
    ((((Reboot_terminal
      (sampleCluster bareMetalHostOnline (remediationIn .RemediationStateFailed))
      (remediationIn .RemediationStateFailed) (machineOnNode "nodeOnline") bareMetalHostOnline 7
      rfl rfl).2 rfl).2.2
      { Kind := "", Name := "nodeOnline", Namespace := "", APIVersion := "" } nodeOnline
      rfl rfl).2 (by decide) rfl).1⟩

/-! ## What a tick writes to the hosts -/

theorem returnStatusUpdate_hosts (c : Cluster) (mrCopy : MachineRemediation) :
    (returnStatusUpdate c mrCopy).1.hosts = c.hosts := by
  unfold returnStatusUpdate Cluster.UpdateRemediationStatus
  cases c.fails .updateRemediationStatus with
  | some e => rfl
  | none =>
    by_cases h : c.remediations.any (remediationKey mrCopy.Namespace mrCopy.Name) = true
    · simp [h]
    · simp [h]

theorem deleteMachineNode_hosts (c : Cluster) (machine : Machine) :
    (deleteMachineNode c machine).1.hosts = c.hosts := by
  unfold deleteMachineNode
  cases getNodeByMachine c machine with
  | error err => by_cases h : err.notFound = true <;> simp [h]
  | ok node =>
    simp only [Cluster.DeleteNode]
    cases c.fails .deleteNode with
    | some e => rfl
    | none =>
      by_cases h : c.nodes.any (nodeKey node.Namespace node.Name) = true
      · simp [h]
      · simp [h]

theorem rebootFailed_hosts (c : Cluster) (machine : Machine) :
    (rebootFailed c machine).1.hosts = c.hosts := by
  unfold rebootFailed
  cases getNodeByMachine c machine with
  | error err => by_cases h : err.notFound = true <;> simp [h]
  | ok node =>
    simp only [ removeNodeRebootAnnotation]
    cases lookupStr node.Annotations AnnotationNodeMachineReboot with
    | none => rfl
    | some v =>
      simp only [Cluster.UpdateNode]
      cases c.fails .updateNode with
      | some e => rfl
      | none =>
        by_cases h : c.nodes.any (nodeKey node.Namespace node.Name) = true
        · simp [h]
        · simp [h]

/-- An update of a host leaves the hosts or replaces the hosts of its key by it. -/
theorem UpdateHost_hosts (c : Cluster) (host : BareMetalHost) :
    (c.UpdateHost host).1.hosts = c.hosts ∨
    (c.UpdateHost host).1.hosts = replaceBy (hasKey host.Namespace host.Name) host c.hosts := by
  unfold Cluster.UpdateHost
  cases c.fails .updateHost with
  | some e => exact Or.inl rfl
  | none =>
    by_cases h : c.hosts.any (hasKey host.Namespace host.Name) = true
    · right
      simp [h]
    · left
      simp [h]

/-- The copy the case Started stores differs from the host in the power and the reboot
annotation only. -/
theorem poweredOffCopy_frame (bmh : BareMetalHost) :
    OnlyPowerChanged bmh (poweredOffCopy bmh) := by
  refine ⟨rfl, rfl, rfl, rfl, rfl, rfl, rfl, fun k hk => ?_⟩
  unfold poweredOffCopy
  by_cases h : isRebootInProgress bmh = true
  · simp [h]
  · have h' : isRebootInProgress bmh = false := by simpa using h
    simp only [h', Bool.not_false, if_true]
    exact lookupStr_strSet_ne _ _ _ _ hk

/-- The copy the case PowerOff stores differs from the host in the power and the reboot
annotation only. -/
theorem poweredOnCopy_frame (bmh : BareMetalHost) :
    OnlyPowerChanged bmh (poweredOnCopy bmh) :=
  ⟨rfl, rfl, rfl, rfl, rfl, rfl, rfl, fun _ hk => lookupStr_strDelete_ne _ _ _ hk⟩

theorem rebootStarted_hosts (c : Cluster) (mr : MachineRemediation) (bmh : BareMetalHost)
    (now : Int) :
    (rebootStarted c mr bmh now).1.hosts = c.hosts ∨
    (rebootStarted c mr bmh now).1.hosts =
      replaceBy (hasKey bmh.Namespace bmh.Name) (poweredOffCopy bmh) c.hosts := by
  unfold rebootStarted
  split
  · left
    rw [returnStatusUpdate_hosts]
    rfl
  · have hu := UpdateHost_hosts c (poweredOffCopy bmh)
    split
    · rename_i c1 err heq
      rw [heq] at hu
      exact hu
    · rename_i c1 heq
      rw [heq] at hu
      rw [returnStatusUpdate_hosts]
      exact hu

theorem rebootPowerOff_hosts (c : Cluster) (mr : MachineRemediation) (machine : Machine)
    (bmh : BareMetalHost) (now : Int) :
    (rebootPowerOff c mr machine bmh now).1.hosts = c.hosts ∨
    (rebootPowerOff c mr machine bmh now).1.hosts =
      replaceBy (hasKey bmh.Namespace bmh.Name) (poweredOnCopy bmh) c.hosts := by
  unfold rebootPowerOff
  split
  · left; rfl
  · split
    · left
      unfold rebootTimedOut
      rw [returnStatusUpdate_hosts]
      rfl
    · split
      · left; rfl
      · have hd := deleteMachineNode_hosts c machine
        split
        · rename_i c1 err heq
          rw [heq] at hd
          left
          exact hd
        · rename_i c1 heq
          rw [heq] at hd
          have hu := UpdateHost_hosts c1 (poweredOnCopy bmh)
          simp only [] at hd
          rw [hd] at hu
          split
          · rename_i c2 err heq2
            rw [heq2] at hu
            exact hu
          · rename_i c2 heq2
            rw [heq2] at hu
            rw [returnStatusUpdate_hosts]
            exact hu

theorem rebootPowerOn_hosts (c : Cluster) (mr : MachineRemediation) (machine : Machine)
    (now : Int) : (rebootPowerOn c mr machine now).1.hosts = c.hosts := by
  unfold rebootPowerOn
  split
  · rfl
  · split
    · unfold rebootTimedOut
      rw [returnStatusUpdate_hosts]
      rfl
    · split
      · split <;> rfl
      · split
        · rw [returnStatusUpdate_hosts]
          rfl
        · rfl

/-- C29: a tick of `Reboot`, in every state and branch and with any client, leaves the
stored hosts as they are or replaces the host it read at its start by a host that differs
from it in `Spec.Online` and the annotation `rebootInProgress` at most: name, namespace,
labels, status, image, user data, consumer reference and every other annotation are those of
the host read. -/
theorem Reboot_host_frame (c : Cluster) (mr : MachineRemediation) (now : Int) :
    (Reboot c mr now).1.hosts = c.hosts ∨
    ∃ machine bmh new,
      c.GetMachine mr.Namespace mr.MachineName = .ok machine ∧
      getBareMetalHostByMachine c machine = .ok bmh ∧
      (Reboot c mr now).1.hosts = replaceBy (hasKey bmh.Namespace bmh.Name) new c.hosts ∧
      OnlyPowerChanged bmh new := by
  cases hm : c.GetMachine mr.Namespace mr.MachineName with
  | error err => left; simp [Reboot, hm]
  | ok machine =>
    cases hh : getBareMetalHostByMachine c machine with
    | error err => left; simp [Reboot, hm, hh]
    | ok bmh =>
      cases hs : mr.State with
      | RemediationStateUnset => left; simp [Reboot, hm, hh, hs]
      | RemediationStateStarted =>
        have e : Reboot c mr now = rebootStarted c mr bmh now := by
          simp only [Reboot, hm, hh, hs]
        rw [e]
        rcases rebootStarted_hosts c mr bmh now with h | h
        · exact Or.inl h
        · exact Or.inr ⟨machine, bmh, poweredOffCopy bmh, rfl, hh, h, poweredOffCopy_frame bmh⟩
      | RemediationStatePowerOff =>
        have e : Reboot c mr now = rebootPowerOff c mr machine bmh now := by
          simp only [Reboot, hm, hh, hs]
        rw [e]
        rcases rebootPowerOff_hosts c mr machine bmh now with h | h
        · exact Or.inl h
        · exact Or.inr ⟨machine, bmh, poweredOnCopy bmh, rfl, hh, h, poweredOnCopy_frame bmh⟩
      | RemediationStatePowerOn =>
        left
        have e : Reboot c mr now = rebootPowerOn c mr machine now := by
          simp only [Reboot, hm, hh, hs]
        rw [e]
        exact rebootPowerOn_hosts c mr machine now
      | RemediationStateSucceeded =>
        left
        simp only [Reboot, hm, hh, hs, Cluster.DeleteRemediation]
        cases c.fails .deleteRemediation with
        | some e => rfl
        | none =>
          by_cases h : c.remediations.any (remediationKey mr.Namespace mr.Name) = true
          · simp [h]
          · simp [h]
      | RemediationStateFailed =>
        left
        have e : Reboot c mr now = rebootFailed c machine := by
          simp only [Reboot, hm, hh, hs]
        rw [e]
        exact rebootFailed_hosts c machine

/-- An instance of the preceding theorem: the tick on a started record
stores the online host powered off with the reboot annotation, its other fields being those
it had. -/
theorem Reboot_host_frame_witness :
    (Reboot (sampleCluster bareMetalHostOnline (remediationIn .RemediationStateStarted))
        (remediationIn .RemediationStateStarted) 7).1.hosts =
      [{ bareMetalHostOnline with
          Annotations := [(AnnotationRebootInProgress, "true")]
          Spec := { Online := false } }] ∧
    ((Reboot (sampleCluster bareMetalHostOnline (remediationIn .RemediationStateStarted))
        (remediationIn .RemediationStateStarted) 7).1.hosts =
        (sampleCluster bareMetalHostOnline (remediationIn .RemediationStateStarted)).hosts ∨
      ∃ machine bmh new,
        (sampleCluster bareMetalHostOnline (remediationIn .RemediationStateStarted)).GetMachine
          (remediationIn .RemediationStateStarted).Namespace
          (remediationIn .RemediationStateStarted).MachineName = .ok machine ∧
        getBareMetalHostByMachine
          (sampleCluster bareMetalHostOnline (remediationIn .RemediationStateStarted))
          machine = .ok bmh ∧
        (Reboot (sampleCluster bareMetalHostOnline (remediationIn .RemediationStateStarted))
          (remediationIn .RemediationStateStarted) 7).1.hosts =
          replaceBy (hasKey bmh.Namespace bmh.Name) new
            (sampleCluster bareMetalHostOnline
              (remediationIn .RemediationStateStarted)).hosts ∧
        OnlyPowerChanged bmh new) :=
  ⟨rfl,
    Reboot_host_frame (sampleCluster bareMetalHostOnline (remediationIn .RemediationStateStarted))
      (remediationIn .RemediationStateStarted) 7⟩

/-! ## Nulls and nested values in the merger -/

/-- C26: the merge panics on a null: with the document the text `runcmd:` decodes to as
base and a document with a sequence under `runcmd` as overlay, and with the two exchanged,
`mergeCloudInitMaps` neither returns a document nor an error: `reflect.TypeOf(nil).Kind()`
dereferences a nil type. -/
theorem mergeCloudInitMaps_null_panics :
    mergeCloudInitMaps nullBase runcmdOverlay = .panicked ∧
    mergeCloudInitMaps runcmdOverlay nullBase = .panicked ∧
    (∀ out, mergeCloudInitMaps nullBase runcmdOverlay ≠ .ok out) ∧
    (∀ e, mergeCloudInitMaps nullBase runcmdOverlay ≠ .error e) :=
  ⟨rfl, rfl, fun _ h => (by cases h), fun _ h => (by cases h)⟩

/-- When the loop of `mergeMap` succeeds, its result is the map built so far followed by
the second map, and the two share no key. -/
theorem mergeMapLoop_ok (m2 : List (MapKey × Value)) :
    ∀ (out : List (MapKey × Value)) (v : Value), mergeMapLoop out m2 = .ok v →
      v = .map (out ++ m2) ∧ ¬ SharesKey out m2 := by
  induction m2 with
  | nil =>
    intro out v h
    simp only [mergeMapLoop, Result.ok.injEq] at h
    refine ⟨by simp [← h], ?_⟩
    rintro ⟨k1, k2, _, hk, _⟩
    simp [keys] at hk
  | cons p rest ih =>
    obtain ⟨k, x⟩ := p
    intro out v h
    unfold mergeMapLoop at h
    cases hget : keyGet out k with
    | some y => simp [hget] at h
    | none =>
      simp only [hget] at h
      have hnone := (keyGet_eq_none_iff out k).mp hget
      rw [keySet_of_none out k x hget] at h
      obtain ⟨hv, hsh⟩ := ih _ _ h
      refine ⟨by simp [hv, List.append_assoc], ?_⟩
      rintro ⟨k1, k2, hk1, hk2, he⟩
      simp only [keys, List.map_cons, List.mem_cons] at hk2
      rcases hk2 with rfl | hk2
      · rw [hnone k1 hk1] at he
        cases he
      · exact hsh ⟨k1, k2, by simp only [keys, List.map_append, List.mem_append]; exact Or.inl hk1,
          by simpa [keys] using hk2, he⟩

/-- When the merge of the two values of a key succeeds, both are sequences and the result is
the first followed by the second, or both are mappings without a common key and the result
is the first followed by the second. -/
theorem mergeValues_ok (key : String) (v1 v2 v : Value) (h : mergeValues key v1 v2 = .ok v) :
    (∃ l1 l2, v1 = .seq l1 ∧ v2 = .seq l2 ∧ v = .seq (l1 ++ l2)) ∨
    (∃ m1 m2, v1 = .map m1 ∧ v2 = .map m2 ∧ v = .map (m1 ++ m2) ∧ ¬ SharesKey m1 m2) := by
  cases v1 with
  | null => simp [mergeValues, Value.kind] at h
  | scalar s1 =>
    cases v2 with
    | null => cases s1 <;> simp [mergeValues, Value.kind] at h
    | scalar s2 =>
      cases s1 <;> cases s2 <;> simp [mergeValues, Value.kind] at h
    | seq l2 => cases s1 <;> simp [mergeValues, Value.kind] at h
    | map m2 => cases s1 <;> simp [mergeValues, Value.kind] at h
  | seq l1 =>
    cases v2 with
    | null => simp [mergeValues, Value.kind] at h
    | scalar s2 => cases s2 <;> simp [mergeValues, Value.kind] at h
    | seq l2 =>
      left
      simp [mergeValues, Value.kind, mergeList] at h
      exact ⟨l1, l2, rfl, rfl, h.symm⟩
    | map m2 => simp [mergeValues, Value.kind] at h
  | map m1 =>
    cases v2 with
    | null => simp [mergeValues, Value.kind] at h
    | scalar s2 => cases s2 <;> simp [mergeValues, Value.kind] at h
    | seq l2 => simp [mergeValues, Value.kind] at h
    | map m2 =>
      right
      simp only [mergeValues, Value.kind, ne_eq, not_true_eq_false, if_false, mergeMap] at h
      cases hm : mergeMapLoop m1 m2 with
      | panicked => simp [hm] at h
      | error e => simp [hm] at h
      | ok w =>
        simp only [hm, Result.ok.injEq] at h
        obtain ⟨hw, hsh⟩ := mergeMapLoop_ok m2 m1 w hm
        exact ⟨m1, m2, rfl, rfl, by rw [← h, hw], hsh⟩

/-- The value a successful merge holds for a key of the first document: the value of the
first document if the second lacks the key, the merge of the two values otherwise. -/
theorem mergeCloudInitMaps_get_left (d1 d2 out : Doc) (k : String) (v1 : Value)
    (hk : (keys d1).Nodup) (hok : mergeCloudInitMaps d1 d2 = .ok out)
    (h1 : mapGet d1 k = some v1) :
    (mapGet d2 k = none → mapGet out k = some v1) ∧
    (∀ v2, mapGet d2 k = some v2 →
      ∃ v, mergeValues k v1 v2 = .ok v ∧ mapGet out k = some v) := by
  unfold mergeCloudInitMaps at hok
  cases hres : mergeLoop1 d2 d1 [] with
  | panicked => simp [hres] at hok
  | error e => simp [hres] at hok
  | ok res =>
    simp only [hres, Result.ok.injEq] at hok
    have hmem := mem_of_mapGet d1 k _ h1
    have hin := (mapGet_isSome_iff d1 k).mp ⟨_, h1⟩
    have hl := mergeLoop1_get_of_mem d2 d1 [] res k v1 hk hmem hres
    have h2 := mergeLoop2_get_of_mem d1 d2 res k hin
    rw [← hok, h2]
    exact hl

/-- When the loop of `mergeMap` fails, its error is the duplicated-key error of a key of the
second map. -/
theorem mergeMapLoop_error (m2 : List (MapKey × Value)) :
    ∀ (out : List (MapKey × Value)) (e : MergeError), mergeMapLoop out m2 = .error e →
      ∃ k2, k2 ∈ keys m2 ∧ e = .duplicatedKey k2 := by
  induction m2 with
  | nil =>
    intro out e h
    simp [mergeMapLoop] at h
  | cons p rest ih =>
    obtain ⟨k, x⟩ := p
    intro out e h
    unfold mergeMapLoop at h
    cases hget : keyGet out k with
    | some y =>
      simp only [hget, Result.error.injEq] at h
      exact ⟨k, by simp [keys], h.symm⟩
    | none =>
      simp only [hget] at h
      obtain ⟨k2, hk2, he⟩ := ih _ _ h
      exact ⟨k2, by simp only [keys, List.map_cons, List.mem_cons]; exact Or.inr hk2, he⟩

/-- When the merge of two mappings under a key fails, its error is the error of that key
with the duplicated-key error of a key of the second mapping inside. -/
theorem mergeValues_error_map (key : String) (m1 m2 : List (MapKey × Value)) (e : MergeError)
    (h : mergeValues key (.map m1) (.map m2) = .error e) :
    ∃ k2, k2 ∈ keys m2 ∧ e = .errorMerging key (.duplicatedKey k2) := by
  simp only [mergeValues, Value.kind, ne_eq, not_true_eq_false, if_false, mergeMap] at h
  cases hm : mergeMapLoop m1 m2 with
  | panicked => simp [hm] at h
  | ok w => simp [hm] at h
  | error e' =>
    simp only [hm, Result.error.injEq] at h
    obtain ⟨k2, hk2, he⟩ := mergeMapLoop_error m2 m1 e' hm
    exact ⟨k2, hk2, by rw [← h, he]⟩

/-- When the first loop of `mergeCloudInitMaps` fails, its error is the error of the merge of
the two values of a key it visits. -/
theorem mergeLoop1_error (d2 : Doc) (rest : Doc) :
    ∀ (out : Doc) (e : MergeError), mergeLoop1 d2 rest out = .error e →
      ∃ k v1 v2, (k, v1) ∈ rest ∧ mapGet d2 k = some v2 ∧ mergeValues k v1 v2 = .error e := by
  induction rest with
  | nil =>
    intro out e h
    simp [mergeLoop1] at h
  | cons p rest ih =>
    obtain ⟨k, v1⟩ := p
    intro out e h
    unfold mergeLoop1 at h
    cases hget : mapGet d2 k with
    | none =>
      simp only [hget] at h
      obtain ⟨k', a, b, hm, hg, he⟩ := ih _ _ h
      exact ⟨k', a, b, List.mem_cons_of_mem _ hm, hg, he⟩
    | some v2 =>
      simp only [hget] at h
      cases hres : mergeValues k v1 v2 with
      | panicked => simp [hres] at h
      | error e' =>
        simp only [hres, Result.error.injEq] at h
        exact ⟨k, v1, v2, List.mem_cons_self _ _, hget, by rw [hres, h]⟩
      | ok v =>
        simp only [hres] at h
        obtain ⟨k', a, b, hm, hg, he⟩ := ih _ _ h
        exact ⟨k', a, b, List.mem_cons_of_mem _ hm, hg, he⟩

/-- C24, as the code has it: the merge rules are applied to the keys of the two documents
only, not inside their values.  When a key holds mappings on both sides and the two inner
mappings share a key, whatever the values of that key are, `mergeCloudInitMaps` does not
succeed; on documents without nulls it returns an error, which is the duplicated-key error
under this key or else the error of another key of the documents that conflicts.  When the
inner mappings share no key and no other key conflicts, it succeeds; and whenever it
succeeds, the inner mappings share no key and the key holds the entries of the first
followed by the entries of the second. -/
theorem mergeCloudInitMaps_nested (d1 d2 : Doc) (k : String) (m1 m2 : List (MapKey × Value))
    (hk1 : (keys d1).Nodup) (h1 : mapGet d1 k = some (.map m1))
    (h2 : mapGet d2 k = some (.map m2)) :
    (SharesKey m1 m2 → ∀ out, mergeCloudInitMaps d1 d2 ≠ .ok out) ∧
    (SharesKey m1 m2 → noNulls d1 = true → noNulls d2 = true →
      innerKeysDistinct d2 = true →
      ∃ e, mergeCloudInitMaps d1 d2 = .error e ∧
        ((∃ k2, k2 ∈ keys m2 ∧ e = .errorMerging k (.duplicatedKey k2)) ∨
          ∃ k' v1 v2, k' ≠ k ∧ mapGet d1 k' = some v1 ∧ mapGet d2 k' = some v2 ∧
            Conflict v1 v2 ∧ mergeValues k' v1 v2 = .error e)) ∧
    (¬ SharesKey m1 m2 → noNulls d1 = true → noNulls d2 = true →
      innerKeysDistinct d2 = true →
      (∀ k' v1 v2, k' ≠ k → mapGet d1 k' = some v1 → mapGet d2 k' = some v2 →
        ¬ Conflict v1 v2) →
      ∃ out, mergeCloudInitMaps d1 d2 = .ok out ∧ mapGet out k = some (.map (m1 ++ m2))) ∧
    (∀ out, mergeCloudInitMaps d1 d2 = .ok out →
      ¬ SharesKey m1 m2 ∧ mapGet out k = some (.map (m1 ++ m2))) := by
  have hok : ∀ out, mergeCloudInitMaps d1 d2 = .ok out →
      ¬ SharesKey m1 m2 ∧ mapGet out k = some (.map (m1 ++ m2)) := by
    intro out ho
    obtain ⟨v, hv, hget⟩ := (mergeCloudInitMaps_get_left d1 d2 out k _ hk1 ho h1).2 _ h2
    rcases mergeValues_ok k _ _ v hv with ⟨l1, l2, e1, _, _⟩ | ⟨a, b, e1, e2, e3, hsh⟩
    · cases e1
    · cases e1
      cases e2
      exact ⟨hsh, by rw [hget, e3]⟩
  refine ⟨fun hsh out ho => (hok out ho).1 hsh, ?_, ?_, hok⟩
  · intro hsh hn1 hn2 hd2
    have hspec := (mergeLoop1_spec d2 hn2 hd2 d1 [] hn1).2
    obtain ⟨e, he⟩ := hspec.mpr ⟨k, .map m1, .map m2, mem_of_mapGet d1 k _ h1, h2,
      Or.inr (Or.inr ⟨m1, m2, rfl, rfl, hsh⟩)⟩
    refine ⟨e, by simp [mergeCloudInitMaps, he], ?_⟩
    obtain ⟨k', v1, v2, hm, hg, hv⟩ := mergeLoop1_error d2 d1 [] e he
    have hg1 : mapGet d1 k' = some v1 := mapGet_of_mem d1 k' v1 hk1 hm
    by_cases hkk : k' = k
    · left
      subst hkk
      rw [h1] at hg1
      rw [h2] at hg
      cases hg1
      cases hg
      exact mergeValues_error_map k' m1 m2 e hv
    · right
      have hv1 : v1 ≠ .null := noNulls_mem d1 hn1 k' v1 hm
      have hmem2 : (k', v2) ∈ d2 := mem_of_mapGet d2 k' v2 hg
      have hv2 : v2 ≠ .null := noNulls_mem d2 hn2 k' v2 hmem2
      have hdist : ∀ m, v2 = .map m → keysDistinct (keys m) = true := by
        intro m hmm
        subst hmm
        exact innerKeysDistinct_mem d2 hd2 k' m hmem2
      exact ⟨k', v1, v2, hkk, hg1, hg,
        (mergeValues_spec k' v1 v2 hv1 hv2 hdist).2.mp ⟨e, hv⟩, hv⟩
  · intro hsh hn1 hn2 hd2 hothers
    obtain ⟨hp, hiff⟩ := mergeLoop1_spec d2 hn2 hd2 d1 [] hn1
    have hnoerr : ¬ ∃ e, mergeLoop1 d2 d1 [] = .error e := by
      intro herr
      obtain ⟨k', v1, v2, hm, hg, hc⟩ := hiff.mp herr
      have hg1 : mapGet d1 k' = some v1 := mapGet_of_mem d1 k' v1 hk1 hm
      by_cases hkk : k' = k
      · subst hkk
        rw [h1] at hg1
        rw [h2] at hg
        cases hg1
        cases hg
        rcases hc with hc | hc | ⟨a, b, ea, eb, hs⟩
        · exact hc rfl
        · simp [Value.shape] at hc
        · cases ea
          cases eb
          exact hsh hs
      · exact hothers k' v1 v2 hkk hg1 hg hc
    cases hres : mergeLoop1 d2 d1 [] with
    | panicked => exact absurd hres hp
    | error e => exact absurd ⟨e, hres⟩ hnoerr
    | ok res =>
      have ho : mergeCloudInitMaps d1 d2 = .ok (mergeLoop2 d1 d2 res) := by
        simp [mergeCloudInitMaps, hres]
      exact ⟨_, ho, (hok _ ho).2⟩

/-- An instance of the preceding theorem: the inner mappings under `users` have the keys
`groups` and `shell`, and the merge holds both entries. -/
theorem mergeCloudInitMaps_nested_witness :
    (keys nestedBase).Nodup ∧
    mergeCloudInitMaps nestedBase nestedDisjoint =
      .ok [("users", .map [(.str "groups", .seq [.scalar (.str "wheel")]),
                           (.str "shell", .scalar (.str "/bin/sh"))])] ∧
    mapGet [("users", Value.map [(.str "groups", .seq [.scalar (.str "wheel")]),
                                 (.str "shell", .scalar (.str "/bin/sh"))])] "users" =
      some (.map ([(.str "groups", .seq [.scalar (.str "wheel")])] ++
        [(.str "shell", .scalar (.str "/bin/sh"))])) :=
  ⟨by simp [keys, nestedBase], rfl,
    ((mergeCloudInitMaps_nested nestedBase nestedDisjoint "users"
      [(.str "groups", .seq [.scalar (.str "wheel")])]
      [(.str "shell", .scalar (.str "/bin/sh"))] (by simp [keys, nestedBase]) rfl rfl).2.2.2
      _ rfl).2⟩

/-- C24 as stated fails: both documents hold a mapping under `users`, and the two inner
mappings share the key `groups` with a sequence on both sides; the claim has the merge
succeed with the two sequences concatenated, and `mergeCloudInitMaps` returns the error of a
duplicated key. -/
theorem mergeCloudInitMaps_nested_counterexample :
    mapGet nestedBase "users" = some (.map [(.str "groups", .seq [.scalar (.str "wheel")])]) ∧
    mapGet nestedOverlay "users" =
      some (.map [(.str "groups", .seq [.scalar (.str "docker")])]) ∧
    mergeCloudInitMaps nestedBase nestedOverlay =
      .error (.errorMerging "users" (.duplicatedKey (.str "groups"))) ∧
    ¬ ∃ out, mergeCloudInitMaps nestedBase nestedOverlay = .ok out :=
  ⟨rfl, rfl, rfl, fun ⟨_, h⟩ => by cases h⟩

/-! ## The three-way merge -/

/-- For a key the first document lacks, the second loop ends with the value of the second
document if it has the key, and with the value of the output otherwise. -/
theorem mergeLoop2_get_of_not_mem (d1 : Doc) (rest : Doc) :
    ∀ (out : Doc) (k : String), k ∉ keys d1 → (keys rest).Nodup →
      mapGet (mergeLoop2 d1 rest out) k =
        match mapGet rest k with
        | some v => some v
        | none => mapGet out k := by
  induction rest with
  | nil => intro out k _ _; rfl
  | cons p rest ih =>
    obtain ⟨k2, v2⟩ := p
    intro out k hk hnd
    have hnd' : (keys rest).Nodup := by
      simp only [keys, List.map_cons, List.nodup_cons] at hnd
      exact hnd.2
    have hk2 : k2 ∉ keys rest := by
      simp only [keys, List.map_cons, List.nodup_cons] at hnd
      exact hnd.1
    unfold mergeLoop2
    cases hget : mapGet d1 k2 with
    | some w =>
      have hne : ¬ (k2 = k) := by
        intro e
        subst e
        exact hk ((mapGet_isSome_iff d1 k2).mp ⟨w, hget⟩)
      simp only [ih out k hk hnd', mapGet, hne, if_false]
    | none =>
      simp only [ih _ k hk hnd']
      by_cases hne : k2 = k
      · subst hne
        have hnone : mapGet rest k2 = none := (mapGet_eq_none_iff rest k2).mpr hk2
        simp [hnone, mapGet, mapGet_mapSet_self]
      · have hne' : k ≠ k2 := fun e => hne e.symm
        simp [mapGet, hne, mapGet_mapSet_ne out k2 k v2 hne']

/-- The value a successful merge holds for a key the first document lacks: that of the
second document. -/
theorem mergeCloudInitMaps_get_right (d1 d2 out : Doc) (k : String)
    (hk2 : (keys d2).Nodup) (hok : mergeCloudInitMaps d1 d2 = .ok out)
    (h1 : mapGet d1 k = none) : mapGet out k = mapGet d2 k := by
  unfold mergeCloudInitMaps at hok
  cases hres : mergeLoop1 d2 d1 [] with
  | panicked => simp [hres] at hok
  | error e => simp [hres] at hok
  | ok res =>
    simp only [hres, Result.ok.injEq] at hok
    have hnot : k ∉ keys d1 := (mapGet_eq_none_iff d1 k).mp h1
    have hres' := mergeLoop1_get_of_not_mem d2 d1 [] res k hnot hres
    rw [← hok, mergeLoop2_get_of_not_mem d1 d2 res k hnot hk2, hres']
    cases mapGet d2 k <;> rfl

/-- C30: `mergeCloudInit` returns the line `#cloud-config` followed by the encoding of
`mergeCloudInitMaps P (mergeCloudInitMaps B A)`, where `B` is the parsed bootstrap data, `A`
the overlay to append and `P` the overlay to prepend, an absent overlay being skipped; so a
key holding sequences in all three holds the elements of `P`, then of `B`, then of `A`; and
an error of the parsing, of the fetching, of a merge or of the encoding is returned in the
place of an output. -/
theorem mergeCloudInit_spec (mgr : MachineManager) (yamlMarshal : Doc → Except String String)
    (text : String) (input : UserDataInput) :
    (∀ msg, mgr.yamlUnmarshal text = .error msg →
      mergeCloudInit mgr yamlMarshal text input = .error (.unmarshaling msg)) ∧
    (∀ B, mgr.yamlUnmarshal text = .ok B →
      (∀ refA refP A P, input.UserDataAppend = some refA → input.UserDataPrepend = some refP →
        fetchUserDataFromSecret mgr refA = .ok A → fetchUserDataFromSecret mgr refP = .ok P →
        (∀ X R y, mergeCloudInitMaps B A = .ok X → mergeCloudInitMaps P X = .ok R →
          yamlMarshal R = .ok y →
          mergeCloudInit mgr yamlMarshal text input = .ok ("#cloud-config\n" ++ y)) ∧
        (∀ X R msg, mergeCloudInitMaps B A = .ok X → mergeCloudInitMaps P X = .ok R →
          yamlMarshal R = .error msg →
          mergeCloudInit mgr yamlMarshal text input = .error (.marshaling msg)) ∧
        (∀ e, mergeCloudInitMaps B A = .error e →
          mergeCloudInit mgr yamlMarshal text input = .error e) ∧
        (∀ X e, mergeCloudInitMaps B A = .ok X → mergeCloudInitMaps P X = .error e →
          mergeCloudInit mgr yamlMarshal text input = .error e) ∧
        (∀ X R k p b a, (keys B).Nodup → (keys P).Nodup →
          mergeCloudInitMaps B A = .ok X → mergeCloudInitMaps P X = .ok R →
          mapGet P k = some (.seq p) → mapGet B k = some (.seq b) →
          mapGet A k = some (.seq a) → mapGet R k = some (.seq (p ++ b ++ a)))) ∧
      (∀ refA A, input.UserDataAppend = some refA → input.UserDataPrepend = none →
        fetchUserDataFromSecret mgr refA = .ok A →
        ∀ X y, mergeCloudInitMaps B A = .ok X → yamlMarshal X = .ok y →
          mergeCloudInit mgr yamlMarshal text input = .ok ("#cloud-config\n" ++ y)) ∧
      (∀ refP P, input.UserDataAppend = none → input.UserDataPrepend = some refP →
        fetchUserDataFromSecret mgr refP = .ok P →
        ∀ R y, mergeCloudInitMaps P B = .ok R → yamlMarshal R = .ok y →
          mergeCloudInit mgr yamlMarshal text input = .ok ("#cloud-config\n" ++ y)) ∧
      (input.UserDataAppend = none → input.UserDataPrepend = none →
        ∀ y, yamlMarshal B = .ok y →
          mergeCloudInit mgr yamlMarshal text input = .ok ("#cloud-config\n" ++ y)) ∧
      (∀ refA e, input.UserDataAppend = some refA →
        fetchUserDataFromSecret mgr refA = .error e →
        mergeCloudInit mgr yamlMarshal text input = .error e) ∧
      (∀ refP e X, input.UserDataPrepend = some refP →
        mergeCloudInitWrapper mgr input.UserDataAppend B false = .ok X →
        fetchUserDataFromSecret mgr refP = .error e →
        mergeCloudInit mgr yamlMarshal text input = .error e)) := by
  refine ⟨?_, ?_⟩
  · intro msg hp
    simp [mergeCloudInit, unmarshal, hp]
  · intro B hB
    have hu : unmarshal mgr text = .ok B := by simp [unmarshal, hB]
    refine ⟨?_, ?_, ?_, ?_, ?_, ?_⟩
    · intro refA refP A P ha hp hfa hfp
      refine ⟨?_, ?_, ?_, ?_, ?_⟩
      · intro X R y h1 h2 hy
        simp [mergeCloudInit, hu, ha, hp, mergeCloudInitWrapper, hfa, hfp, h1, h2, hy]
      · intro X R msg h1 h2 hy
        simp [mergeCloudInit, hu, ha, hp, mergeCloudInitWrapper, hfa, hfp, h1, h2, hy]
      · intro e h1
        simp [mergeCloudInit, hu, ha, hp, mergeCloudInitWrapper, hfa, hfp, h1]
      · intro X e h1 h2
        simp [mergeCloudInit, hu, ha, hp, mergeCloudInitWrapper, hfa, hfp, h1, h2]
      · intro X R k p b a hkB hkP h1 h2 hP hBk hA
        obtain ⟨v, hv, hX⟩ := (mergeCloudInitMaps_get_left B A X k _ hkB h1 hBk).2 _ hA
        have hv' : v = .seq (b ++ a) := by
          simp [mergeValues, Value.kind, mergeList] at hv
          exact hv.symm
        rw [hv'] at hX
        obtain ⟨w, hw, hR⟩ := (mergeCloudInitMaps_get_left P X R k _ hkP h2 hP).2 _ hX
        have hw' : w = .seq (p ++ (b ++ a)) := by
          simp [mergeValues, Value.kind, mergeList] at hw
          exact hw.symm
        rw [hR, hw', List.append_assoc]
    · intro refA A ha hp hfa X y h1 hy
      simp [mergeCloudInit, hu, ha, hp, mergeCloudInitWrapper, hfa, h1, hy]
    · intro refP P ha hp hfp R y h2 hy
      simp [mergeCloudInit, hu, ha, hp, mergeCloudInitWrapper, hfp, h2, hy]
    · intro ha hp y hy
      simp [mergeCloudInit, hu, ha, hp, mergeCloudInitWrapper, hy]
    · intro refA e ha hfa
      simp [mergeCloudInit, hu, ha, mergeCloudInitWrapper, hfa]
    · intro refP e X hp hw hfp
      simp only [mergeCloudInit, hu, hw, hp]
      simp [mergeCloudInitWrapper, hfp]

/-- An instance of the preceding theorem: the three sample documents hold one package each,
and the merged document holds the package of the prepend overlay, of the base and of the
append overlay, in this order. -/
theorem mergeCloudInit_spec_witness :
    mergeCloudInitMaps packagesBase packagesAppend =
      .ok [("packages", .seq [.scalar (.str "b"), .scalar (.str "a")])] ∧
    mergeCloudInitMaps packagesPrepend
        [("packages", .seq [.scalar (.str "b"), .scalar (.str "a")])] =
      .ok [("packages", .seq [.scalar (.str "p"), .scalar (.str "b"), .scalar (.str "a")])] ∧
    mergeCloudInit packagesManager sampleMarshal "base"
        { Type_ := "cloud-init", UserDataAppend := some { Name := "append", Namespace := "" },
          UserDataPrepend := some { Name := "prepend", Namespace := "" } } =
      .ok ("#cloud-config\n" ++ "packages:\n") :=
  ⟨rfl, rfl,
    (((mergeCloudInit_spec packagesManager sampleMarshal "base"
      { Type_ := "cloud-init", UserDataAppend := some { Name := "append", Namespace := "" },
        UserDataPrepend := some { Name := "prepend", Namespace := "" } }).2 packagesBase rfl).1
      { Name := "append", Namespace := "" } { Name := "prepend", Namespace := "" }
      packagesAppend packagesPrepend rfl rfl rfl rfl).1 _ _ "packages:\n" rfl rfl rfl⟩

/-- C25, as the code has it: when the merge of `B` with `P` to prepend and `A` to append
and the merge of `B` with `A` to prepend and `P` to append both succeed, `P` and `A` may
have keys in common: such a key holds sequences in both, and then the two results hold
`P ++ B ++ A` and `A ++ B ++ P` for it (with nothing for `B` when it lacks the key), so that
results that agree on the key make these two sequences equal; or it holds mappings without
a common key in both. -/
theorem mergeCloudInitMaps_commute (B P A X Y r1 r2 : Doc)
    (hB : (keys B).Nodup) (hP : (keys P).Nodup) (hA : (keys A).Nodup)
    (h1 : mergeCloudInitMaps B A = .ok X) (h2 : mergeCloudInitMaps P X = .ok r1)
    (h3 : mergeCloudInitMaps B P = .ok Y) (h4 : mergeCloudInitMaps A Y = .ok r2)
    (k : String) (vp va : Value) (hp : mapGet P k = some vp) (ha : mapGet A k = some va) :
    (∃ p a b, vp = .seq p ∧ va = .seq a ∧
      (mapGet B k = some (.seq b) ∨ (mapGet B k = none ∧ b = [])) ∧
      mapGet r1 k = some (.seq (p ++ b ++ a)) ∧ mapGet r2 k = some (.seq (a ++ b ++ p)) ∧
      (mapGet r1 k = mapGet r2 k → p ++ b ++ a = a ++ b ++ p)) ∨
    (∃ mp ma, vp = .map mp ∧ va = .map ma ∧ ¬ SharesKey mp ma) := by
  have key : ∀ x y : Value, (∃ v, mergeValues k vp x = .ok v ∧ mapGet r1 k = some v) →
      (∃ v, mergeValues k va y = .ok v ∧ mapGet r2 k = some v) →
      ∀ b : List Value,
        ((∃ a0, va = .seq a0 ∧ x = .seq (b ++ a0)) ∨ (∃ mx, x = .map mx ∧
          ∀ ma, va = .map ma → ∀ key, key ∈ keys ma → key ∈ keys mx)) →
        ((∃ p0, vp = .seq p0 ∧ y = .seq (b ++ p0)) ∨ (∃ my, y = .map my)) →
        (mapGet B k = some (.seq b) ∨ (mapGet B k = none ∧ b = []) ∨ ∃ mx, x = .map mx) →
        (∃ p a b, vp = .seq p ∧ va = .seq a ∧
          (mapGet B k = some (.seq b) ∨ (mapGet B k = none ∧ b = [])) ∧
          mapGet r1 k = some (.seq (p ++ b ++ a)) ∧
          mapGet r2 k = some (.seq (a ++ b ++ p)) ∧
          (mapGet r1 k = mapGet r2 k → p ++ b ++ a = a ++ b ++ p)) ∨
        (∃ mp ma, vp = .map mp ∧ va = .map ma ∧ ¬ SharesKey mp ma) := by
    intro x y ⟨w, hw, hr1⟩ ⟨w', hw', hr2⟩ b hx hy hb
    rcases mergeValues_ok k vp x w hw with ⟨p, l2, e1, e2, e3⟩ | ⟨mp, m2, e1, e2, e3, hsh⟩
    · left
      rcases hx with ⟨a0, ea, ex⟩ | ⟨mx, ex, _⟩
      · rcases hy with ⟨p0, ep, ey⟩ | ⟨my, ey⟩
        · rcases mergeValues_ok k va y w' hw' with ⟨a1, l3, f1, f2, f3⟩ | ⟨_, _, f1, _, _, _⟩
          · subst e1 ea
            rw [ex] at e2
            cases e2
            cases ep
            rw [ey] at f2
            cases f2
            cases f1
            have hbb : mapGet B k = some (.seq b) ∨ (mapGet B k = none ∧ b = []) := by
              rcases hb with h | h | ⟨mx, h⟩
              · exact Or.inl h
              · exact Or.inr h
              · rw [ex] at h
                cases h
            have g1 : mapGet r1 k = some (.seq (p ++ b ++ a0)) := by
              rw [hr1, e3, List.append_assoc]
            have g2 : mapGet r2 k = some (.seq (a0 ++ b ++ p)) := by
              rw [hr2, f3, List.append_assoc]
            refine ⟨p, a0, b, rfl, rfl, hbb, g1, g2, ?_⟩
            intro hsame
            rw [g1, g2] at hsame
            exact Value.seq.inj (Option.some.inj hsame)
          · subst ea
            cases f1
        · rcases mergeValues_ok k va y w' hw' with ⟨a1, l3, f1, f2, f3⟩ | ⟨_, _, f1, _, _, _⟩
          · rw [ey] at f2
            cases f2
          · subst ea
            cases f1
      · rw [ex] at e2
        cases e2
    · right
      rcases hx with ⟨a0, ea, ex⟩ | ⟨mx, ex, hsub⟩
      · rw [ex] at e2
        cases e2
      · rcases mergeValues_ok k va y w' hw' with ⟨a1, l3, f1, f2, f3⟩ | ⟨ma, m3, f1, f2, f3, _⟩
        · rcases hy with ⟨p0, ep, ey⟩ | ⟨my, ey⟩
          · rw [ep] at e1
            cases e1
          · rw [ey] at f2
            cases f2
        · refine ⟨mp, ma, e1, f1, ?_⟩
          rintro ⟨k1, k2, hk1, hk2, he⟩
          rw [ex] at e2
          cases e2
          exact hsh ⟨k1, k2, hk1, hsub ma f1 k2 hk2, he⟩
  cases hb : mapGet B k with
  | none =>
    have hX : mapGet X k = some va := by
      rw [mergeCloudInitMaps_get_right B A X k hA h1 hb, ha]
    have hY : mapGet Y k = some vp := by
      rw [mergeCloudInitMaps_get_right B P Y k hP h3 hb, hp]
    have g1 := (mergeCloudInitMaps_get_left P X r1 k vp hP h2 hp).2 va hX
    have g2 := (mergeCloudInitMaps_get_left A Y r2 k va hA h4 ha).2 vp hY
    have hx : (∃ a0, va = .seq a0 ∧ va = .seq ([] ++ a0)) ∨ (∃ mx, va = .map mx ∧
        ∀ ma, va = .map ma → ∀ key, key ∈ keys ma → key ∈ keys mx) := by
      obtain ⟨w, hw, _⟩ := g1
      rcases mergeValues_ok k vp va w hw with ⟨p, l2, _, e2, _⟩ | ⟨mp, m2, _, e2, _, _⟩
      · exact Or.inl ⟨l2, e2, by simpa using e2⟩
      · refine Or.inr ⟨m2, e2, ?_⟩
        intro ma ema key hkey
        rw [e2] at ema
        cases ema
        exact hkey
    have hy : (∃ p0, vp = .seq p0 ∧ vp = .seq ([] ++ p0)) ∨ (∃ my, vp = .map my) := by
      obtain ⟨w, hw, _⟩ := g2
      rcases mergeValues_ok k va vp w hw with ⟨_, l2, _, e2, _⟩ | ⟨_, m2, _, e2, _, _⟩
      · exact Or.inl ⟨l2, e2, by simpa using e2⟩
      · exact Or.inr ⟨m2, e2⟩
    have := key va vp g1 g2 [] hx hy (Or.inr (Or.inl ⟨hb, rfl⟩))
    rw [hb] at this
    exact this
  | some vb =>
    obtain ⟨x, hvx, hX⟩ := (mergeCloudInitMaps_get_left B A X k vb hB h1 hb).2 va ha
    obtain ⟨y, hvy, hY⟩ := (mergeCloudInitMaps_get_left B P Y k vb hB h3 hb).2 vp hp
    have g1 := (mergeCloudInitMaps_get_left P X r1 k vp hP h2 hp).2 x hX
    have g2 := (mergeCloudInitMaps_get_left A Y r2 k va hA h4 ha).2 y hY
    rcases mergeValues_ok k vb va x hvx with ⟨b, a0, e1, e2, e3⟩ | ⟨mb, ma, e1, e2, e3, _⟩
    · have hy : (∃ p0, vp = .seq p0 ∧ y = .seq (b ++ p0)) ∨ (∃ my, y = .map my) := by
        rcases mergeValues_ok k vb vp y hvy with ⟨b', p0, f1, f2, f3⟩ | ⟨_, _, f1, _, _, _⟩
        · rw [e1] at f1
          cases f1
          exact Or.inl ⟨p0, f2, f3⟩
        · rw [e1] at f1
          cases f1
      have := key x y g1 g2 b (Or.inl ⟨a0, e2, e3⟩) hy (Or.inl (by rw [hb, e1]))
      rw [hb] at this
      exact this
    · have hx : (∃ a0, va = .seq a0 ∧ x = .seq ([] ++ a0)) ∨ (∃ mx, x = .map mx ∧
          ∀ ma, va = .map ma → ∀ key, key ∈ keys ma → key ∈ keys mx) := by
        refine Or.inr ⟨mb ++ ma, e3, ?_⟩
        intro ma' ema key hkey
        rw [e2] at ema
        cases ema
        simp only [keys, List.map_append, List.mem_append]
        exact Or.inr hkey
      have hy : (∃ p0, vp = .seq p0 ∧ y = .seq ([] ++ p0)) ∨ (∃ my, y = .map my) := by
        rcases mergeValues_ok k vb vp y hvy with ⟨b', p0, f1, f2, f3⟩ | ⟨_, _, _, _, f3, _⟩
        · rw [e1] at f1
          cases f1
        · exact Or.inr ⟨_, f3⟩
      have := key x y g1 g2 [] hx hy (Or.inr (Or.inr ⟨_, e3⟩))
      rw [hb] at this
      exact this

/-- An instance of the preceding theorem: the three sample documents share the key
`packages`, and the two orders give the packages `p, b, a` and `a, b, p`. -/
theorem mergeCloudInitMaps_commute_witness :
    (keys packagesBase).Nodup ∧ (keys packagesPrepend).Nodup ∧ (keys packagesAppend).Nodup ∧
    mergeCloudInitMaps packagesPrepend
        [("packages", .seq [.scalar (.str "b"), .scalar (.str "a")])] =
      .ok [("packages", .seq [.scalar (.str "p"), .scalar (.str "b"), .scalar (.str "a")])] ∧
    mergeCloudInitMaps packagesAppend
        [("packages", .seq [.scalar (.str "b"), .scalar (.str "p")])] =
      .ok [("packages", .seq [.scalar (.str "a"), .scalar (.str "b"), .scalar (.str "p")])] ∧
    ((∃ p a b, Value.seq [.scalar (.str "p")] = .seq p ∧
        Value.seq [.scalar (.str "a")] = .seq a ∧
        (mapGet packagesBase "packages" = some (.seq b) ∨
          (mapGet packagesBase "packages" = none ∧ b = [])) ∧
        mapGet [("packages", Value.seq [.scalar (.str "p"), .scalar (.str "b"),
            .scalar (.str "a")])] "packages" = some (.seq (p ++ b ++ a)) ∧
        mapGet [("packages", Value.seq [.scalar (.str "a"), .scalar (.str "b"),
            .scalar (.str "p")])] "packages" = some (.seq (a ++ b ++ p)) ∧
        (mapGet [("packages", Value.seq [.scalar (.str "p"), .scalar (.str "b"),
            .scalar (.str "a")])] "packages" =
          mapGet [("packages", Value.seq [.scalar (.str "a"), .scalar (.str "b"),
            .scalar (.str "p")])] "packages" → p ++ b ++ a = a ++ b ++ p)) ∨
      ∃ mp ma, Value.seq [.scalar (.str "p")] = .map mp ∧
        Value.seq [.scalar (.str "a")] = .map ma ∧ ¬ SharesKey mp ma) :=
  ⟨by simp [keys, packagesBase], by simp [keys, packagesPrepend],
    by simp [keys, packagesAppend], rfl, rfl,
    mergeCloudInitMaps_commute packagesBase packagesPrepend packagesAppend
      [("packages", .seq [.scalar (.str "b"), .scalar (.str "a")])]
      [("packages", .seq [.scalar (.str "b"), .scalar (.str "p")])]
      [("packages", .seq [.scalar (.str "p"), .scalar (.str "b"), .scalar (.str "a")])]
      [("packages", .seq [.scalar (.str "a"), .scalar (.str "b"), .scalar (.str "p")])]
      (by simp [keys, packagesBase]) (by simp [keys, packagesPrepend])
      (by simp [keys, packagesAppend]) rfl rfl rfl rfl "packages" _ _ rfl rfl⟩

/-- C25 as stated fails: with the base `hostnameBase`, the overlay `packagesTwice` and the
overlay `packagesAppend`, the merge succeeds in both orders of the overlays and gives the
same document, and the two overlays have the key `packages` in common. -/
theorem mergeCloudInitMaps_commute_counterexample :
    mergeCloudInitMaps hostnameBase packagesAppend =
      .ok [("hostname", .scalar (.str "node1")), ("packages", .seq [.scalar (.str "a")])] ∧
    mergeCloudInitMaps packagesTwice
        [("hostname", .scalar (.str "node1")), ("packages", .seq [.scalar (.str "a")])] =
      .ok [("packages", .seq [.scalar (.str "a"), .scalar (.str "a"), .scalar (.str "a")]),
           ("hostname", .scalar (.str "node1"))] ∧
    mergeCloudInitMaps hostnameBase packagesTwice =
      .ok [("hostname", .scalar (.str "node1")),
           ("packages", .seq [.scalar (.str "a"), .scalar (.str "a")])] ∧
    mergeCloudInitMaps packagesAppend
        [("hostname", .scalar (.str "node1")),
         ("packages", .seq [.scalar (.str "a"), .scalar (.str "a")])] =
      .ok [("packages", .seq [.scalar (.str "a"), .scalar (.str "a"), .scalar (.str "a")]),
           ("hostname", .scalar (.str "node1"))] ∧
    "packages" ∈ keys packagesTwice ∧ "packages" ∈ keys packagesAppend ∧
    ¬ (∀ k, k ∈ keys packagesTwice → k ∉ keys packagesAppend) := by
  refine ⟨rfl, rfl, rfl, rfl, by simp [keys, packagesTwice], by simp [keys, packagesAppend], ?_⟩
  intro h
  exact h "packages" (by simp [keys, packagesTwice]) (by simp [keys, packagesAppend])

/-! ## The provider ID -/

/-- For every cluster name and machine name `NewMachine` accepts, `ProviderID` is the text
`docker:////` followed by the cluster name, a hyphen and the machine name. -/
theorem ProviderID_eq (cluster machine : String) (image : Image) (m : baremetal.Machine)
    (h : baremetal.NewMachine cluster machine image true = .ok m) :
    m.ProviderID = "docker:////" ++ (cluster ++ "-" ++ machine) := by
  unfold baremetal.NewMachine at h
  by_cases hc : cluster = ""
  · simp [hc] at h
  · by_cases hm : machine = ""
    · simp [hc, hm] at h
    · simp only [hc, hm, if_false, Bool.true_eq_false, Except.ok.injEq] at h
      rw [← h]
      rfl

/-- A provider ID already set is kept by `reconcileNormal`, which returns nil then; and a
provider ID it sets is the one of the helper. -/
theorem reconcileNormal_providerID (IsControlPlaneMachine : clusterv1.Machine → Bool)
    (worker controlPlane : String) (machine : clusterv1.Machine)
    (baremetalMachine : infrav1.BareMetalMachine) (externalMachine : baremetal.Machine)
    (externalLoadBalancer : baremetal.LoadBalancer) :
    (∀ id, baremetalMachine.Spec.ProviderID = some id →
      (reconcileNormal IsControlPlaneMachine worker controlPlane machine baremetalMachine
        externalMachine externalLoadBalancer).1.Spec.ProviderID = some id ∧
      (reconcileNormal IsControlPlaneMachine worker controlPlane machine baremetalMachine
        externalMachine externalLoadBalancer).2 = none) ∧
    (baremetalMachine.Spec.ProviderID = none → ∀ data, machine.BootstrapData = some data →
      (reconcileNormal IsControlPlaneMachine worker controlPlane machine baremetalMachine
        externalMachine externalLoadBalancer).1.Spec.ProviderID =
        some externalMachine.ProviderID) := by
  constructor
  · intro id hid
    unfold reconcileNormal
    by_cases hf : MachineFinalizer ∈ baremetalMachine.Finalizers
    · simp [hf, hid]
    · simp [hf, hid]
  · intro hid data hdata
    unfold reconcileNormal
    by_cases hf : MachineFinalizer ∈ baremetalMachine.Finalizers
    · by_cases hcp : IsControlPlaneMachine machine = true <;>
        simp [hf, hid, hdata, hcp, baremetal.Machine.Create,
          baremetal.LoadBalancer.UpdateConfiguration, baremetal.Machine.ExecBootstrap,
          baremetal.Machine.SetNodeProviderID]
    · by_cases hcp : IsControlPlaneMachine machine = true <;>
        simp [hf, hid, hdata, hcp, baremetal.Machine.Create,
          baremetal.LoadBalancer.UpdateConfiguration, baremetal.Machine.ExecBootstrap,
          baremetal.Machine.SetNodeProviderID]

/-- C27: the provider ID of the cluster `test-cluster` and the machine `machine-1`, which
`NewMachine` accepts, is `docker:////test-cluster-machine-1` and not the text
`baremetal:////test-cluster-machine-1`; `reconcileNormal` writes it to a `BareMetalMachine`
without provider ID, and leaves a provider ID that is set. -/
theorem ProviderID_docker :
    baremetal.NewMachine "test-cluster" "machine-1" sampleImage true =
      .ok { cluster := "test-cluster", machine := "machine-1", image := sampleImage.URL } ∧
    baremetal.Machine.ProviderID
        { cluster := "test-cluster", machine := "machine-1", image := sampleImage.URL } =
      "docker:////test-cluster-machine-1" ∧
    baremetal.Machine.ProviderID
        { cluster := "test-cluster", machine := "machine-1", image := sampleImage.URL } ≠
      "baremetal:////" ++ "test-cluster" ++ "-" ++ "machine-1" ∧
    (reconcileNormal (fun _ => false) "worker" "control-plane" bootstrappedMachine
        { Spec := { Image := sampleImage } }
        { cluster := "test-cluster", machine := "machine-1", image := sampleImage.URL }
        { name := "test-cluster" }).1.Spec.ProviderID =
      some "docker:////test-cluster-machine-1" ∧
    (reconcileNormal (fun _ => false) "worker" "control-plane" bootstrappedMachine
        provisionedMachine
        { cluster := "test-cluster", machine := "machine-1", image := sampleImage.URL }
        { name := "test-cluster" }).1.Spec.ProviderID =
      some "baremetal:////machine-1" := by
  refine ⟨rfl, by decide, by decide, by decide, by decide⟩

/-! ## The operators of the host selector -/

/-- No value fails a check exactly when the search for the first error finds none. -/
theorem firstError_none_iff (check : String → Option String) (vals : List String) :
    firstError check vals = none ↔ ∀ v, v ∈ vals → check v = none := by
  induction vals with
  | nil => simp [firstError]
  | cons v rest ih =>
    unfold firstError
    cases hv : check v with
    | some err =>
      constructor
      · intro h
        cases h
      · intro h
        rw [h v (List.mem_cons_self _ _)] at hv
        cases hv
    | none =>
      simp only [ih]
      constructor
      · intro h w hw
        rcases List.mem_cons.mp hw with rfl | hw
        · exact hv
        · exact h w hw
      · intro h w hw
        exact h w (List.mem_cons_of_mem _ hw)

/-- The `switch` on the operator finds no error exactly for the nine operators of the
library with the number of values each takes. -/
theorem operatorError_none_iff (syn : LabelSyntax) (op : String) (vals : List String) :
    operatorError syn op vals = none ↔ OperatorAccepts syn op vals := by
  unfold operatorError OperatorAccepts
  simp only [selectionIn, selectionNotIn, selectionEquals, selectionDoubleEquals,
    selectionNotEquals, selectionExists, selectionDoesNotExist, selectionGreaterThan,
    selectionLessThan]
  by_cases h1 : op = "in" ∨ op = "notin"
  · have n2 : ¬ (op = "=" ∨ op = "==" ∨ op = "!=") := by
      rcases h1 with rfl | rfl <;> decide
    have n3 : ¬ (op = "exists" ∨ op = "!") := by
      rcases h1 with rfl | rfl <;> decide
    have n4 : ¬ (op = "gt" ∨ op = "lt") := by
      rcases h1 with rfl | rfl <;> decide
    simp only [h1, if_true, n2, n3, n4, true_and, false_and, or_false]
    cases vals <;> simp
  · by_cases h2 : op = "=" ∨ op = "==" ∨ op = "!="
    · have n3 : ¬ (op = "exists" ∨ op = "!") := by
        rcases h2 with rfl | rfl | rfl <;> decide
      have n4 : ¬ (op = "gt" ∨ op = "lt") := by
        rcases h2 with rfl | rfl | rfl <;> decide
      simp only [h1, if_false, h2, if_true, n3, n4, true_and, false_and, or_false, false_or]
      by_cases hl : vals.length = 1 <;> simp [hl]
    · by_cases h3 : op = "exists" ∨ op = "!"
      · have n4 : ¬ (op = "gt" ∨ op = "lt") := by
          rcases h3 with rfl | rfl <;> decide
        simp only [h1, if_false, h2, h3, if_true, n4, true_and, false_and, or_false, false_or]
        cases vals <;> simp
      · by_cases h4 : op = "gt" ∨ op = "lt"
        · simp only [h1, if_false, h2, h3, h4, if_true, true_and, false_and, false_or]
          by_cases hl : vals.length = 1
          · simp only [hl, ne_eq, not_true_eq_false, if_false, true_and]
            cases hf : firstError syn.parseInt vals with
            | none => simpa using (firstError_none_iff _ _).mp hf
            | some e =>
              constructor
              · intro h
                cases h
              · intro hall
                rw [(firstError_none_iff _ _).mpr hall] at hf
                cases hf
          · simp [hl]
        · simp [h1, h2, h3, h4]

/-- The library accepts a requirement exactly when the key passes its check, the operator is
one of the nine with the number of values it takes, and the values pass their check. -/
theorem NewRequirement_ok_iff (syn : LabelSyntax) (key op : String) (vals : List String) :
    (∃ r, labels.NewRequirement syn key op vals = .ok r) ↔
      syn.validateLabelKey key = none ∧ OperatorAccepts syn op vals ∧
        ∀ v, v ∈ vals → syn.validateLabelValue v = none := by
  unfold labels.NewRequirement
  cases hk : syn.validateLabelKey key with
  | some e => simp
  | none =>
    cases ho : operatorError syn op vals with
    | some e =>
      have : ¬ OperatorAccepts syn op vals := by
        intro h
        rw [(operatorError_none_iff syn op vals).mpr h] at ho
        cases ho
      simp [this]
    | none =>
      have hacc := (operatorError_none_iff syn op vals).mp ho
      cases hv : firstError syn.validateLabelValue vals with
      | some e =>
        have : ¬ ∀ v, v ∈ vals → syn.validateLabelValue v = none := by
          intro h
          rw [(firstError_none_iff _ _).mpr h] at hv
          cases hv
        simp [this]
      | none =>
        have hall := (firstError_none_iff _ _).mp hv
        simp only [true_and]
        exact ⟨fun _ => ⟨hacc, hall⟩, fun _ => ⟨_, rfl⟩⟩

/-- The loop over the expressions fails exactly when the library refuses one of them with
its operator in lower case. -/
theorem matchExpressionsReqs_error_iff (lib : Lib) (exprs : List HostSelectorRequirement) :
    ∀ reqs : List Requirement,
      (∃ err, matchExpressionsReqs lib exprs reqs = .error err) ↔
        ∃ req, req ∈ exprs ∧
          ¬ ∃ r, lib.NewRequirement req.Key (lib.ToLower req.Operator) req.Values = .ok r := by
  induction exprs with
  | nil =>
    intro reqs
    simp [matchExpressionsReqs]
  | cons req rest ih =>
    intro reqs
    unfold matchExpressionsReqs
    cases hr : lib.NewRequirement req.Key (lib.ToLower req.Operator) req.Values with
    | error msg =>
      simp only [Except.error.injEq, exists_eq', true_iff]
      exact ⟨req, List.mem_cons_self _ _, by simp [hr]⟩
    | ok r =>
      simp only [ih]
      constructor
      · rintro ⟨q, hq, hn⟩
        exact ⟨q, List.mem_cons_of_mem _ hq, hn⟩
      · rintro ⟨q, hq, hn⟩
        rcases List.mem_cons.mp hq with rfl | hq
        · exact absurd ⟨r, hr⟩ hn
        · exact ⟨q, hq, hn⟩

/-- A character whose lower case is an ASCII character is one. -/
theorem toNat_lt_of_toLower (c : Char) (h : c.toLower.toNat < 128) : c.toNat < 128 := by
  unfold Char.toLower at h
  by_cases hr : c.toNat ≥ 65 ∧ c.toNat ≤ 90
  · omega
  · simp only [hr, if_false] at h
    exact h

/-- A string whose lower case is a string of ASCII characters is one. -/
theorem isASCII_of_asciiLower (s t : String) (h : asciiLower s = t) (ht : isASCII t = true) :
    isASCII s = true := by
  subst h
  simp only [isASCII, asciiLower, List.all_eq_true, decide_eq_true_eq, List.mem_map,
    forall_exists_index, and_imp, forall_apply_eq_imp_iff₂] at ht ⊢
  intro c hc
  exact toNat_lt_of_toLower c (ht c hc)

/-- C22, as the code has it: with a client that answers and match labels the library
accepts, `chooseHost` returns an error (and so no host) if and only if the library refuses
one of the match expressions, and the library accepts an expression exactly when its key and
its values pass the syntax checks and its operator, put in lower case, is one of the
operator strings of the library, `in`, `notin`, `=`, `==`, `!=`, `exists`, `!`, `gt`, `lt`,
with the number of values this operator takes.  So, `strings.ToLower` putting the ASCII
letters in lower case, an operator that is `in` or `notin` up to the case of its letters is
accepted with at least one value, one that is `exists` up to the case of its letters is
accepted without values, and `chooseHost` returns no error when every expression is of one
of these forms with a key and values that pass the checks. -/
theorem chooseHost_operators (syn : LabelSyntax) (lib : Lib)
    (hlib : lib.NewRequirement = labels.NewRequirement syn)
    (hlower : ∀ s, isASCII s = true → lib.ToLower s = asciiLower s)
    (c : Client) (machine : Machine)
    (config : BareMetalMachineProviderSpec) (hlist : c.listErr = none)
    (labelReqs : List Requirement)
    (hlabels : matchLabelsReqs lib config.HostSelector.MatchLabels [] = .ok labelReqs) :
    ((∃ err, chooseHost lib c machine config = .error err) ↔
      ∃ req, req ∈ config.HostSelector.MatchExpressions ∧
        ¬ (syn.validateLabelKey req.Key = none ∧
          OperatorAccepts syn (lib.ToLower req.Operator) req.Values ∧
          ∀ v, v ∈ req.Values → syn.validateLabelValue v = none)) ∧
    (∀ op vals, (asciiLower op = "in" ∨ asciiLower op = "notin") → vals ≠ [] →
      OperatorAccepts syn (lib.ToLower op) vals) ∧
    (∀ op, asciiLower op = "exists" → OperatorAccepts syn (lib.ToLower op) []) ∧
    (∀ op vals, asciiLower op = "doesnotexist" → ¬ OperatorAccepts syn (lib.ToLower op) vals) ∧
    ((∀ req, req ∈ config.HostSelector.MatchExpressions →
        syn.validateLabelKey req.Key = none ∧
        (∀ v, v ∈ req.Values → syn.validateLabelValue v = none) ∧
        (((asciiLower req.Operator = "in" ∨ asciiLower req.Operator = "notin") ∧
            req.Values ≠ []) ∨
          (asciiLower req.Operator = "exists" ∧ req.Values = []))) →
      ¬ ∃ err, chooseHost lib c machine config = .error err) := by
  have hiff := matchExpressionsReqs_error_iff lib config.HostSelector.MatchExpressions labelReqs
  have hacc : ∀ req : HostSelectorRequirement,
      (∃ r, lib.NewRequirement req.Key (lib.ToLower req.Operator) req.Values = .ok r) ↔
        (syn.validateLabelKey req.Key = none ∧
          OperatorAccepts syn (lib.ToLower req.Operator) req.Values ∧
          ∀ v, v ∈ req.Values → syn.validateLabelValue v = none) := by
    intro req
    rw [hlib]
    exact NewRequirement_ok_iff syn _ _ _
  have hchoose : (∃ err, chooseHost lib c machine config = .error err) ↔
      ∃ err, matchExpressionsReqs lib config.HostSelector.MatchExpressions labelReqs =
        .error err := by
    unfold chooseHost
    simp only [Client.List, hlist, selectorReqs, hlabels]
    cases hm : matchExpressionsReqs lib config.HostSelector.MatchExpressions labelReqs with
    | error e => simp
    | ok reqs =>
      constructor
      · rintro ⟨err, h⟩
        exfalso
        cases hs : scanHosts lib reqs machine
            (c.hosts.filter fun h => decide (h.Namespace = machine.Namespace)) [] with
        | inl host => simp [hs] at h
        | inr availableHosts =>
          simp only [hs] at h
          by_cases hl : availableHosts.length = 0
          · simp [hl] at h
          · simp only [hl, if_false] at h
            split at h <;> cases h
      · rintro ⟨err, h⟩
        cases h
  have hmain : (∃ err, chooseHost lib c machine config = .error err) ↔
      ∃ req, req ∈ config.HostSelector.MatchExpressions ∧
        ¬ (syn.validateLabelKey req.Key = none ∧
          OperatorAccepts syn (lib.ToLower req.Operator) req.Values ∧
          ∀ v, v ∈ req.Values → syn.validateLabelValue v = none) := by
    rw [hchoose, hiff]
    constructor
    · rintro ⟨req, hreq, hn⟩
      exact ⟨req, hreq, fun h => hn ((hacc req).mpr h)⟩
    · rintro ⟨req, hreq, hn⟩
      exact ⟨req, hreq, fun h => hn ((hacc req).mp h)⟩
  have hlow : ∀ op t, asciiLower op = t → isASCII t = true → lib.ToLower op = t := by
    intro op t h ht
    rw [hlower op (isASCII_of_asciiLower op t h ht), h]
  have hin : ∀ op vals, (asciiLower op = "in" ∨ asciiLower op = "notin") → vals ≠ [] →
      OperatorAccepts syn (lib.ToLower op) vals := by
    intro op vals hop hv
    rcases hop with h | h
    · rw [hlow op "in" h (by decide)]
      exact Or.inl ⟨Or.inl rfl, hv⟩
    · rw [hlow op "notin" h (by decide)]
      exact Or.inl ⟨Or.inr rfl, hv⟩
  have hex : ∀ op, asciiLower op = "exists" → OperatorAccepts syn (lib.ToLower op) [] := by
    intro op h
    rw [hlow op "exists" h (by decide)]
    exact Or.inr (Or.inr (Or.inl ⟨Or.inl rfl, rfl⟩))
  refine ⟨hmain, hin, hex, ?_, ?_⟩
  · intro op vals h hacc'
    rw [hlow op "doesnotexist" h (by decide)] at hacc'
    simp [OperatorAccepts] at hacc'
  · intro hall herr
    obtain ⟨req, hreq, hn⟩ := hmain.mp herr
    obtain ⟨hkey, hvals, hop⟩ := hall req hreq
    apply hn
    refine ⟨hkey, ?_, hvals⟩
    rcases hop with ⟨hop, hv⟩ | ⟨hop, hv⟩
    · exact hin _ _ hop hv
    · rw [hv]
      exact hex _ hop

/-- Two instances of the preceding theorem: the operator `IN` with the values of the test of
`chooseHost` is accepted and the labelled host is chosen, and the operator `pancakes` of the
test is refused. -/
theorem chooseHost_operators_witness :
    chooseHost labelLib { hosts := [hostFree] } sampleMachine
        (configWithExpression "IN" ["abc", "value1", "123"]) = .host hostFree ∧
    (¬ ∃ err, chooseHost labelLib { hosts := [hostFree] } sampleMachine
        (configWithExpression "IN" ["abc", "value1", "123"]) = .error err) ∧
    chooseHost labelLib { hosts := [hostFree] } sampleMachine
        (configWithExpression "pancakes" ["abc", "value1", "123"]) =
      .error (.requirement "operator 'pancakes' is not recognized") ∧
    ∃ err, chooseHost labelLib { hosts := [hostFree] } sampleMachine
        (configWithExpression "pancakes" ["abc", "value1", "123"]) = .error err :=
  ⟨rfl,
    (chooseHost_operators sampleSyntax labelLib rfl (fun _ _ => rfl) { hosts := [hostFree] }
      sampleMachine (configWithExpression "IN" ["abc", "value1", "123"]) rfl [] rfl).2.2.2.2
      (by
        intro req hreq
        simp only [configWithExpression, List.mem_singleton] at hreq
        subst hreq
        refine ⟨by decide, fun _ _ => rfl, Or.inl ⟨Or.inl (by decide), by simp⟩⟩),
    rfl,
    (chooseHost_operators sampleSyntax labelLib rfl (fun _ _ => rfl) { hosts := [hostFree] }
      sampleMachine (configWithExpression "pancakes" ["abc", "value1", "123"]) rfl [] rfl).1.mpr
      ⟨{ Key := "key1", Operator := "pancakes", Values := ["abc", "value1", "123"] },
        by simp [configWithExpression],
        fun h => by
          have e : labelLib.ToLower "pancakes" = "pancakes" := by decide
          have h2 := h.2.1
          simp only [e] at h2
          simp [OperatorAccepts] at h2⟩⟩

/-- C22 as stated fails: the operator `DoesNotExist`, one of the four of the claim and
without values, is refused, because its lower case is not the operator string `!` of the
library; and the operator `=` with one value, which is none of the four, is accepted and a
host is returned. -/
theorem chooseHost_operators_counterexample :
    ("DoesNotExist" : String) ∈ ["In", "NotIn", "Exists", "DoesNotExist"] ∧
    chooseHost labelLib { hosts := [hostFree] } sampleMachine
        (configWithExpression "DoesNotExist" []) =
      .error (.requirement "operator 'doesnotexist' is not recognized") ∧
    labelLib.ToLower "=" ∉ ["in", "notin", "exists", "doesnotexist"] ∧
    chooseHost labelLib { hosts := [hostFree] } sampleMachine
        (configWithExpression "=" ["value1"]) = .host hostFree := by
  refine ⟨by decide, rfl, by decide, rfl⟩

end Baremetal
